import Mathlib

/-!
Verification of the dexter repository's core: the agent orchestration loop
(src/agent/agent.ts), the context compaction engine (src/utils/data-compactor),
the query analyzer (src/utils/query-analyzer) and the token estimator
(src/utils/token-counter), as a shallow embedding in Lean.

Modelling conventions:
- JavaScript strings are Lean Strings; lengths count unicode scalar values.
- JSON numbers are modelled as integers (the repository's data never depends
  on fractional values); a numeral with a fraction or exponent is treated as
  unparseable.
- JavaScript objects are association lists preserving insertion order.
- The builtin Date parser is modelled for ISO-style numeric date strings
  (YYYY, YYYY-MM, YYYY-MM-DD with dash or slash separators); month-name forms
  are out of model.  Parsed dates are compared through a key that orders
  chronologically.
- The current instant (new Date()) is threaded as an explicit parameter.
- External collaborators of the agent (language model, tools, context store,
  streaming) are oracles indexed by call order, so that one run of the model
  covers every possible sequence of collaborator behaviours.
-/

set_option maxHeartbeats 1000000
set_option maxRecDepth 100000

namespace Dexter

/-- A single ASCII apostrophe character (codepoint 39). -/
def apos : Char := Char.ofNat 39

/-- A single ASCII apostrophe, used where source strings contain one. -/
def aposS : String := String.singleton apos

/-- ASCII double quote (codepoint 34). -/
def dquote : Char := Char.ofNat 34

/-- ASCII backslash (codepoint 92). -/
def bslash : Char := Char.ofNat 92

/-- Character-level prefix of a string (model of slice from zero; counts
unicode scalar values, kernel-evaluable unlike the byte-based core take). -/
def strTake (s : String) (n : Nat) : String := String.mk (s.data.take n)

/-- Character-level startsWith. -/
def strStartsWith (s p : String) : Bool := p.data.isPrefixOf s.data

/-- Lexicographic comparison of character lists by codepoint (the JavaScript
default sort comparator on decimal strings). -/
def charListLe : List Char → List Char → Bool
  | [], _ => true
  | _ :: _, [] => false
  | a :: as, b :: bs =>
      if a.toNat < b.toNat then true
      else if b.toNat < a.toNat then false
      else charListLe as bs

/-- Decide whether a character is a decimal digit. -/
def isDigitChar (c : Char) : Bool := 48 ≤ c.toNat && c.toNat ≤ 57

/-- Numeric value of a decimal digit character. -/
def digitVal (c : Char) : Nat := c.toNat - 48

/-- Decimal digit character for a value below ten. -/
def decDigitChar (n : Nat) : Char := Char.ofNat (48 + n)

/-- Decimal representation of a natural number, accumulator form; the fuel
bounds the number of divisions by ten and is kept structural so that the
kernel can evaluate it (the wrapper supplies n, always enough since the
value shrinks by a factor of ten each step). -/
def natToDecAux : Nat → Nat → List Char → List Char
  | 0, n, acc => decDigitChar n :: acc
  | fuel + 1, n, acc =>
      if n < 10 then decDigitChar n :: acc
      else natToDecAux fuel (n / 10) (decDigitChar (n % 10) :: acc)

/-- Decimal representation of a natural number as a character list. -/
def natToDec (n : Nat) : List Char := natToDecAux n n []

/-- Decimal representation of an integer (model of JavaScript number printing
for integral values). -/
def intToDec (n : Int) : List Char :=
  if n < 0 then Char.ofNat 45 :: natToDec n.natAbs else natToDec n.natAbs

/-- Model of `estimateTokens(text)` for prose (token-counter.ts): zero for the
empty string, otherwise the ceiling of length / 4. -/
def estimateTokensText (s : String) : Nat :=
  if s.length = 0 then 0 else (s.length + 3) / 4

/-- Model of `estimateTokens(text, 'json')` (token-counter.ts): zero for the
empty string, otherwise the ceiling of length / 3.5, that is of
(2 * length) / 7. -/
def estimateTokensJson (s : String) : Nat :=
  if s.length = 0 then 0 else (2 * s.length + 6) / 7

/-- Model of `estimateJsonTokens` applied to a string argument (the only way
the compactor uses it): token estimate of the string with the json ratio. -/
def estimateJsonTokens (s : String) : Nat := estimateTokensJson s

mutual

/-- JSON values as manipulated by the compactor.  Objects are field
sequences in insertion order; numbers are modelled as integers.  Arrays and
objects are separate mutual inductives so that every recursive function
over values is structural and kernel-evaluable. -/
inductive JValue where
  | null : JValue
  | bool (b : Bool) : JValue
  | num (n : Int) : JValue
  | str (s : String) : JValue
  | arr (items : JArr) : JValue
  | obj (fields : JObj) : JValue

/-- A JSON array: a sequence of values. -/
inductive JArr where
  | nil : JArr
  | cons (head : JValue) (tail : JArr) : JArr

/-- A JSON object: a sequence of key-value fields. -/
inductive JObj where
  | nil : JObj
  | cons (key : String) (value : JValue) (tail : JObj) : JObj

end

/-- Number of elements of an array. -/
def JArr.length : JArr → Nat
  | .nil => 0
  | .cons _ t => JArr.length t + 1

/-- First n elements of an array. -/
def JArr.take : Nat → JArr → JArr
  | 0, _ => .nil
  | _, .nil => .nil
  | n + 1, .cons h t => .cons h (JArr.take n t)

/-- Array without its first n elements. -/
def JArr.drop : Nat → JArr → JArr
  | 0, l => l
  | _ + 1, .nil => .nil
  | n + 1, .cons _ t => JArr.drop n t

/-- Does any element satisfy p. -/
def JArr.anyP (p : JValue → Bool) : JArr → Bool
  | .nil => false
  | .cons h t => p h || JArr.anyP p t

/-- Elements satisfying p. -/
def JArr.filterP (p : JValue → Bool) : JArr → JArr
  | .nil => .nil
  | .cons h t => if p h then .cons h (JArr.filterP p t) else JArr.filterP p t

/-- Array from a list. -/
def JArr.ofList : List JValue → JArr
  | [] => .nil
  | x :: xs => .cons x (JArr.ofList xs)

/-- Field value for a key: the first occurrence, as in a JavaScript object
(the parser keeps duplicate keys, which JavaScript objects cannot carry, so
any occurrence policy is consistent). -/
def JObj.lookup (k : String) : JObj → Option JValue
  | .nil => none
  | .cons k2 v t => if k2 = k then some v else JObj.lookup k t

/-- Object from a field list. -/
def JObj.ofList : List (String × JValue) → JObj
  | [] => .nil
  | (k, v) :: fs => .cons k v (JObj.ofList fs)

/-- Escape one character the way `JSON.stringify` escapes string contents:
quote, backslash, and the named control escapes, with a unicode escape for
the remaining control characters. -/
def escapeChar (c : Char) : List Char :=
  if c = dquote then [bslash, dquote]
  else if c = bslash then [bslash, bslash]
  else if c.toNat = 8 then [bslash, Char.ofNat 98]
  else if c.toNat = 9 then [bslash, Char.ofNat 116]
  else if c.toNat = 10 then [bslash, Char.ofNat 110]
  else if c.toNat = 12 then [bslash, Char.ofNat 102]
  else if c.toNat = 13 then [bslash, Char.ofNat 114]
  else if c.toNat < 32 then
    [bslash, Char.ofNat 117, Char.ofNat 48, Char.ofNat 48,
     (if c.toNat / 16 < 10 then Char.ofNat (48 + c.toNat / 16) else Char.ofNat (87 + c.toNat / 16)),
     (if c.toNat % 16 < 10 then Char.ofNat (48 + c.toNat % 16) else Char.ofNat (87 + c.toNat % 16))]
  else [c]

/-- Escaped body of a JSON string literal. -/
def escapeString (l : List Char) : List Char := l.foldr (fun c acc => escapeChar c ++ acc) []

/-- A JSON string literal, quotes included. -/
def quoteChars (s : String) : List Char := dquote :: escapeString s.data ++ [dquote]

/-- Indentation of n spaces. -/
def pad (n : Nat) : List Char := List.replicate n (Char.ofNat 32)

mutual

/-- Model of `JSON.stringify`: p = false renders minified (the default,
`JSON.stringify(v)`), p = true renders `JSON.stringify(v, null, 2)` with the
current indentation depth carried in ind. -/
def render (p : Bool) (ind : Nat) : JValue → List Char
  | .null => [Char.ofNat 110, Char.ofNat 117, Char.ofNat 108, Char.ofNat 108]
  | .bool true => [Char.ofNat 116, Char.ofNat 114, Char.ofNat 117, Char.ofNat 101]
  | .bool false => [Char.ofNat 102, Char.ofNat 97, Char.ofNat 108, Char.ofNat 115, Char.ofNat 101]
  | .num n => intToDec n
  | .str s => quoteChars s
  | .arr .nil => [Char.ofNat 91, Char.ofNat 93]
  | .arr (.cons x xs) =>
      Char.ofNat 91 ::
        ((if p then Char.ofNat 10 :: pad (ind + 2) else []) ++
         renderItems p (ind + 2) (.cons x xs) ++
         (if p then Char.ofNat 10 :: pad ind else []) ++ [Char.ofNat 93])
  | .obj .nil => [Char.ofNat 123, Char.ofNat 125]
  | .obj (.cons k v fs) =>
      Char.ofNat 123 ::
        ((if p then Char.ofNat 10 :: pad (ind + 2) else []) ++
         renderFields p (ind + 2) (.cons k v fs) ++
         (if p then Char.ofNat 10 :: pad ind else []) ++ [Char.ofNat 125])

/-- Comma-separated rendering of array elements (with the pretty layout's
newline and indentation after each comma when p = true). -/
def renderItems (p : Bool) (ind : Nat) : JArr → List Char
  | .nil => []
  | .cons x .nil => render p ind x
  | .cons x (.cons y rest) =>
      render p ind x ++
        Char.ofNat 44 :: ((if p then Char.ofNat 10 :: pad ind else []) ++
          renderItems p ind (.cons y rest))

/-- Comma-separated rendering of object members. -/
def renderFields (p : Bool) (ind : Nat) : JObj → List Char
  | .nil => []
  | .cons k v .nil =>
      quoteChars k ++ Char.ofNat 58 :: ((if p then [Char.ofNat 32] else []) ++ render p ind v)
  | .cons k v (.cons k2 v2 rest) =>
      quoteChars k ++ Char.ofNat 58 :: ((if p then [Char.ofNat 32] else []) ++ render p ind v) ++
        Char.ofNat 44 :: ((if p then Char.ofNat 10 :: pad ind else []) ++
          renderFields p ind (.cons k2 v2 rest))

end

/-- Minified serialization, `JSON.stringify(v)`. -/
def stringifyMin (v : JValue) : String := String.mk (render false 0 v)

/-- Pretty serialization, `JSON.stringify(v, null, 2)`. -/
def stringifyPretty (v : JValue) : String := String.mk (render true 0 v)

/-- Decide whether a character is JSON whitespace (space, tab, newline,
carriage return). -/
def isWsChar (c : Char) : Bool :=
  c.toNat = 32 || c.toNat = 9 || c.toNat = 10 || c.toNat = 13

/-- Skip leading JSON whitespace. -/
def skipWs : List Char → List Char
  | [] => []
  | c :: cs => if isWsChar c then skipWs cs else c :: cs

/-- Value of a hexadecimal digit character. -/
def hexVal (c : Char) : Option Nat :=
  if 48 ≤ c.toNat && c.toNat ≤ 57 then some (c.toNat - 48)
  else if 97 ≤ c.toNat && c.toNat ≤ 102 then some (c.toNat - 87)
  else if 65 ≤ c.toNat && c.toNat ≤ 70 then some (c.toNat - 55)
  else none

/-- Parse the body of a JSON string literal (after the opening quote),
accumulating the decoded characters in reverse. -/
def parseStringBody (acc : List Char) : List Char → Option (String × List Char)
  | [] => none
  | c :: cs =>
    if c = dquote then some (String.mk acc.reverse, cs)
    else if c = bslash then
      match cs with
      | [] => none
      | e :: cs' =>
        if e = dquote then parseStringBody (dquote :: acc) cs'
        else if e = bslash then parseStringBody (bslash :: acc) cs'
        else if e.toNat = 47 then parseStringBody (Char.ofNat 47 :: acc) cs'
        else if e.toNat = 98 then parseStringBody (Char.ofNat 8 :: acc) cs'
        else if e.toNat = 102 then parseStringBody (Char.ofNat 12 :: acc) cs'
        else if e.toNat = 110 then parseStringBody (Char.ofNat 10 :: acc) cs'
        else if e.toNat = 114 then parseStringBody (Char.ofNat 13 :: acc) cs'
        else if e.toNat = 116 then parseStringBody (Char.ofNat 9 :: acc) cs'
        else if e.toNat = 117 then
          match cs' with
          | h1 :: h2 :: h3 :: h4 :: cs'' =>
            match hexVal h1, hexVal h2, hexVal h3, hexVal h4 with
            | some a, some b, some c3, some d =>
                parseStringBody (Char.ofNat (a * 4096 + b * 256 + c3 * 16 + d) :: acc) cs''
            | _, _, _, _ => none
          | _ => none
        else none
    else if c.toNat < 32 then none
    else parseStringBody (c :: acc) cs

/-- Parse a run of decimal digits, accumulator form. -/
def parseDigitsAux (acc : Nat) : List Char → Nat × List Char
  | [] => (acc, [])
  | c :: cs => if isDigitChar c then parseDigitsAux (acc * 10 + digitVal c) cs else (acc, c :: cs)

/-- Parse a JSON integer numeral; a following fraction dot or exponent marker
makes the numeral unrepresentable in the integer model and fails. -/
def parseNumber : List Char → Option (Int × List Char)
  | [] => none
  | c :: cs =>
    let neg : Bool := c.toNat = 45
    let body : List Char := if neg then cs else c :: cs
    match body with
    | [] => none
    | d :: _ =>
      if isDigitChar d then
        match parseDigitsAux 0 body with
        | (n, rest) =>
          match rest with
          | r :: _ =>
            if r.toNat = 46 || r.toNat = 101 || r.toNat = 69 then none
            else some (if neg then -(n : Int) else (n : Int), rest)
          | [] => some (if neg then -(n : Int) else (n : Int), rest)
      else none

/-- Expect a fixed character sequence. -/
def expectChars : List Char → List Char → Option (List Char)
  | [], cs => some cs
  | e :: es, c :: cs => if c = e then expectChars es cs else none
  | _ :: _, [] => none

mutual

/-- Fuel-bounded model of `JSON.parse` for a single value; returns the value
and the unconsumed input. -/
def parseVal : Nat → List Char → Option (JValue × List Char)
  | 0, _ => none
  | fuel + 1, cs =>
    match skipWs cs with
    | [] => none
    | c :: rest =>
      if c.toNat = 110 then
        match expectChars [Char.ofNat 117, Char.ofNat 108, Char.ofNat 108] rest with
        | some rest' => some (.null, rest')
        | none => none
      else if c.toNat = 116 then
        match expectChars [Char.ofNat 114, Char.ofNat 117, Char.ofNat 101] rest with
        | some rest' => some (.bool true, rest')
        | none => none
      else if c.toNat = 102 then
        match expectChars [Char.ofNat 97, Char.ofNat 108, Char.ofNat 115, Char.ofNat 101] rest with
        | some rest' => some (.bool false, rest')
        | none => none
      else if c = dquote then
        match parseStringBody [] rest with
        | some (s, rest') => some (.str s, rest')
        | none => none
      else if c.toNat = 91 then
        match parseArrTail fuel rest with
        | some (items, rest') => some (.arr items, rest')
        | none => none
      else if c.toNat = 123 then
        match parseObjTail fuel rest with
        | some (fields, rest') => some (.obj fields, rest')
        | none => none
      else if c.toNat = 45 || isDigitChar c then
        match parseNumber (c :: rest) with
        | some (n, rest') => some (.num n, rest')
        | none => none
      else none

/-- Parse the elements of an array after the opening bracket. -/
def parseArrTail : Nat → List Char → Option (JArr × List Char)
  | 0, _ => none
  | fuel + 1, cs =>
    match skipWs cs with
    | c :: rest =>
      if c.toNat = 93 then some (.nil, rest)
      else
        match parseVal fuel cs with
        | some (v, cs1) =>
          match skipWs cs1 with
          | c1 :: cs2 =>
            if c1.toNat = 44 then
              match parseArrTail fuel cs2 with
              | some (vs, cs3) => some (.cons v vs, cs3)
              | none => none
            else if c1.toNat = 93 then some (.cons v .nil, cs2)
            else none
          | [] => none
        | none => none
    | [] => none

/-- Parse the members of an object after the opening brace. -/
def parseObjTail : Nat → List Char → Option (JObj × List Char)
  | 0, _ => none
  | fuel + 1, cs =>
    match skipWs cs with
    | c :: rest =>
      if c.toNat = 125 then some (.nil, rest)
      else if c = dquote then
        match parseStringBody [] rest with
        | some (k, cs1) =>
          match skipWs cs1 with
          | c1 :: cs2 =>
            if c1.toNat = 58 then
              match parseVal fuel cs2 with
              | some (v, cs3) =>
                match skipWs cs3 with
                | c2 :: cs4 =>
                  if c2.toNat = 44 then
                    match parseObjTail fuel cs4 with
                    | some (fs, cs5) => some (.cons k v fs, cs5)
                    | none => none
                  else if c2.toNat = 125 then some (.cons k v .nil, cs4)
                  else none
                | [] => none
              | none => none
            else none
          | [] => none
        | none => none
      else none
    | [] => none

end

/-- Model of `JSON.parse` on a whole string: parse one value and require only
whitespace to remain. -/
def parseJson (s : String) : Option JValue :=
  match parseVal (2 * s.length + 2) s.data with
  | some (v, rest) => if skipWs rest = [] then some v else none
  | none => none

/-- Dates in the JavaScript style: a year, a zero-based month, and a
day of month.  Day-level arithmetic is modelled without end-of-month
normalization (no claim compares day-level results). -/
structure JDate where
  year : Int
  month : Int
  day : Int
deriving DecidableEq

/-- Is the year a leap year. -/
def isLeapYear (y : Int) : Bool := (y % 4 = 0 && y % 100 ≠ 0) || y % 400 = 0

/-- Days in a one-based month. -/
def daysInMonth (y : Int) (m : Nat) : Nat :=
  if m = 1 || m = 3 || m = 5 || m = 7 || m = 8 || m = 10 || m = 12 then 31
  else if m = 2 then (if isLeapYear y then 29 else 28)
  else 30

/-- Model of the builtin date parser (`new Date(s)` / `Date.parse(s)`)
restricted to numeric forms: YYYY, YYYY-MM, YYYY-MM-DD with dash or slash
separators and one- or two-digit month/day, validated against the calendar.
Month-name forms are out of model and fail. -/
def parseIsoDate (s : String) : Option JDate :=
  match s.data with
  | y1 :: y2 :: y3 :: y4 :: rest =>
    if isDigitChar y1 && isDigitChar y2 && isDigitChar y3 && isDigitChar y4 then
      let y : Int := Int.ofNat (digitVal y1 * 1000 + digitVal y2 * 100 + digitVal y3 * 10 + digitVal y4)
      match rest with
      | [] => some ⟨y, 0, 1⟩
      | sep :: r2 =>
        if sep.toNat = 45 || sep.toNat = 47 then
          let mc := (r2.takeWhile isDigitChar).length
          if mc = 1 || mc = 2 then
            let m := (r2.take mc).foldl (fun a c => a * 10 + digitVal c) 0
            if 1 ≤ m && m ≤ 12 then
              match r2.drop mc with
              | [] => some ⟨y, Int.ofNat (m - 1), 1⟩
              | sep2 :: r3 =>
                if sep2.toNat = 45 || sep2.toNat = 47 then
                  let dc := (r3.takeWhile isDigitChar).length
                  if dc = 1 || dc = 2 then
                    let d := (r3.take dc).foldl (fun a c => a * 10 + digitVal c) 0
                    if 1 ≤ d && d ≤ daysInMonth y m && r3.drop dc = [] then
                      some ⟨y, Int.ofNat (m - 1), Int.ofNat d⟩
                    else none
                  else none
                else none
            else none
          else none
        else none
    else none
  | _ => none

/-- Chronologically ordered key of a parsed date (model of comparing
`getTime()` values for dates the model can parse). -/
def dateKey (d : JDate) : Int := d.year * 10000 + d.month * 100 + d.day

/-- Test for the compactor's date-shape regex, anchored at the start of the
string: four digits, a dash or slash, one or two digits, a dash or slash,
one or two digits (trailing characters unrestricted). -/
def looksLikeDatePrefix (s : String) : Bool :=
  match s.data with
  | y1 :: y2 :: y3 :: y4 :: sep :: r2 =>
    isDigitChar y1 && isDigitChar y2 && isDigitChar y3 && isDigitChar y4 &&
    (sep.toNat = 45 || sep.toNat = 47) &&
    (let mc := (r2.takeWhile isDigitChar).length
     (1 ≤ mc) &&
      (let r3 := r2.drop (min mc 2)
       match r3 with
       | sep2 :: r4 => (sep2.toNat = 45 || sep2.toNat = 47) && 1 ≤ (r4.takeWhile isDigitChar).length
       | [] => false))
  | _ => false

/-- Subtract years (JavaScript setFullYear with a decremented year). -/
def subYears (d : JDate) (n : Int) : JDate := ⟨d.year - n, d.month, d.day⟩

/-- Subtract months, normalizing through the year (JavaScript setMonth). -/
def subMonths (d : JDate) (n : Int) : JDate :=
  ⟨Int.fdiv (d.year * 12 + d.month - n) 12, Int.fmod (d.year * 12 + d.month - n) 12, d.day⟩

/-- Subtract days (JavaScript setDate); day-of-month normalization is not
modelled. -/
def subDays (d : JDate) (n : Int) : JDate := ⟨d.year, d.month, d.day - n⟩

/-- Uppercase ASCII letter. -/
def isUpperAZ (c : Char) : Bool := 65 ≤ c.toNat && c.toNat ≤ 90

/-- Word character in the regex sense: letter, digit or underscore. -/
def isWordChar (c : Char) : Bool :=
  isDigitChar c || isUpperAZ c || (97 ≤ c.toNat && c.toNat ≤ 122) || c.toNat = 95

/-- Whitespace in the regex sense (backslash-s), approximated by the JSON
whitespace set plus form feed and vertical tab. -/
def isJsWs (c : Char) : Bool := isWsChar c || c.toNat = 12 || c.toNat = 11

/-- Length of the initial run satisfying p. -/
def countWhile (p : Char → Bool) (cs : List Char) : Nat := (cs.takeWhile p).length

/-- Decimal value of a digit list. -/
def digitsVal (l : List Char) : Nat := l.foldl (fun a c => a * 10 + digitVal c) 0

/-- Word boundary after a match: end of input or a non-word character. -/
def boundaryAfter : List Char → Bool
  | [] => true
  | c :: _ => !isWordChar c

/-- Case-insensitive literal matcher (the literal is given lowercase);
returns the number of characters consumed. -/
def matchLitCI : List Char → List Char → Option Nat
  | [], _ => some 0
  | l :: ls, c :: cs =>
      if Char.toLower c = l then
        match matchLitCI ls cs with
        | some n => some (n + 1)
        | none => none
      else none
  | _ :: _, [] => none

/-- Ordered choice of two length matchers. -/
def mOr (m1 m2 : List Char → Option Nat) (cs : List Char) : Option Nat :=
  match m1 cs with
  | some n => some n
  | none => m2 cs

/-- Sequencing of two length matchers. -/
def mSeq (m1 m2 : List Char → Option Nat) (cs : List Char) : Option Nat :=
  match m1 cs with
  | some n1 =>
    match m2 (cs.drop n1) with
    | some n2 => some (n1 + n2)
    | none => none
  | none => none

/-- One or more regex whitespace characters. -/
def mWs1 (cs : List Char) : Option Nat :=
  let n := countWhile isJsWs cs
  if n = 0 then none else some n

/-- One or more decimal digits. -/
def mDigits1 (cs : List Char) : Option Nat :=
  let n := countWhile isDigitChar cs
  if n = 0 then none else some n

/-- Optional matcher (zero length on failure). -/
def mOpt (m : List Char → Option Nat) (cs : List Char) : Option Nat :=
  match m cs with
  | some n => some n
  | none => some 0

/-- Scan the input left to right with the global-regex convention: at each
position try the matcher, collect its payload and continue after the match,
otherwise advance one character.  The structural fuel bounds the number of
steps; the wrapper supplies the input length, always enough since every
step consumes at least one character. -/
def scanCollectF {α : Type} (m : List Char → Option (Nat × α)) : Nat → List Char → List α
  | 0, _ => []
  | _, [] => []
  | fuel + 1, c :: cs =>
    match m (c :: cs) with
    | some (n, a) =>
        if n = 0 then scanCollectF m fuel cs
        else a :: scanCollectF m fuel ((c :: cs).drop n)
    | none => scanCollectF m fuel cs

/-- The scan at full fuel. -/
def scanCollect {α : Type} (m : List Char → Option (Nat × α)) (cs : List Char) : List α :=
  scanCollectF m cs.length cs

/-- Scan like scanCollect, additionally requiring a word boundary before the
match (the previous character, tracked in prevWord, is not a word
character). -/
def scanCollectBF {α : Type} (m : List Char → Option (Nat × α)) :
    Nat → Bool → List Char → List α
  | 0, _, _ => []
  | _, _, [] => []
  | fuel + 1, prevWord, c :: cs =>
    if prevWord then scanCollectBF m fuel (isWordChar c) cs
    else
      match m (c :: cs) with
      | some (n, a) =>
          if n = 0 then scanCollectBF m fuel (isWordChar c) cs
          else a :: scanCollectBF m fuel (isWordChar (((c :: cs).take n).getLastD c)) ((c :: cs).drop n)
      | none => scanCollectBF m fuel (isWordChar c) cs

/-- The boundary-aware scan at full fuel. -/
def scanCollectB {α : Type} (m : List Char → Option (Nat × α)) (prevWord : Bool)
    (cs : List Char) : List α :=
  scanCollectBF m cs.length prevWord cs

/-- Matcher payload wrapper producing the lowercased matched text. -/
def withLowerText (m : List Char → Option Nat) (cs : List Char) : Option (Nat × String) :=
  match m cs with
  | some n => if n = 0 then none else some (n, String.mk ((cs.take n).map Char.toLower))
  | none => none

/-- Matcher for the four-digit year pattern 19[89]d or 20[0-3]d (the range
1980 to 2039) with a word boundary on both sides; boundary before is handled
by the scanner. -/
def matchYear4At (cs : List Char) : Option (Nat × Nat) :=
  match cs with
  | c1 :: c2 :: c3 :: c4 :: rest =>
    if isDigitChar c1 && isDigitChar c2 && isDigitChar c3 && isDigitChar c4 && boundaryAfter rest then
      let v := digitsVal [c1, c2, c3, c4]
      if 1980 ≤ v && v ≤ 2039 then some (4, v) else none
    else none
  | _ => none

/-- Matcher for the fiscal-year pattern FY, an optional apostrophe, and two
to four digits, case-insensitive, with word boundaries; returns the raw
digit value. -/
def matchFYAt (cs : List Char) : Option (Nat × Nat) :=
  match matchLitCI [Char.ofNat 102, Char.ofNat 121] cs with
  | some _ =>
    let cs2 := cs.drop 2
    let aposLen : Nat := match cs2 with
      | a :: _ => if a = apos then 1 else 0
      | [] => 0
    let cs3 := cs2.drop aposLen
    let dc := countWhile isDigitChar cs3
    if 2 ≤ dc && dc ≤ 4 && boundaryAfter (cs3.drop dc) then
      some (2 + aposLen + dc, digitsVal (cs3.take dc))
    else none
  | none => none

/-- Model of `extractYears` (query-analyzer): four-digit years in 1980-2039,
then fiscal-year shorthand values (two-digit values mapped into the 2000s
when below 50, else the 1900s) appended when not already present, the whole
sorted the JavaScript way (lexicographically on decimal strings). -/
def extractYears (query : String) : List Nat :=
  let years1 := scanCollectB matchYear4At false query.data
  let fyRaw := scanCollectB matchFYAt false query.data
  let combined := fyRaw.foldl
    (fun acc y0 =>
      let y := if y0 < 100 then (if y0 < 50 then y0 + 2000 else y0 + 1900) else y0
      if y ∈ acc then acc else acc ++ [y])
    years1
  combined.insertionSort (fun a b => charListLe (natToDec a) (natToDec b) = true)

/-- Matcher for the ISO alternative of the range pattern: four digits, a dash
or slash, one or two digits, a dash or slash, one or two digits. -/
def matchIsoAt (cs : List Char) : Option Nat :=
  match cs with
  | c1 :: c2 :: c3 :: c4 :: sep :: r2 =>
    if isDigitChar c1 && isDigitChar c2 && isDigitChar c3 && isDigitChar c4 &&
        (sep.toNat = 45 || sep.toNat = 47) then
      let mc := countWhile isDigitChar r2
      let mk := min mc 2
      if mk = 0 then none
      else
        match r2.drop mk with
        | sep2 :: r3 =>
          if sep2.toNat = 45 || sep2.toNat = 47 then
            let dc := countWhile isDigitChar r3
            let dk := min dc 2
            if dk = 0 then none else some (5 + mk + 1 + dk)
          else none
        | [] => none
    else none
  | _ => none

/-- Matcher for the long-form alternative of the range pattern: a word, then
whitespace, one or two digits, an optional comma, whitespace and four digits
(greedy, without regex backtracking). -/
def matchLongformAt (cs : List Char) : Option Nat :=
  let wl := countWhile isWordChar cs
  if wl = 0 then none
  else
    let cs1 := cs.drop wl
    match mWs1 cs1 with
    | some w1 =>
      let cs2 := cs1.drop w1
      let dc := countWhile isDigitChar cs2
      if dc = 1 || dc = 2 then
        let cs3 := cs2.drop dc
        let cl : Nat := match cs3 with
          | c :: _ => if c.toNat = 44 then 1 else 0
          | [] => 0
        let cs4 := cs3.drop cl
        match mWs1 cs4 with
        | some w2 =>
          let cs5 := cs4.drop w2
          let yc := countWhile isDigitChar cs5
          if yc = 4 then some (wl + w1 + dc + cl + w2 + 4) else none
        | none => none
      else none
    | none => none

/-- Matcher for the bare-year alternative of the range pattern: exactly a
four-digit prefix. -/
def matchYearDigitsAt (cs : List Char) : Option Nat :=
  match cs with
  | c1 :: c2 :: c3 :: c4 :: _ =>
    if isDigitChar c1 && isDigitChar c2 && isDigitChar c3 && isDigitChar c4 then some 4 else none
  | _ => none

/-- One date alternative of the range pattern, ordered choice. -/
def matchDateAlt : List Char → Option Nat :=
  mOr matchIsoAt (mOr matchLongformAt matchYearDigitsAt)

/-- Matcher for the full range pattern from/between A to/and B; returns the
two captured date texts. -/
def matchRangeAt (cs : List Char) : Option (Nat × (List Char × List Char)) :=
  match mOr (matchLitCI [Char.ofNat 102, Char.ofNat 114, Char.ofNat 111, Char.ofNat 109])
            (matchLitCI [Char.ofNat 98, Char.ofNat 101, Char.ofNat 116, Char.ofNat 119,
                         Char.ofNat 101, Char.ofNat 101, Char.ofNat 110]) cs with
  | some kl =>
    let cs1 := cs.drop kl
    match mWs1 cs1 with
    | some w1 =>
      let cs2 := cs1.drop w1
      match matchDateAlt cs2 with
      | some al =>
        let textA := cs2.take al
        let cs3 := cs2.drop al
        match mWs1 cs3 with
        | some w2 =>
          let cs4 := cs3.drop w2
          match mOr (matchLitCI [Char.ofNat 116, Char.ofNat 111])
                    (matchLitCI [Char.ofNat 97, Char.ofNat 110, Char.ofNat 100]) cs4 with
          | some cl =>
            let cs5 := cs4.drop cl
            match mWs1 cs5 with
            | some w3 =>
              let cs6 := cs5.drop w3
              match matchDateAlt cs6 with
              | some bl =>
                some (kl + w1 + al + w2 + cl + w3 + bl, (textA, cs6.take bl))
              | none => none
            | none => none
          | none => none
        | none => none
      | none => none
    | none => none
  | none => none

/-- Model of the query-analyzer's parseDate: the builtin date parse first,
then a bare-integer year between 1900 and 2100 mapped to January first. -/
def qaParseDate (s : String) : Option JDate :=
  match parseIsoDate s with
  | some d => some d
  | none =>
    let cs := s.data.dropWhile isJsWs
    let dc := countWhile isDigitChar cs
    if dc = 0 then none
    else
      let y := digitsVal (cs.take dc)
      if 1900 ≤ y && y ≤ 2100 then some ⟨Int.ofNat y, 0, 1⟩ else none

/-- A date range of the query context; stop is the field named end in the
source. -/
structure DateRange where
  start : JDate
  stop : JDate
deriving DecidableEq

/-- Matcher for the time-unit alternation year|month|week|day with an
optional trailing s, case-insensitive; returns the unit code 0 = year,
1 = month, 2 = week, 3 = day. -/
def matchUnitAt (cs : List Char) : Option (Nat × Nat) :=
  let tryUnit : List Char → Nat → Option (Nat × Nat) := fun lit code =>
    match matchLitCI lit cs with
    | some n =>
      match cs.drop n with
      | c :: _ => if Char.toLower c = Char.ofNat 115 then some (n + 1, code) else some (n, code)
      | [] => some (n, code)
    | none => none
  match tryUnit [Char.ofNat 121, Char.ofNat 101, Char.ofNat 97, Char.ofNat 114] 0 with
  | some r => some r
  | none =>
    match tryUnit [Char.ofNat 109, Char.ofNat 111, Char.ofNat 110, Char.ofNat 116, Char.ofNat 104] 1 with
    | some r => some r
    | none =>
      match tryUnit [Char.ofNat 119, Char.ofNat 101, Char.ofNat 101, Char.ofNat 107] 2 with
      | some r => some r
      | none => tryUnit [Char.ofNat 100, Char.ofNat 97, Char.ofNat 121] 3

/-- Matcher for keyword whitespace digits whitespace unit (the past and last
range patterns); returns amount and unit code. -/
def matchAmountUnitAt (kw : List Char) (cs : List Char) : Option (Nat × (Nat × Nat)) :=
  match matchLitCI kw cs with
  | some kl =>
    let cs1 := cs.drop kl
    match mWs1 cs1 with
    | some w1 =>
      let cs2 := cs1.drop w1
      let dc := countWhile isDigitChar cs2
      if dc = 0 then none
      else
        let amount := digitsVal (cs2.take dc)
        let cs3 := cs2.drop dc
        match mWs1 cs3 with
        | some w2 =>
          match matchUnitAt (cs3.drop w2) with
          | some (ul, code) => some (kl + w1 + dc + w2 + ul, (amount, code))
          | none => none
        | none => none
    | none => none
  | none => none

/-- Apply the switch on the unit code: move the current date back by the
given amount of years, months, weeks or days. -/
def applyUnitSub (now : JDate) (amount : Nat) (code : Nat) : JDate :=
  if code = 0 then subYears now amount
  else if code = 1 then subMonths now amount
  else if code = 2 then subDays now (7 * amount)
  else subDays now amount

/-- Model of `extractDateRanges`: explicit from/to and between/and ranges
whose two sides both parse, then past-N-unit ranges, then last-N-unit
ranges, all ending now. -/
def extractDateRanges (now : JDate) (query : String) : List DateRange :=
  let explicitRanges := (scanCollect matchRangeAt query.data).filterMap
    (fun ab =>
      match qaParseDate (String.mk ab.1), qaParseDate (String.mk ab.2) with
      | some s, some e => some (⟨s, e⟩ : DateRange)
      | _, _ => none)
  let pastRanges := (scanCollect
      (matchAmountUnitAt [Char.ofNat 112, Char.ofNat 97, Char.ofNat 115, Char.ofNat 116]) query.data).map
    (fun au => (⟨applyUnitSub now au.1 au.2, now⟩ : DateRange))
  let lastRanges := (scanCollect
      (matchAmountUnitAt [Char.ofNat 108, Char.ofNat 97, Char.ofNat 115, Char.ofNat 116]) query.data).map
    (fun au => (⟨applyUnitSub now au.1 au.2, now⟩ : DateRange))
  explicitRanges ++ pastRanges ++ lastRanges

/-- Case-insensitive literal matcher from a lowercase string literal. -/
def mLit (lit : String) : List Char → Option Nat := matchLitCI lit.data

/-- Optional single separator of the regex class whitespace-or-dash. -/
def mSepOpt (cs : List Char) : Option Nat :=
  match cs with
  | c :: _ => if c.toNat = 45 || isJsWs c then some 1 else some 0
  | [] => some 0

/-- Optional trailing letter s, case-insensitive. -/
def mOptS (cs : List Char) : Option Nat :=
  match cs with
  | c :: _ => if Char.toLower c = Char.ofNat 115 then some 1 else some 0
  | [] => some 0

/-- Matcher for the letter q followed by a quarter digit 1-4. -/
def mQ14 (cs : List Char) : Option Nat :=
  match cs with
  | c1 :: c2 :: _ =>
      if Char.toLower c1 = Char.ofNat 113 && 49 ≤ c2.toNat && c2.toNat ≤ 52 then some 2 else none
  | _ => none

/-- Length-only view of the past/last amount-unit matcher. -/
def mAmountUnit (kw : String) (cs : List Char) : Option Nat :=
  match matchAmountUnitAt kw.data cs with
  | some (n, _) => some n
  | none => none

/-- The eleven period patterns of `extractTimePeriods`, in source order. -/
def periodMatchers : List (List Char → Option Nat) :=
  [ mAmountUnit "past",
    mAmountUnit "last",
    mSeq mDigits1 (mSeq mSepOpt (mLit "year")),
    mOr (mLit "ytd") (mSeq (mLit "year") (mSeq mSepOpt (mSeq (mLit "to") (mSeq mSepOpt (mLit "date"))))),
    mOr (mLit "mtd") (mSeq (mLit "month") (mSeq mSepOpt (mSeq (mLit "to") (mSeq mSepOpt (mLit "date"))))),
    mOr (mLit "qtd") (mSeq (mLit "quarter") (mSeq mSepOpt (mSeq (mLit "to") (mSeq mSepOpt (mLit "date"))))),
    mOr (mLit "ttm") (mSeq (mLit "trailing") (mSeq mWs1 (mSeq (mLit "twelve") (mSeq mWs1 (mSeq (mLit "month") mOptS))))),
    mSeq (mLit "last") (mSeq mWs1 (mOr (mLit "quarter") mQ14)),
    mSeq (mOr mQ14 (mOr (mLit "first") (mOr (mLit "second") (mOr (mLit "third") (mLit "fourth")))))
         (mSeq mWs1 (mLit "quarter")),
    mSeq (mLit "all") (mSeq mSepOpt (mLit "time")),
    mSeq (mLit "since") (mSeq mWs1 (mOr (mLit "inception") (mOr (mLit "ipo") (mLit "listing")))) ]

/-- Substring containment on character lists (JavaScript includes). -/
def containsSub (needle : List Char) : List Char → Bool
  | [] => needle.isEmpty
  | c :: cs => needle.isPrefixOf (c :: cs) || containsSub needle cs

/-- JavaScript string includes. -/
def strIncludes (hay needle : String) : Bool := containsSub needle.data hay.data

/-- Keep first occurrences only (the spread of a JavaScript Set). -/
def dedupFirst {α : Type} [DecidableEq α] (l : List α) : List α :=
  l.foldl (fun acc x => if x ∈ acc then acc else acc ++ [x]) []

/-- Model of `extractTimePeriods`: all matches of the eleven period patterns
in pattern order, lowercased, then the literal keyword periods found in the
lowercased query, deduplicated keeping first occurrences. -/
def extractTimePeriods (query : String) : List String :=
  let cs := query.data
  let fromPatterns := periodMatchers.foldr
    (fun m acc => scanCollect (withLowerText m) cs ++ acc) []
  let lowerQuery := String.mk (cs.map Char.toLower)
  let keywordPeriods := ["yesterday", "today", "this week", "this month", "this year"]
  let withKw := fromPatterns ++ keywordPeriods.filter (fun kw => strIncludes lowerQuery kw)
  dedupFirst withKw

/-- The whitelist of common tickers (query-analyzer COMMON_TICKERS). -/
def COMMON_TICKERS : List String :=
  ["AAPL", "MSFT", "GOOGL", "GOOG", "AMZN", "META", "NVDA", "TSLA",
   "AMD", "INTC", "IBM", "ORCL", "CRM", "ADBE", "NFLX", "PYPL",
   "SPY", "QQQ", "IWM", "DIA", "VTI", "VOO", "ARKK",
   "JPM", "BAC", "WFC", "GS", "MS", "C", "V", "MA", "AXP",
   "JNJ", "PFE", "UNH", "MRK", "ABBV", "LLY", "BMY",
   "XOM", "CVX", "COP", "SLB", "OXY",
   "DIS", "CMCSA", "T", "VZ", "TMUS",
   "WMT", "COST", "TGT", "HD", "LOW", "NKE", "SBUX",
   "BA", "CAT", "GE", "HON", "MMM", "UPS", "FDX",
   "BTC", "ETH", "BNB", "XRP", "SOL", "ADA", "DOGE"]

/-- Uppercase words excluded from ticker matching (TICKER_EXCLUSIONS). -/
def TICKER_EXCLUSIONS : List String :=
  ["THE", "AND", "FOR", "NOT", "ARE", "BUT", "HAS", "HAD", "WAS", "CAN",
   "ALL", "HER", "HIS", "ITS", "OUR", "WHO", "HOW", "WHY", "DID", "GET",
   "NOW", "NEW", "OLD", "TOP", "LOW", "HIGH", "USD", "EUR", "GBP", "JPY",
   "YTD", "MTD", "QTD", "TTM", "MOM", "YOY", "QOQ", "API", "IPO", "CEO",
   "CFO", "COO", "CTO", "GDP", "CPI", "PPI", "PMI", "PCE", "FED", "SEC",
   "FCF", "EPS", "ROE", "ROA", "ROI", "PER", "DAY", "FY23", "FY24", "FY25"]

/-- Matcher for a bare uppercase token of one to five letters with word
boundaries (boundary before handled by the scanner). -/
def matchTickerAt (cs : List Char) : Option (Nat × String) :=
  let run := countWhile isUpperAZ cs
  if 1 ≤ run && run ≤ 5 && boundaryAfter (cs.drop run) then
    some (run, String.mk (cs.take run))
  else none

/-- Matcher for a dollar-prefixed ticker. -/
def matchDollarTickerAt (cs : List Char) : Option (Nat × String) :=
  match cs with
  | c :: rest =>
    if c.toNat = 36 then
      let run := countWhile isUpperAZ rest
      if 1 ≤ run && run ≤ 5 && boundaryAfter (rest.drop run) then
        some (1 + run, String.mk (rest.take run))
      else none
    else none
  | [] => none

/-- Model of `extractTickers`: whitelisted bare uppercase tokens (in match
order, duplicates kept), then dollar-prefixed tokens not already present,
deduplicated keeping first occurrences. -/
def extractTickers (query : String) : List String :=
  let base := (scanCollectB matchTickerAt false query.data).foldl
    (fun acc t => if t ∈ COMMON_TICKERS && t ∉ TICKER_EXCLUSIONS then acc ++ [t] else acc) []
  let withDollar := (scanCollect matchDollarTickerAt query.data).foldl
    (fun acc t => if t ∈ acc then acc else acc ++ [t]) base
  dedupFirst withDollar

/-- The calculation-intent keyword list (CALCULATION_KEYWORDS), in source
order. -/
def CALCULATION_KEYWORDS : List String :=
  ["return", "returns", "cagr", "annualized", "growth rate",
   "volatility", "standard deviation", "sharpe", "beta", "alpha",
   "correlation", "moving average", "ma", "sma", "ema",
   "trend", "regression", "performance", "compare", "comparison",
   "drawdown", "max drawdown", "high", "low", "range",
   "ytd", "mtd", "qtd", "year to date", "month to date",
   "total return", "price return", "cumulative"]

/-- The query context produced by the analyzer. -/
structure QueryContext where
  years : List Nat
  dateRanges : List DateRange
  timePeriods : List String
  tickers : List String
  requiresFullData : Bool
  calculationKeywords : List String

/-- Model of `analyzeQuery`: years, date ranges, time periods, tickers and
calculation keywords extracted from the query; requiresFullData when any
calculation keyword matched, a period mentions year, annual or all time,
more than one year is mentioned, or any date range is present. -/
def analyzeQuery (now : JDate) (query : String) : QueryContext :=
  let lowerQuery := String.mk (query.data.map Char.toLower)
  let years := extractYears query
  let dateRanges := extractDateRanges now query
  let timePeriods := extractTimePeriods query
  let tickers := extractTickers query
  let calculationKeywords := CALCULATION_KEYWORDS.filter (fun kw => strIncludes lowerQuery kw)
  let requiresFullData :=
    !calculationKeywords.isEmpty ||
    timePeriods.any (fun p => strIncludes p "year" || strIncludes p "annual" || strIncludes p "all time") ||
    decide (years.length > 1) ||
    decide (dateRanges.length > 0)
  ⟨years, dateRanges, timePeriods, tickers, requiresFullData, calculationKeywords⟩

/-- Model of `isDateRelevant`: unparseable dates are kept; with no years and
no ranges in context, keep the last three years from now; otherwise keep
dates within tolerance of a mentioned year or of a range's year span. -/
def isDateRelevant (now : JDate) (dateStr : String) (ctx : QueryContext) (tol : Nat) : Bool :=
  match parseIsoDate dateStr with
  | none => true
  | some d =>
    if ctx.years.isEmpty && ctx.dateRanges.isEmpty then
      decide (now.year - 3 ≤ d.year)
    else
      ctx.years.any (fun y => (d.year - (y : Int)).natAbs ≤ tol) ||
      ctx.dateRanges.any (fun r =>
        decide (r.start.year - (tol : Int) ≤ d.year ∧ d.year ≤ r.stop.year + (tol : Int)))

/-- Verbose field names removed by pass 3 (VERBOSE_FIELDS). -/
def VERBOSE_FIELDS : List String :=
  ["reportedCurrency", "acceptedDate", "fillingDate", "link", "finalLink", "cik"]

/-- Field names subject to URL and long-text truncation
(TRUNCATABLE_TEXT_FIELDS). -/
def TRUNCATABLE_TEXT_FIELDS : List String :=
  ["banner_image", "source_url", "article_url", "image"]

/-- Field names searched by `findDateField`. -/
def dateFieldNames : List String :=
  ["date", "timestamp", "time", "period", "fiscalDateEnding", "reportDate", "publishedDate"]

/-- Field names searched by `detectDateOrdering` (publishedDate absent). -/
def detectDateFieldNames : List String :=
  ["date", "timestamp", "time", "period", "fiscalDateEnding", "reportDate"]

/-- Model of `findDateField`: the first named date field present with a
string value that matches the date-shape regex or parses as a date. -/
def findDateField (fields : JObj) : Option String :=
  dateFieldNames.findSome? (fun name =>
    match JObj.lookup name fields with
    | some (.str v) =>
        if looksLikeDatePrefix v || (parseIsoDate v).isSome then some name else none
    | _ => none)

/-- Detected chronological ordering of an array. -/
inductive DateOrdering where
  | newestFirst : DateOrdering
  | oldestFirst : DateOrdering
  | unknown : DateOrdering
deriving DecidableEq

/-- Search the detect field list on the first two elements field lists. -/
def detectGo (fa fb : JObj) : List String → DateOrdering
  | [] => .unknown
  | name :: rest =>
    match JObj.lookup name fa, JObj.lookup name fb with
    | some (.str s1), some (.str s2) =>
      match parseIsoDate s1, parseIsoDate s2 with
      | some d1, some d2 => if dateKey d1 > dateKey d2 then .newestFirst else .oldestFirst
      | _, _ => detectGo fa fb rest
    | _, _ => detectGo fa fb rest

/-- Field list of a JavaScript object-typed value: objects expose their
fields; arrays are object-typed but expose none of the searched names. -/
def objFieldsOf : JValue → Option JObj
  | .obj fs => some fs
  | .arr _ => some .nil
  | _ => none

/-- Model of `detectDateOrdering`: compare a shared date field on the first
two elements; strictly decreasing dates mean newest first, otherwise (dates
equal or increasing) oldest first; unknown when no shared parseable date
field exists. -/
def detectDateOrdering (arr : JArr) : DateOrdering :=
  match arr with
  | .cons a (.cons b _) =>
    match objFieldsOf a, objFieldsOf b with
    | some fa, some fb => detectGo fa fb detectDateFieldNames
    | _, _ => .unknown
  | _ => .unknown

mutual

/-- Model of `removeFields`: recursively drop the named object fields. -/
def removeFields (rm : List String) : JValue → JValue
  | .arr items => .arr (removeFieldsList rm items)
  | .obj fields => .obj (removeFieldsObj rm fields)
  | .null => .null
  | .bool b => .bool b
  | .num n => .num n
  | .str s => .str s

/-- removeFields over array elements. -/
def removeFieldsList (rm : List String) : JArr → JArr
  | .nil => .nil
  | .cons x xs => .cons (removeFields rm x) (removeFieldsList rm xs)

/-- removeFields over object members. -/
def removeFieldsObj (rm : List String) : JObj → JObj
  | .nil => .nil
  | .cons k v fs =>
      if k ∈ rm then removeFieldsObj rm fs else .cons k (removeFields rm v) (removeFieldsObj rm fs)

end

/-- Model of the origin of `new URL(value)` for http and https values: the
scheme, then the authority up to the first slash, question mark or hash,
userinfo up to a last at sign stripped, lowercased; fails when the scheme
does not match or the host is empty or contains whitespace. -/
def urlOrigin (s : String) : Option String :=
  let attempt : String → Option String := fun scheme =>
    if strStartsWith s scheme then
      let rest := s.data.drop scheme.length
      let auth := rest.takeWhile (fun c => c.toNat ≠ 47 && c.toNat ≠ 63 && c.toNat ≠ 35)
      let hostPort := (auth.reverse.takeWhile (fun c => c.toNat ≠ 64)).reverse
      if hostPort.isEmpty || hostPort.any isJsWs then none
      else some (scheme ++ String.mk (hostPort.map Char.toLower))
    else none
  match attempt "http://" with
  | some o => some o
  | none => attempt "https://"

/-- The transformation applied to an overlong string in a truncatable field:
URL-shaped values collapse to origin slash ellipsis, with a fifty-character
prefix fallback when URL parsing fails; other values keep a hundred
characters. -/
def truncTextValue (s : String) : String :=
  if strStartsWith s "http" then
    match urlOrigin s with
    | some o => o ++ "/..."
    | none => strTake s 50 ++ "..."
  else strTake s 100 ++ "..."

mutual

/-- Model of `truncateTextFields`: replace overlong string values of the
named fields, recursing everywhere else. -/
def truncateTextFields (fields : List String) : JValue → JValue
  | .arr items => .arr (truncateTextFieldsList fields items)
  | .obj fs => .obj (truncateTextFieldsObj fields fs)
  | .null => .null
  | .bool b => .bool b
  | .num n => .num n
  | .str s => .str s

/-- truncateTextFields over array elements. -/
def truncateTextFieldsList (fields : List String) : JArr → JArr
  | .nil => .nil
  | .cons x xs => .cons (truncateTextFields fields x) (truncateTextFieldsList fields xs)

/-- truncateTextFields over object members. -/
def truncateTextFieldsObj (fields : List String) : JObj → JObj
  | .nil => .nil
  | .cons k v fs =>
      JObj.cons k
        (match v with
         | .str s =>
           if k ∈ fields && s.length > 50 then JValue.str (truncTextValue s)
           else JValue.str s
         | other => truncateTextFields fields other)
        (truncateTextFieldsObj fields fs)

end

mutual

/-- Model of `truncateArrays`: arrays over the limit keep the first
maxLength elements (newest-first or unknown ordering) or the last maxLength
elements (oldest-first; the JavaScript slice of negative zero keeps the
whole array when maxLength is zero), then recurse into the kept elements.
The slice and the recursion into kept elements are fused into one
structural pass (truncTakeRec, truncDropRec), which computes the same
result as slicing first and recursing after. -/
def truncateArrays (maxLength : Nat) : JValue → JValue
  | .arr items =>
      if items.length ≤ maxLength then .arr (truncateArraysList maxLength items)
      else
        (match detectDateOrdering items with
         | .newestFirst => .arr (truncTakeRec maxLength maxLength items)
         | .oldestFirst =>
             if maxLength = 0 then .arr (truncateArraysList maxLength items)
             else .arr (truncDropRec maxLength (items.length - maxLength) items)
         | .unknown => .arr (truncTakeRec maxLength maxLength items))
  | .obj fs => .obj (truncateArraysObj maxLength fs)
  | .null => .null
  | .bool b => .bool b
  | .num n => .num n
  | .str s => .str s

/-- truncateArrays over all array elements. -/
def truncateArraysList (maxLength : Nat) : JArr → JArr
  | .nil => .nil
  | .cons x xs => .cons (truncateArrays maxLength x) (truncateArraysList maxLength xs)

/-- Keep (and recurse into) the first n elements. -/
def truncTakeRec (maxLength : Nat) : Nat → JArr → JArr
  | 0, _ => .nil
  | _ + 1, .nil => .nil
  | n + 1, .cons x xs => .cons (truncateArrays maxLength x) (truncTakeRec maxLength n xs)

/-- Skip the first n elements, then recurse into the rest. -/
def truncDropRec (maxLength : Nat) : Nat → JArr → JArr
  | _, .nil => .nil
  | 0, .cons x xs => .cons (truncateArrays maxLength x) (truncDropRec maxLength 0 xs)
  | n + 1, .cons _ xs => truncDropRec maxLength n xs

/-- truncateArrays over object members. -/
def truncateArraysObj (maxLength : Nat) : JObj → JObj
  | .nil => .nil
  | .cons k v fs => .cons k (truncateArrays maxLength v) (truncateArraysObj maxLength fs)

end

/-- The filter predicate of pass 1: non-objects and objects without a string
value in the detected date field are kept; otherwise keep when the date is
relevant to the query context with tolerance one year. -/
def keepItem (now : JDate) (ctx : QueryContext) (dateField : String) : JValue → Bool
  | .obj fs =>
    match JObj.lookup dateField fs with
    | some (.str s) => isDateRelevant now s ctx 1
    | _ => true
  | _ => true

mutual

/-- Model of `filterByQueryContext` (pass 1): arrays whose first element is
an object with a recognizable date field are filtered by date relevance and
the kept elements recursed into; when filtering would drop everything the
first twenty elements are kept unrecursed; all other arrays and objects
recurse structurally.  The filtering and the recursion into kept elements
are fused into one structural pass (filterKeepRec), which computes the same
result as filtering first and recursing after; nonemptiness of the filtered
array is tested by anyP. -/
def filterByQueryContext (now : JDate) (ctx : QueryContext) : JValue → JValue
  | .arr items =>
    match items with
    | .cons (JValue.obj ffs) tl =>
      (match findDateField ffs with
       | some dateField =>
         if JArr.anyP (keepItem now ctx dateField) (.cons (JValue.obj ffs) tl) then
           .arr (filterKeepRec now ctx dateField (.cons (JValue.obj ffs) tl))
         else .arr (JArr.take 20 (.cons (JValue.obj ffs) tl))
       | none => .arr (filterList now ctx (.cons (JValue.obj ffs) tl)))
    | other => .arr (filterList now ctx other)
  | .obj fs => .obj (filterObj now ctx fs)
  | .null => .null
  | .bool b => .bool b
  | .num n => .num n
  | .str s => .str s

/-- Keep the elements passing the date filter, recursing into them. -/
def filterKeepRec (now : JDate) (ctx : QueryContext) (dateField : String) : JArr → JArr
  | .nil => .nil
  | .cons x xs =>
      if keepItem now ctx dateField x then
        .cons (filterByQueryContext now ctx x) (filterKeepRec now ctx dateField xs)
      else filterKeepRec now ctx dateField xs

/-- filterByQueryContext over array elements. -/
def filterList (now : JDate) (ctx : QueryContext) : JArr → JArr
  | .nil => .nil
  | .cons x xs => .cons (filterByQueryContext now ctx x) (filterList now ctx xs)

/-- filterByQueryContext over object members. -/
def filterObj (now : JDate) (ctx : QueryContext) : JObj → JObj
  | .nil => .nil
  | .cons k v fs => .cons k (filterByQueryContext now ctx v) (filterObj now ctx fs)

end

/-- Compaction options (CompactOptions of data-compactor). -/
structure CompactOptions where
  maxTokens : Nat
  maxArrayLength : Nat
  removeVerboseFields : Bool
  truncateUrls : Bool
  minify : Bool
  query : Option String
  queryContext : Option QueryContext

/-- The option record obtained by merging DEFAULT_OPTIONS with only
maxTokens supplied. -/
def defaultOptions (maxTokens : Nat) : CompactOptions :=
  ⟨maxTokens, 50, true, true, true, none, none⟩

/-- Serialization step: minified or pretty-printed with two spaces. -/
def serializeJson (minify : Bool) (v : JValue) : String :=
  if minify then stringifyMin v else stringifyPretty v

/-- Passes 1 to 4 of `compactJson` at a given array limit: query filtering
when a context is available, array truncation, optional verbose-field
removal, optional URL truncation. -/
def compactPasses (now : JDate) (opts : CompactOptions) (qctx : Option QueryContext)
    (parsed : JValue) (arrayLimit : Nat) : JValue :=
  let c1 := match qctx with
    | some ctx => filterByQueryContext now ctx parsed
    | none => parsed
  let c2 := truncateArrays arrayLimit c1
  let c3 := if opts.removeVerboseFields then removeFields VERBOSE_FIELDS c2 else c2
  if opts.truncateUrls then truncateTextFields TRUNCATABLE_TEXT_FIELDS c3 else c3

/-- The progressive-reduction loop of `compactJson`: while the estimate
exceeds the budget and the array limit exceeds five, shrink the limit to
seven tenths and re-run the passes from the original parsed value.  The
structural fuel bounds the iterations; the wrapper supplies the starting
limit plus one, always enough since the limit strictly shrinks while above
five. -/
def shrinkLoopF (now : JDate) (opts : CompactOptions) (qctx : Option QueryContext)
    (parsed : JValue) : Nat → Nat → String → String
  | 0, _, result => result
  | fuel + 1, arrayLimit, result =>
    if estimateJsonTokens result > opts.maxTokens ∧ arrayLimit > 5 then
      shrinkLoopF now opts qctx parsed fuel (7 * arrayLimit / 10)
        (serializeJson opts.minify (compactPasses now opts qctx parsed (7 * arrayLimit / 10)))
    else result

/-- The shrink loop at full fuel. -/
def shrinkLoop (now : JDate) (opts : CompactOptions) (qctx : Option QueryContext)
    (parsed : JValue) (arrayLimit : Nat) (result : String) : String :=
  shrinkLoopF now opts qctx parsed (arrayLimit + 1) arrayLimit result

/-- Model of the raw string truncation helper `truncateString`. -/
def truncateString (str : String) (maxChars : Nat) : String :=
  if str.length ≤ maxChars then str else strTake str maxChars ++ "...[truncated]"

/-- The compaction pipeline applied to a successfully parsed value:
serialize after the passes, shrink while over budget, hard truncate as a
last resort. -/
def compactCore (now : JDate) (opts : CompactOptions) (qctx : Option QueryContext)
    (parsed : JValue) : String :=
  let result0 := serializeJson opts.minify (compactPasses now opts qctx parsed opts.maxArrayLength)
  let result := shrinkLoop now opts qctx parsed opts.maxArrayLength result0
  if estimateJsonTokens result > opts.maxTokens then
    strTake result (7 * opts.maxTokens / 2) ++ "...[truncated]"
  else result

/-- Input of `compactJson`: either an already structured value or a
JavaScript string, which is parsed as JSON. -/
inductive CompactInput where
  | jval (v : JValue) : CompactInput
  | raw (s : String) : CompactInput

/-- Model of `compactJson`: derive the query context, parse string inputs
(falling back to raw hard truncation at maxTokens times three and a half
characters when parsing fails), then run the compaction pipeline. -/
def compactJson (now : JDate) (data : CompactInput) (opts : CompactOptions) : String :=
  let qctx : Option QueryContext :=
    match opts.queryContext with
    | some c => some c
    | none =>
      match opts.query with
      | some q => some (analyzeQuery now q)
      | none => none
  match data with
  | .raw s =>
    match parseJson s with
    | some parsed => compactCore now opts qctx parsed
    | none => truncateString s (7 * opts.maxTokens / 2)
  | .jval v => compactCore now opts qctx v

/-- Token budget presets (token-counter.ts TOKEN_BUDGETS). -/
structure TokenBudget where
  maxInput : Nat
  toolResults : Nat
  perToolResult : Nat
  chatHistory : Nat
deriving DecidableEq

/-- The large-context preset. -/
def TOKEN_BUDGETS_large : TokenBudget := ⟨200000, 150000, 40000, 10000⟩

/-- The small-context preset. -/
def TOKEN_BUDGETS_small : TokenBudget := ⟨12000, 8000, 3000, 2000⟩

/-- Model of `getTokenBudget`: the small preset when the lowercased model
name contains a small-context substring, else the large preset. -/
def getTokenBudget (model : String) : TokenBudget :=
  let lower := String.mk (model.data.map Char.toLower)
  if strIncludes lower "gpt-3.5-turbo" || strIncludes lower "gpt-3.5" then TOKEN_BUDGETS_small
  else TOKEN_BUDGETS_large

/-- Arguments of a tool call (Record of string to unknown in the source,
held opaque as an association list). -/
abbrev ToolArgs := List (String × String)

/-- A tool call requested by the model. -/
structure ToolCall where
  name : String
  args : ToolArgs
deriving DecidableEq

/-- A model response: extracted text content and requested tool calls
(hasToolCalls is nonemptiness of the list). -/
structure ModelResponse where
  text : String
  toolCalls : List ToolCall
deriving DecidableEq

/-- A record of one executed tool call (ToolCallRecord of agent.ts). -/
structure ToolCallRecord where
  tool : String
  args : ToolArgs
  result : String
deriving DecidableEq

/-- A lightweight pointer summary returned by the context store
(ToolSummary); an empty id marks a failed, unstored call. -/
structure ToolSummary where
  id : String
  toolName : String
  args : ToolArgs
  summary : String
deriving DecidableEq

/-- The event union streamed by `Agent.run` (AgentEvent of types.ts). -/
inductive AgentEvent where
  | thinking (message : String) : AgentEvent
  | tool_start (tool : String) (args : ToolArgs) : AgentEvent
  | tool_end (tool : String) (args : ToolArgs) (result : String) (duration : Nat) : AgentEvent
  | tool_error (tool : String) (error : String) : AgentEvent
  | answer_start : AgentEvent
  | answer_chunk (text : String) : AgentEvent
  | done (answer : String) (toolCalls : List ToolCallRecord) (iterations : Nat) : AgentEvent
deriving DecidableEq

/-- Outcome of one tool execution attempt, as seen through the try block of
`executeToolCall`: the invocation (or the subsequent store save) throws
before tool_end is emitted; the invocation succeeds but the follow-up
summarization model call throws after tool_end; or everything succeeds and
the summarizer returns the prompt entry text. -/
inductive ToolOutcome where
  | failure (message : String) : ToolOutcome
  | successThenSummaryFailure (result : String) (message : String) : ToolOutcome
  | success (result : String) (summaryText : String) : ToolOutcome
deriving DecidableEq

/-- A full tool result reloaded from the context store. -/
structure LoadedContext where
  toolName : String
  args : ToolArgs
  result : String

/-- Oracles for the agent's external collaborators, indexed by call order:
primary model responses, tool execution outcomes, stored summaries, streamed
answer chunks, tool descriptions, stored full results, the store's summary
line and measured durations.  Prompt strings are opaque to the oracles, so
the event-level model covers every collaborator behaviour. -/
structure AgentEnv where
  modelResponse : Nat → ModelResponse
  outcome : Nat → ToolOutcome
  save : Nat → String → ToolArgs → String → ToolSummary
  streamChunks : Nat → List String
  describe : String → ToolArgs → String
  loadResult : String → Option LoadedContext
  storeSummary : String
  duration : Nat → Nat

/-- Agent configuration: the registered tool names, the iteration bound and
the model name. -/
structure AgentConfig where
  toolNames : List String
  maxIterations : Nat
  model : String

/-- Call counters threaded through a run: primary model calls, tool
invocations, streaming calls. -/
structure Counters where
  modelCalls : Nat
  invocations : Nat
  streams : Nat
deriving DecidableEq

/-- Result bundle of one tool call execution. -/
structure ToolExecutionResult where
  record : ToolCallRecord
  summary : ToolSummary
  promptEntry : String
deriving DecidableEq

/-- Result bundle of one iteration's tool call batch. -/
structure ToolCallsExecutionResult where
  records : List ToolCallRecord
  summaries : List ToolSummary
  promptEntries : List String
deriving DecidableEq

/-- The error message of a missing tool (ToolNotFoundError path). -/
def notFoundMessage (toolName : String) : String :=
  "Tool " ++ aposS ++ toolName ++ aposS ++ " not found"

/-- The error summary synthesized in the catch branch of
`executeToolCall`: empty id, and the tool description tagged FAILED. -/
def errorToolSummary (env : AgentEnv) (toolName : String) (args : ToolArgs) : ToolSummary :=
  ⟨"", toolName, args, env.describe toolName args ++ " [FAILED]"⟩

/-- The execution result synthesized in the catch branch: the record carries
the Error-prefixed message, and the prompt entry repeats the failed summary
and message. -/
def errorExecutionResult (env : AgentEnv) (toolName : String) (args : ToolArgs)
    (msg : String) : ToolExecutionResult :=
  ⟨⟨toolName, args, "Error: " ++ msg⟩, errorToolSummary env toolName args,
   "- " ++ (errorToolSummary env toolName args).summary ++ ": " ++ msg⟩

/-- Model of `executeToolCall`: emit tool_start; a missing tool or a failing
invocation emits tool_error and synthesizes the error result; a successful
invocation is saved, emits tool_end and then runs the summarizer, whose own
failure emits a further tool_error and also synthesizes the error result. -/
def executeToolCall (env : AgentEnv) (toolNames : List String) (k : Counters)
    (toolName : String) (args : ToolArgs) :
    List AgentEvent × ToolExecutionResult × Counters :=
  if toolName ∈ toolNames then
    match env.outcome k.invocations with
    | .failure msg =>
        ([.tool_start toolName args, .tool_error toolName msg],
         errorExecutionResult env toolName args msg,
         ⟨k.modelCalls, k.invocations + 1, k.streams⟩)
    | .successThenSummaryFailure result msg =>
        ([.tool_start toolName args,
          .tool_end toolName args result (env.duration k.invocations),
          .tool_error toolName msg],
         errorExecutionResult env toolName args msg,
         ⟨k.modelCalls, k.invocations + 1, k.streams⟩)
    | .success result summaryText =>
        ([.tool_start toolName args,
          .tool_end toolName args result (env.duration k.invocations)],
         ⟨⟨toolName, args, result⟩, env.save k.invocations toolName args result, summaryText⟩,
         ⟨k.modelCalls, k.invocations + 1, k.streams⟩)
  else
    ([.tool_start toolName args, .tool_error toolName (notFoundMessage toolName)],
     errorExecutionResult env toolName args (notFoundMessage toolName),
     k)

/-- Model of `executeToolCalls`: execute the requested calls sequentially,
concatenating their events and collecting records, summaries and prompt
entries in order. -/
def executeToolCalls (env : AgentEnv) (toolNames : List String) :
    Counters → List ToolCall → List AgentEvent × ToolCallsExecutionResult × Counters
  | k, [] => ([], ⟨[], [], []⟩, k)
  | k, tc :: rest =>
    match executeToolCall env toolNames k tc.name tc.args with
    | (evs1, res1, k1) =>
      match executeToolCalls env toolNames k1 rest with
      | (evs2, res2, k2) =>
        (evs1 ++ evs2,
         ⟨res1.record :: res2.records, res1.summary :: res2.summaries,
          res1.promptEntry :: res2.promptEntries⟩,
         k2)

/-- The fixed answer of the zero-tools configuration guard. -/
def noToolsAnswer : String :=
  "No tools available. Please check your API key configuration."

/-- The fallback answer at exhausted iterations when streaming produced no
text. -/
def maxIterationsAnswer (maxIterations : Nat) (storeSummary : String) : String :=
  "Reached maximum iterations (" ++ String.mk (natToDec maxIterations) ++ "). " ++ storeSummary

/-- Events of `generateFinalAnswer`: answer_start then one answer_chunk per
streamed fragment. -/
def finalAnswerEvents (env : AgentEnv) (k : Counters) : List AgentEvent :=
  .answer_start :: (env.streamChunks k.streams).map .answer_chunk

/-- The answer accumulated from the streamed fragments. -/
def finalAnswerText (env : AgentEnv) (k : Counters) : String :=
  String.join (env.streamChunks k.streams)

/-- The main loop of `Agent.run`, with the remaining iterations as fuel.
Produces the full ordered event list of the run.  Zero fuel is the
post-loop max-iterations exit.  Scratchpad entries and prompt strings feed
only the oracles (indexed by call order) and are omitted. -/
def runLoop (env : AgentEnv) (cfg : AgentConfig) :
    Nat → Nat → List ToolCallRecord → List ToolSummary → Counters → List AgentEvent
  | 0, iteration, allToolCalls, _, k =>
      finalAnswerEvents env k ++
        [.done (if finalAnswerText env k = "" then
                  maxIterationsAnswer cfg.maxIterations env.storeSummary
                else finalAnswerText env k)
               allToolCalls iteration]
  | fuel + 1, iteration, allToolCalls, allSummaries, k =>
      let response := env.modelResponse k.modelCalls
      let k1 : Counters := ⟨k.modelCalls + 1, k.invocations, k.streams⟩
      let thinkingEvents : List AgentEvent :=
        if response.text ≠ "" ∧ response.toolCalls ≠ [] then [.thinking response.text] else []
      if response.toolCalls = [] then
        if allSummaries = [] ∧ response.text ≠ "" then
          [.answer_start, .answer_chunk response.text,
           .done response.text [] (iteration + 1)]
        else
          finalAnswerEvents env k1 ++
            [.done (finalAnswerText env k1) allToolCalls (iteration + 1)]
      else
        match executeToolCalls env cfg.toolNames k1 response.toolCalls with
        | (toolEvents, res, k2) =>
          thinkingEvents ++ toolEvents ++
            runLoop env cfg fuel (iteration + 1)
              (allToolCalls ++ res.records) (allSummaries ++ res.summaries) k2

/-- Model of `Agent.run`: the zero-tools guard, then the iteration loop. -/
def run (env : AgentEnv) (cfg : AgentConfig) : List AgentEvent :=
  if cfg.toolNames = [] then [.done noToolsAnswer [] 0]
  else runLoop env cfg cfg.maxIterations 0 [] [] ⟨0, 0, 0⟩

/-- The store pointers used by `buildFullContextForAnswer`: ids of the
summaries, error summaries with empty ids filtered out. -/
def contextFilepaths (summaries : List ToolSummary) : List String :=
  (summaries.map ToolSummary.id).filter (fun id => id.length > 0)

/-- Model of `buildFullContextForAnswer`: load the stored full results by
the non-empty summary ids, compact each under the per-result budget with
query-aware options, and join them under description headings, stopping
with an omission note when the total budget would be exceeded. -/
def buildFullContextForAnswer (env : AgentEnv) (cfg : AgentConfig) (now : JDate)
    (summaries : List ToolSummary) (query : String) : String :=
  if summaries = [] then "No data was gathered."
  else
    let filepaths := contextFilepaths summaries
    if filepaths = [] then "No data was successfully gathered."
    else
      let contexts := filepaths.filterMap env.loadResult
      if contexts.length = 0 then "Failed to load context data."
      else
        let budget := getTokenBudget cfg.model
        let totalBudget := budget.toolResults
        let perResultBudget := min budget.perToolResult (totalBudget / contexts.length)
        let formatted := contexts.foldl
          (fun acc ctx =>
            match acc with
            | (parts, totalTokens, stopped) =>
              if stopped then (parts, totalTokens, stopped)
              else
                let description := env.describe ctx.toolName ctx.args
                let compactedData := compactJson now (.raw ctx.result)
                  ⟨perResultBudget, 100, true, true, true, some query, none⟩
                let part := "### " ++ description ++ "\n" ++ compactedData
                let tokens := estimateTokensJson part
                if totalTokens + tokens > totalBudget then
                  (parts ++ ["### Note\n[Additional " ++
                    String.mk (natToDec (contexts.length - parts.length)) ++
                    " data sources omitted to fit context window]"], totalTokens, true)
                else (parts ++ [part], totalTokens + tokens, false))
          (([] : List String), 0, false)
        match formatted with
        | (parts, _, _) => String.intercalate "\n\n" parts

/-- Concatenation, in emission order, of every answer_chunk text after the
most recent answer_start (empty when no answer_start was emitted, since the
run emits no stray chunks). -/
def chunksAfterLastAnswerStart (evs : List AgentEvent) : String :=
  evs.foldl
    (fun acc e =>
      match e with
      | .answer_start => ""
      | .answer_chunk t => acc ++ t
      | _ => acc) ""

/-- Number of tool_start events. -/
def countToolStarts (evs : List AgentEvent) : Nat :=
  (evs.filter (fun e => match e with | .tool_start _ _ => true | _ => false)).length

/-- The pairing property claimed by the specification: the events decompose
into consecutive blocks of a tool_start followed by exactly one tool_end or
tool_error with the same tool name. -/
def strictToolPairing : List AgentEvent → Bool
  | [] => true
  | .tool_start t _ :: .tool_end t' _ _ _ :: rest => t == t' && strictToolPairing rest
  | .tool_start t _ :: .tool_error t' _ :: rest => t == t' && strictToolPairing rest
  | _ => false

/-- The pairing property the code guarantees: blocks of a tool_start
followed by a same-named tool_end or tool_error, where a block may carry
both a tool_end and then a tool_error (the summarizer-failure case). -/
def looseToolPairing : List AgentEvent → Bool
  | [] => true
  | .tool_start t _ :: .tool_end t' _ _ _ :: .tool_error t'' _ :: rest =>
      t == t' && t'' == t && looseToolPairing rest
  | .tool_start t _ :: .tool_end t' _ _ _ :: rest => t == t' && looseToolPairing rest
  | .tool_start t _ :: .tool_error t' _ :: rest => t == t' && looseToolPairing rest
  | _ => false

/-- The parsed structure a compactJson input denotes: structured values
directly, string inputs through the JSON parser. -/
def inputValue : CompactInput → Option JValue
  | .jval v => some v
  | .raw s => parseJson s

/-- The four-digit year matches of a query (the first extraction pass of
extractYears, before fiscal-year shorthand). -/
def fourDigitYearMatches (query : String) : List Nat :=
  scanCollectB matchYear4At false query.data

/-- A concrete current instant used by witnesses. -/
def witnessNow : JDate := ⟨2026, 0, 15⟩

/-- A concrete collaborator environment with a parameterized tool outcome
oracle, used by witnesses and counterexamples. -/
def envWithOutcome (o : Nat → ToolOutcome) : AgentEnv :=
  ⟨fun _ => ⟨"", []⟩, o, fun _ n a r => ⟨"id1", n, a, r⟩, fun _ => [],
   fun n _ => n, fun _ => none, "store summary", fun _ => 0⟩

/-- A price point object. -/
def pricePoint (d : String) (p : Int) : JValue :=
  .obj (JObj.ofList [("date", .str d), ("price", .num p)])

/-- The six-element newest-first prices array of the truncation example. -/
def pricesNewestFirst : JArr := JArr.ofList
  [pricePoint "2026-01-20" 100, pricePoint "2026-01-19" 99, pricePoint "2026-01-18" 98,
   pricePoint "2026-01-17" 97, pricePoint "2026-01-16" 96, pricePoint "2026-01-15" 95]

/-- The same data oldest-first. -/
def pricesOldestFirst : JArr := JArr.ofList
  [pricePoint "2026-01-15" 95, pricePoint "2026-01-16" 96, pricePoint "2026-01-17" 97,
   pricePoint "2026-01-18" 98, pricePoint "2026-01-19" 99, pricePoint "2026-01-20" 100]

/-- Six price points carrying one identical date. -/
def eqDatePrices : JArr := JArr.ofList
  [pricePoint "2026-01-20" 1, pricePoint "2026-01-20" 2, pricePoint "2026-01-20" 3,
   pricePoint "2026-01-20" 4, pricePoint "2026-01-20" 5, pricePoint "2026-01-20" 6]

/-- Compaction options of the truncation example: budget one thousand,
array limit three, remaining defaults. -/
def exampleOptions : CompactOptions := ⟨1000, 3, true, true, true, none, none⟩

/-- A sixty-character non-URL string. -/
def sixtyX : String := String.mk (List.replicate 60 (Char.ofNat 120))

/-- One step of the chunks-after-last-answer-start fold. -/
def chunkStep (acc : String) (e : AgentEvent) : String :=
  match e with
  | .answer_start => ""
  | .answer_chunk t => acc ++ t
  | _ => acc

/-- A decodable continuation after a numeral: empty, or headed by a
character that is neither a digit nor a fraction dot nor an exponent
marker, so that the maximal-munch numeral parse stops exactly there. -/
def goodTail : List Char → Prop
  | [] => True
  | c :: _ => isDigitChar c = false ∧ c.toNat ≠ 46 ∧ c.toNat ≠ 101 ∧ c.toNat ≠ 69

/-- An object with the sixty-character string under the truncatable image
field. -/
def imgObj : JValue := JValue.obj (JObj.cons "image" (JValue.str sixtyX) JObj.nil)

/-- Decide whether a named field carries a comparable date pair on two
field lists: both lookups are string values and both parse as dates (the
test detectGo applies at each searched field name). -/
def detectPairAt (fa fb : JObj) (name : String) : Bool :=
  match JObj.lookup name fa, JObj.lookup name fb with
  | some (.str s1), some (.str s2) => (parseIsoDate s1).isSome && (parseIsoDate s2).isSome
  | _, _ => false

-- SECTION-MARKER

/-!  Theorems.  Each claim of the review is settled by one named theorem
(witnessed at a concrete input when it carries hypotheses); shared helper
lemmas precede them. -/

/-- C8: a run with zero configured tools emits exactly one event, the
terminal done with the fixed configuration message, an empty toolCalls list
and zero iterations. -/
theorem dexter_c8_zero_tools_guard (env : AgentEnv) (maxIterations : Nat) (model : String) :
    run env ⟨[], maxIterations, model⟩ = [.done noToolsAnswer [] 0] := rfl

/-- C5: a string input that fails to parse as JSON is only ever
hard-character-truncated at maxTokens times three and a half characters; it
never reaches the structural compaction passes. -/
theorem dexter_c5_parse_failure_path (now : JDate) (s : String) (opts : CompactOptions)
    (h : parseJson s = none) :
    compactJson now (.raw s) opts = truncateString s (7 * opts.maxTokens / 2) := by
  simp [compactJson, h]

/-- Witness for C5 at the unparseable input of the repository's test. -/
theorem dexter_c5_witness :
    parseJson "not valid json" = none ∧
    compactJson witnessNow (.raw "not valid json") (defaultOptions 1000) =
      truncateString "not valid json" (7 * (defaultOptions 1000).maxTokens / 2) :=
  ⟨by rfl, dexter_c5_parse_failure_path witnessNow "not valid json" (defaultOptions 1000) (by rfl)⟩

/-- C3: compactJson either returns a string whose estimated token count is
within maxTokens, or returns a hard truncation: a string still estimated
over budget cut at maxTokens times three and a half characters with the
truncation marker appended. -/
theorem dexter_c3_budget_or_hard_truncation (now : JDate) (data : CompactInput)
    (opts : CompactOptions) :
    estimateJsonTokens (compactJson now data opts) ≤ opts.maxTokens ∨
    ∃ s : String, estimateJsonTokens s > opts.maxTokens ∧
      compactJson now data opts = strTake s (7 * opts.maxTokens / 2) ++ "...[truncated]" := by
  have hcore : ∀ (qctx : Option QueryContext) (parsed : JValue),
      estimateJsonTokens (compactCore now opts qctx parsed) ≤ opts.maxTokens ∨
      ∃ s : String, estimateJsonTokens s > opts.maxTokens ∧
        compactCore now opts qctx parsed = strTake s (7 * opts.maxTokens / 2) ++ "...[truncated]" := by
    intro qctx parsed
    unfold compactCore
    by_cases h : estimateJsonTokens
        (shrinkLoop now opts qctx parsed opts.maxArrayLength
          (serializeJson opts.minify (compactPasses now opts qctx parsed opts.maxArrayLength)))
        > opts.maxTokens
    · right
      exact ⟨_, h, by simp only [h, if_true]⟩
    · left
      simpa only [h, if_false] using Nat.le_of_not_lt h
  cases data with
  | jval v => exact hcore _ v
  | raw s =>
    cases hp : parseJson s with
    | some parsed =>
      have : compactJson now (.raw s) opts =
          compactCore now opts
            (match opts.queryContext with
             | some c => some c
             | none => match opts.query with
               | some q => some (analyzeQuery now q)
               | none => none) parsed := by
        simp [compactJson, hp]
      rw [this]
      exact hcore _ parsed
    | none =>
      rw [dexter_c5_parse_failure_path now s opts hp]
      unfold truncateString
      by_cases hl : s.length ≤ 7 * opts.maxTokens / 2
      · left
        simp only [hl, if_true]
        unfold estimateJsonTokens estimateTokensJson
        split
        · omega
        · omega
      · right
        refine ⟨s, ?_, by simp only [hl, if_false]⟩
        unfold estimateJsonTokens estimateTokensJson
        split
        · omega
        · omega


/-- C7: the analyzer on the example query finds exactly the AAPL ticker, a
date range from two years before now to now, the calculation keyword
return, and requiresFullData. -/
theorem dexter_c7_analyze_aapl_return (now : JDate) :
    (analyzeQuery now ("What was AAPL" ++ aposS ++ "s return over the past 2 years?")).tickers
        = ["AAPL"] ∧
    (analyzeQuery now ("What was AAPL" ++ aposS ++ "s return over the past 2 years?")).dateRanges
        = [⟨subYears now 2, now⟩] ∧
    (analyzeQuery now ("What was AAPL" ++ aposS ++ "s return over the past 2 years?")).requiresFullData
        = true ∧
    (analyzeQuery now ("What was AAPL" ++ aposS ++ "s return over the past 2 years?")).calculationKeywords
        = ["return"] :=
  ⟨rfl, rfl, rfl, rfl⟩

/-- C9 counterexample: a query mentioning the same four-digit year twice
yields a years list with a duplicate, so years does not denote a set. -/
theorem dexter_c9_counterexample :
    (analyzeQuery witnessNow "compare 2020 and 2020").years = [2020, 2020] ∧
    ¬ (analyzeQuery witnessNow "compare 2020 and 2020").years.Nodup := by
  refine ⟨rfl, ?_⟩
  intro h
  have h' : ([2020, 2020] : List Nat).Nodup := by
    have e : (analyzeQuery witnessNow "compare 2020 and 2020").years = [2020, 2020] := rfl
    rw [e] at h
    exact h
  simp at h'

/-- C9 amended: years contains no duplicates provided no four-digit year is
matched twice in the query; fiscal-year shorthand years are always
deduplicated against the years already collected. -/
theorem dexter_c9_amended (q : String) (now : JDate)
    (h : (fourDigitYearMatches q).Nodup) : (analyzeQuery now q).years.Nodup := by
  show (extractYears q).Nodup
  unfold extractYears
  refine ((List.perm_insertionSort _ _).nodup_iff).mpr ?_
  have h1 : (scanCollectB matchYear4At false q.data).Nodup := h
  generalize (scanCollectB matchFYAt false q.data) = fy
  generalize hacc : scanCollectB matchYear4At false q.data = acc at h1
  clear hacc
  induction fy generalizing acc with
  | nil => simpa using h1
  | cons y0 rest ih =>
    simp only [List.foldl_cons]
    apply ih
    by_cases hm : (if y0 < 100 then (if y0 < 50 then y0 + 2000 else y0 + 1900) else y0) ∈ acc
    · simpa [hm] using h1
    · simp only [hm, if_false]
      rw [List.nodup_append]
      refine ⟨h1, List.nodup_singleton _, ?_⟩
      intro a ha hb
      simp only [List.mem_singleton] at hb
      subst hb
      exact hm ha

/-- Witness for C9 amended at a duplicate-free query. -/
theorem dexter_c9_witness :
    (fourDigitYearMatches "in 2021").Nodup ∧ (analyzeQuery witnessNow "in 2021").years.Nodup :=
  ⟨by decide, dexter_c9_amended "in 2021" witnessNow (by decide)⟩

/-- C10: every failing tool call (unknown tool, failing invocation or save,
or failing summarizer) produces a record whose result is the Error-prefixed
message and a synthesized summary with an empty id, and the final-answer
context builder loads only summaries whose id is non-empty, so the failed
call's pointer is never loaded. -/
theorem dexter_c10_failed_tool_calls (env : AgentEnv) (toolNames : List String)
    (k : Counters) (toolName : String) (args : ToolArgs) :
    (toolName ∉ toolNames →
      (executeToolCall env toolNames k toolName args).2.1.record.result =
          "Error: " ++ notFoundMessage toolName ∧
      (executeToolCall env toolNames k toolName args).2.1.summary.id = "") ∧
    (∀ msg, toolName ∈ toolNames → env.outcome k.invocations = .failure msg →
      (executeToolCall env toolNames k toolName args).2.1.record.result = "Error: " ++ msg ∧
      (executeToolCall env toolNames k toolName args).2.1.summary.id = "") ∧
    (∀ result msg, toolName ∈ toolNames →
      env.outcome k.invocations = .successThenSummaryFailure result msg →
      (executeToolCall env toolNames k toolName args).2.1.record.result = "Error: " ++ msg ∧
      (executeToolCall env toolNames k toolName args).2.1.summary.id = "") ∧
    (∀ (summaries : List ToolSummary) (s : ToolSummary), s.id = "" →
      s.id ∉ contextFilepaths summaries) := by
  refine ⟨?_, ?_, ?_, ?_⟩
  · intro hnot
    simp [executeToolCall, hnot, errorExecutionResult, errorToolSummary]
  · intro msg hmem hout
    simp [executeToolCall, hmem, hout, errorExecutionResult, errorToolSummary]
  · intro result msg hmem hout
    simp [executeToolCall, hmem, hout, errorExecutionResult, errorToolSummary]
  · intro summaries s hs hmem
    rw [hs] at hmem
    unfold contextFilepaths at hmem
    have := List.of_mem_filter hmem
    simp at this

/-- Witness for C10 at a concrete failing invocation. -/
theorem dexter_c10_witness :
    ("t" ∈ ["t"]) ∧
    (envWithOutcome (fun _ => .failure "boom")).outcome (Counters.mk 0 0 0).invocations =
      .failure "boom" ∧
    ((executeToolCall (envWithOutcome (fun _ => .failure "boom")) ["t"] ⟨0, 0, 0⟩ "t"
        []).2.1.record.result = "Error: " ++ "boom" ∧
     (executeToolCall (envWithOutcome (fun _ => .failure "boom")) ["t"] ⟨0, 0, 0⟩ "t"
        []).2.1.summary.id = "") :=
  ⟨by decide, rfl,
   (dexter_c10_failed_tool_calls (envWithOutcome (fun _ => .failure "boom")) ["t"] ⟨0, 0, 0⟩
      "t" []).2.1 "boom" (by decide) rfl⟩

/-- The fused take-and-recurse pass equals slicing first and recursing
after. -/
theorem truncTakeRec_eq (L : Nat) : ∀ (n : Nat) (l : JArr),
    truncTakeRec L n l = truncateArraysList L (JArr.take n l)
  | 0, .nil => by simp only [truncTakeRec, JArr.take, truncateArraysList]
  | 0, .cons x xs => by simp only [truncTakeRec, JArr.take, truncateArraysList]
  | _ + 1, .nil => by simp only [truncTakeRec, JArr.take, truncateArraysList]
  | n + 1, .cons x xs => by
    simp only [truncTakeRec, JArr.take, truncateArraysList, truncTakeRec_eq L n xs]

/-- The fused drop-and-recurse pass equals slicing first and recursing
after. -/
theorem truncDropRec_eq (L : Nat) : ∀ (n : Nat) (l : JArr),
    truncDropRec L n l = truncateArraysList L (JArr.drop n l)
  | 0, .nil => by simp only [truncDropRec, JArr.drop, truncateArraysList]
  | 0, .cons x xs => by
    simp only [truncDropRec, JArr.drop, truncateArraysList, truncDropRec_eq L 0 xs]
  | _ + 1, .nil => by simp only [truncDropRec, JArr.drop, truncateArraysList]
  | n + 1, .cons _ xs => by
    simp only [truncDropRec, JArr.drop, truncDropRec_eq L n xs]

/-- C4 counterexample: an array whose first two elements carry equal dates
is neither strictly decreasing nor strictly increasing, yet the code keeps
the last N elements (it treats non-decreasing as oldest-first), not the
first N as claimed. -/
theorem dexter_c4_counterexample :
    detectDateOrdering eqDatePrices = .oldestFirst ∧
    truncateArrays 3 (.arr eqDatePrices) = .arr (truncateArraysList 3 (JArr.drop 3 eqDatePrices)) ∧
    compactJson witnessNow (.jval (.obj (JObj.ofList [("prices", .arr eqDatePrices)])))
        exampleOptions ≠
      compactJson witnessNow (.jval (.obj (JObj.ofList [("prices", .arr (JArr.take 3 eqDatePrices))])))
        exampleOptions :=
  ⟨rfl, rfl, by decide⟩

/-- Searching a field without a comparable date pair moves detectGo to the
next field name. -/
theorem detectGo_skip (fa fb : JObj) (nm : String) (rest : List String)
    (hnm : detectPairAt fa fb nm = false) :
    detectGo fa fb (nm :: rest) = detectGo fa fb rest := by
  have hunf : detectGo fa fb (nm :: rest) =
      match JObj.lookup nm fa, JObj.lookup nm fb with
      | some (.str s1), some (.str s2) =>
        (match parseIsoDate s1, parseIsoDate s2 with
        | some d1, some d2 =>
            if dateKey d1 > dateKey d2 then DateOrdering.newestFirst
            else DateOrdering.oldestFirst
        | _, _ => detectGo fa fb rest)
      | _, _ => detectGo fa fb rest := rfl
  rw [hunf]
  unfold detectPairAt at hnm
  rcases hl1 : JObj.lookup nm fa with - | v1
  · dsimp only
  · cases v1 with
    | str s1 =>
      rcases hl2 : JObj.lookup nm fb with - | v2
      · dsimp only
      · cases v2 with
        | str s2 =>
          rw [hl1, hl2] at hnm
          dsimp only at hnm
          dsimp only
          rcases hq1 : parseIsoDate s1 with - | e1
          · dsimp only
          · rcases hq2 : parseIsoDate s2 with - | e2
            · dsimp only
            · rw [hq1, hq2] at hnm
              simp at hnm
        | null => dsimp only
        | bool b => dsimp only
        | num n2 => dsimp only
        | arr a2 => dsimp only
        | obj o2 => dsimp only
    | null => dsimp only
    | bool b => dsimp only
    | num n1 => dsimp only
    | arr a1 => dsimp only
    | obj o1 => dsimp only

/-- With no comparable date pair at any searched field, detectGo returns
unknown. -/
theorem detectGo_unknown (fa fb : JObj) : ∀ names : List String,
    (∀ nm ∈ names, detectPairAt fa fb nm = false) → detectGo fa fb names = .unknown := by
  intro names
  induction names with
  | nil =>
    intro h
    rfl
  | cons nm rest ih =>
    intro h
    rw [detectGo_skip fa fb nm rest (h nm (List.mem_cons_self nm rest))]
    exact ih (fun x hx => h x (List.mem_cons_of_mem nm hx))

/-- detectGo decides by the first searched field carrying a comparable
date pair: strictly decreasing dates mean newest first, otherwise oldest
first. -/
theorem detectGo_at (fa fb : JObj) (name s1 s2 : String) (d1 d2 : JDate)
    (h1 : JObj.lookup name fa = some (JValue.str s1))
    (h2 : JObj.lookup name fb = some (JValue.str s2))
    (hp1 : parseIsoDate s1 = some d1) (hp2 : parseIsoDate s2 = some d2) :
    ∀ (names1 names2 : List String), (∀ nm ∈ names1, detectPairAt fa fb nm = false) →
      detectGo fa fb (names1 ++ name :: names2) =
        if dateKey d1 > dateKey d2 then DateOrdering.newestFirst
        else DateOrdering.oldestFirst := by
  intro names1
  induction names1 with
  | nil =>
    intro names2 hskip
    rw [List.nil_append]
    have hunf : detectGo fa fb (name :: names2) =
        match JObj.lookup name fa, JObj.lookup name fb with
        | some (.str t1), some (.str t2) =>
          (match parseIsoDate t1, parseIsoDate t2 with
          | some e1, some e2 =>
              if dateKey e1 > dateKey e2 then DateOrdering.newestFirst
              else DateOrdering.oldestFirst
          | _, _ => detectGo fa fb names2)
        | _, _ => detectGo fa fb names2 := rfl
    rw [hunf, h1, h2]
    dsimp only
    rw [hp1, hp2]
  | cons nm rest ih =>
    intro names2 hskip
    rw [List.cons_append, detectGo_skip fa fb nm (rest ++ name :: names2)
      (hskip nm (List.mem_cons_self nm rest))]
    exact ih names2 (fun x hx => hskip x (List.mem_cons_of_mem nm hx))

/-- C4 amended: for arrays over the limit whose first two elements are
objects, the truncation direction follows the first searched field name
carrying a comparable date pair on both elements: strictly decreasing
dates keep the first maxLength elements and non-strictly-increasing dates
(increasing or equal) keep the last maxLength elements; when no searched
field carries a comparable date pair (unknown ordering) the first
maxLength elements are kept; the two concrete six-element examples keep
the three most recent dates from the head and from the tail
respectively. -/
theorem dexter_c4_amended :
    (∀ (L : Nat) (fa fb : JObj) (rest : JArr) (names1 names2 : List String)
      (name s1 s2 : String) (d1 d2 : JDate),
      detectDateFieldNames = names1 ++ name :: names2 →
      (∀ nm ∈ names1, detectPairAt fa fb nm = false) →
      JObj.lookup name fa = some (.str s1) →
      JObj.lookup name fb = some (.str s2) →
      parseIsoDate s1 = some d1 → parseIsoDate s2 = some d2 →
      L < (JArr.cons (JValue.obj fa) (JArr.cons (JValue.obj fb) rest)).length →
      (dateKey d1 > dateKey d2 →
        truncateArrays L (.arr (JArr.cons (JValue.obj fa) (JArr.cons (JValue.obj fb) rest))) =
          .arr (truncateArraysList L
            (JArr.take L (JArr.cons (JValue.obj fa) (JArr.cons (JValue.obj fb) rest))))) ∧
      (dateKey d1 ≤ dateKey d2 → 0 < L →
        truncateArrays L (.arr (JArr.cons (JValue.obj fa) (JArr.cons (JValue.obj fb) rest))) =
          .arr (truncateArraysList L
            (JArr.drop ((JArr.cons (JValue.obj fa) (JArr.cons (JValue.obj fb) rest)).length - L)
              (JArr.cons (JValue.obj fa) (JArr.cons (JValue.obj fb) rest)))))) ∧
    (∀ (L : Nat) (fa fb : JObj) (rest : JArr),
      (∀ nm ∈ detectDateFieldNames, detectPairAt fa fb nm = false) →
      L < (JArr.cons (JValue.obj fa) (JArr.cons (JValue.obj fb) rest)).length →
      truncateArrays L (.arr (JArr.cons (JValue.obj fa) (JArr.cons (JValue.obj fb) rest))) =
        .arr (truncateArraysList L
          (JArr.take L (JArr.cons (JValue.obj fa) (JArr.cons (JValue.obj fb) rest))))) ∧
    compactJson witnessNow (.jval (.obj (JObj.ofList [("prices", .arr pricesNewestFirst)])))
        exampleOptions =
      String.mk (render false 0
        (.obj (JObj.ofList [("prices", .arr (JArr.take 3 pricesNewestFirst))]))) ∧
    compactJson witnessNow (.jval (.obj (JObj.ofList [("prices", .arr pricesOldestFirst)])))
        exampleOptions =
      String.mk (render false 0
        (.obj (JObj.ofList [("prices", .arr (JArr.drop 3 pricesOldestFirst))]))) := by
  refine ⟨?_, ?_, rfl, rfl⟩
  · intro L fa fb rest names1 names2 name s1 s2 d1 d2 hsplit hskip h1 h2 hp1 hp2 hlen
    have hdet : detectDateOrdering (JArr.cons (JValue.obj fa) (JArr.cons (JValue.obj fb) rest)) =
        if dateKey d1 > dateKey d2 then DateOrdering.newestFirst
        else DateOrdering.oldestFirst := by
      rw [show detectDateOrdering (JArr.cons (JValue.obj fa) (JArr.cons (JValue.obj fb) rest)) =
        detectGo fa fb detectDateFieldNames from rfl, hsplit]
      exact detectGo_at fa fb name s1 s2 d1 d2 h1 h2 hp1 hp2 names1 names2 hskip
    have hnotle : ¬ ((JArr.cons (JValue.obj fa) (JArr.cons (JValue.obj fb) rest)).length ≤ L) := by
      omega
    constructor
    · intro hgt
      have hd : detectDateOrdering (JArr.cons (JValue.obj fa) (JArr.cons (JValue.obj fb) rest)) =
          .newestFirst := by
        rw [hdet, if_pos hgt]
      rw [← truncTakeRec_eq]
      simp only [truncateArrays, hnotle, if_false, hd]
    · intro hle hpos
      have hd : detectDateOrdering (JArr.cons (JValue.obj fa) (JArr.cons (JValue.obj fb) rest)) =
          .oldestFirst := by
        rw [hdet, if_neg (by omega)]
      rw [← truncDropRec_eq]
      have hL0 : ¬ (L = 0) := by omega
      simp only [truncateArrays, hnotle, if_false, hd, hL0]
  · intro L fa fb rest hall hlen
    have hd : detectDateOrdering (JArr.cons (JValue.obj fa) (JArr.cons (JValue.obj fb) rest)) =
        .unknown := by
      rw [show detectDateOrdering (JArr.cons (JValue.obj fa) (JArr.cons (JValue.obj fb) rest)) =
        detectGo fa fb detectDateFieldNames from rfl]
      exact detectGo_unknown fa fb detectDateFieldNames hall
    have hnotle : ¬ ((JArr.cons (JValue.obj fa) (JArr.cons (JValue.obj fb) rest)).length ≤ L) := by
      omega
    rw [← truncTakeRec_eq]
    simp only [truncateArrays, hnotle, if_false, hd]

/-- Witness for C4 amended: the newest-first prices example decided by the
date field, and a dateless three-object array truncated from the front. -/
theorem dexter_c4_witness :
    JObj.lookup "date" (JObj.ofList [("date", JValue.str "2026-01-20"), ("price", JValue.num 100)])
        = some (.str "2026-01-20") ∧
    parseIsoDate "2026-01-20" = some ⟨2026, 0, 20⟩ ∧
    dateKey ⟨2026, 0, 20⟩ > dateKey ⟨2026, 0, 19⟩ ∧
    truncateArrays 3 (.arr pricesNewestFirst) =
      .arr (truncateArraysList 3 (JArr.take 3 pricesNewestFirst)) ∧
    (∀ nm ∈ detectDateFieldNames,
      detectPairAt (JObj.ofList [("price", JValue.num 1)])
        (JObj.ofList [("price", JValue.num 2)]) nm = false) ∧
    truncateArrays 1 (.arr (JArr.ofList [JValue.obj (JObj.ofList [("price", JValue.num 1)]),
        JValue.obj (JObj.ofList [("price", JValue.num 2)]),
        JValue.obj (JObj.ofList [("price", JValue.num 3)])])) =
      .arr (truncateArraysList 1
        (JArr.take 1 (JArr.ofList [JValue.obj (JObj.ofList [("price", JValue.num 1)]),
          JValue.obj (JObj.ofList [("price", JValue.num 2)]),
          JValue.obj (JObj.ofList [("price", JValue.num 3)])]))) :=
  ⟨rfl, rfl, by decide,
   (dexter_c4_amended.1 3
      (JObj.ofList [("date", JValue.str "2026-01-20"), ("price", JValue.num 100)])
      (JObj.ofList [("date", JValue.str "2026-01-19"), ("price", JValue.num 99)])
      (JArr.ofList [pricePoint "2026-01-18" 98, pricePoint "2026-01-17" 97,
        pricePoint "2026-01-16" 96, pricePoint "2026-01-15" 95])
      [] ["timestamp", "time", "period", "fiscalDateEnding", "reportDate"]
      "date" "2026-01-20" "2026-01-19" ⟨2026, 0, 20⟩ ⟨2026, 0, 19⟩
      rfl (by simp) rfl rfl rfl rfl (by decide)).1 (by decide),
   by decide,
   dexter_c4_amended.2.1 1 (JObj.ofList [("price", JValue.num 1)])
     (JObj.ofList [("price", JValue.num 2)])
     (JArr.ofList [JValue.obj (JObj.ofList [("price", JValue.num 3)])])
     (by decide) (by decide)⟩

/-- Event shape of one executed tool call: a tool_start for the call's tool,
then either a single tool_error, a single tool_end, or a tool_end followed
by a tool_error, all carrying the call's tool name. -/
theorem executeToolCall_shape (env : AgentEnv) (toolNames : List String) (k : Counters)
    (toolName : String) (args : ToolArgs) :
    ∃ tail : List AgentEvent,
      (executeToolCall env toolNames k toolName args).1 = .tool_start toolName args :: tail ∧
      ((∃ m, tail = [.tool_error toolName m]) ∨
       (∃ r d, tail = [.tool_end toolName args r d]) ∨
       (∃ r d m, tail = [.tool_end toolName args r d, .tool_error toolName m])) := by
  unfold executeToolCall
  by_cases hmem : toolName ∈ toolNames
  · simp only [hmem, if_true]
    cases houtcome : env.outcome k.invocations with
    | failure msg => exact ⟨_, rfl, Or.inl ⟨msg, rfl⟩⟩
    | successThenSummaryFailure r msg => exact ⟨_, rfl, Or.inr (Or.inr ⟨r, _, msg, rfl⟩)⟩
    | success r s => exact ⟨_, rfl, Or.inr (Or.inl ⟨r, _, rfl⟩)⟩
  · simp only [hmem, if_false]
    exact ⟨_, rfl, Or.inl ⟨notFoundMessage toolName, rfl⟩⟩

/-- The event list of a batch of tool calls is empty or begins with a
tool_start. -/
theorem executeToolCalls_head (env : AgentEnv) (toolNames : List String) :
    ∀ (toolCalls : List ToolCall) (k : Counters),
      (executeToolCalls env toolNames k toolCalls).1 = [] ∨
      ∃ t a tail, (executeToolCalls env toolNames k toolCalls).1 = .tool_start t a :: tail := by
  intro toolCalls k
  cases toolCalls with
  | nil => exact Or.inl rfl
  | cons tc rest =>
    right
    obtain ⟨tail, hev, _⟩ := executeToolCall_shape env toolNames k tc.name tc.args
    refine ⟨tc.name, tc.args, ?_, ?_⟩
    · exact tail ++ (executeToolCalls env toolNames
        (executeToolCall env toolNames k tc.name tc.args).2.2 rest).1
    · show ((executeToolCall env toolNames k tc.name tc.args).1 ++
        (executeToolCalls env toolNames
          (executeToolCall env toolNames k tc.name tc.args).2.2 rest).1) = _
      rw [hev]
      rfl

/-- countToolStarts distributes over append. -/
theorem countToolStarts_append (a b : List AgentEvent) :
    countToolStarts (a ++ b) = countToolStarts a + countToolStarts b := by
  unfold countToolStarts
  rw [List.filter_append, List.length_append]

/-- C2 amended: in each iteration the number of tool_start events equals the
number of requested tool calls, and the events decompose into sequential
same-tool blocks, each a tool_start followed by one tool_end or tool_error,
or by a tool_end and then a tool_error when the post-success summarization
call fails; blocks of different calls are never interleaved. -/
theorem dexter_c2_amended (env : AgentEnv) (toolNames : List String) :
    ∀ (toolCalls : List ToolCall) (k : Counters),
      countToolStarts (executeToolCalls env toolNames k toolCalls).1 = toolCalls.length ∧
      looseToolPairing (executeToolCalls env toolNames k toolCalls).1 = true := by
  intro toolCalls
  induction toolCalls with
  | nil => intro k; exact ⟨rfl, rfl⟩
  | cons tc rest ih =>
    intro k
    obtain ⟨tail, hev, hshape⟩ := executeToolCall_shape env toolNames k tc.name tc.args
    have hsplit : (executeToolCalls env toolNames k (tc :: rest)).1 =
        (executeToolCall env toolNames k tc.name tc.args).1 ++
        (executeToolCalls env toolNames
          (executeToolCall env toolNames k tc.name tc.args).2.2 rest).1 := rfl
    set k1 := (executeToolCall env toolNames k tc.name tc.args).2.2 with hk1
    obtain ⟨ihCount, ihPair⟩ := ih k1
    constructor
    · rw [hsplit, countToolStarts_append, hev, ihCount]
      rcases hshape with ⟨m, ht⟩ | ⟨r, d, ht⟩ | ⟨r, d, m, ht⟩ <;> subst ht <;>
        simp [countToolStarts, List.filter, List.length] <;> omega
    · rw [hsplit, hev]
      have hhead := executeToolCalls_head env toolNames rest k1
      rcases hshape with ⟨m, ht⟩ | ⟨r, d, ht⟩ | ⟨r, d, m, ht⟩ <;> subst ht
      · simp [looseToolPairing, ihPair]
      · rcases hhead with hnil | ⟨t2, a2, tail2, hcons⟩
        · rw [hnil] at ihPair ⊢
          simp [looseToolPairing]
        · rw [hcons] at ihPair ⊢
          simpa [looseToolPairing] using ihPair
      · simp [looseToolPairing, ihPair]

/-- C2 counterexample: when the post-success summarization model call
throws, the same tool emits a tool_end and then also a tool_error, so a
tool_start is not followed by exactly one terminal event. -/
theorem dexter_c2_counterexample :
    (executeToolCalls (envWithOutcome (fun _ => .successThenSummaryFailure "r" "boom")) ["t"]
        ⟨0, 0, 0⟩ [⟨"t", []⟩]).1 =
      [.tool_start "t" [], .tool_end "t" [] "r" 0, .tool_error "t" "boom"] ∧
    strictToolPairing
      (executeToolCalls (envWithOutcome (fun _ => .successThenSummaryFailure "r" "boom")) ["t"]
        ⟨0, 0, 0⟩ [⟨"t", []⟩]).1 = false := by
  exact ⟨rfl, rfl⟩

/-- The chunks fold is the fold of chunkStep from the empty string. -/
theorem chunksAfter_eq_foldl (evs : List AgentEvent) :
    chunksAfterLastAnswerStart evs = List.foldl chunkStep "" evs := by
  unfold chunksAfterLastAnswerStart
  rfl

/-- Once an answer_start occurs in the suffix, the fold forgets its
accumulator. -/
theorem foldl_chunkStep_indep :
    ∀ (ys : List AgentEvent), AgentEvent.answer_start ∈ ys →
      ∀ (a b : String), List.foldl chunkStep a ys = List.foldl chunkStep b ys := by
  intro ys
  induction ys with
  | nil => intro h; cases h
  | cons e rest ih =>
    intro hmem a b
    cases e with
    | answer_start => simp [List.foldl_cons, chunkStep]
    | answer_chunk t =>
      have hm : AgentEvent.answer_start ∈ rest := by
        rcases List.mem_cons.mp hmem with h | h
        · cases h
        · exact h
      simp only [List.foldl_cons]
      exact ih hm _ _
    | thinking m =>
      have hm : AgentEvent.answer_start ∈ rest := by
        rcases List.mem_cons.mp hmem with h | h
        · cases h
        · exact h
      simp only [List.foldl_cons]
      exact ih hm _ _
    | tool_start t a2 =>
      have hm : AgentEvent.answer_start ∈ rest := by
        rcases List.mem_cons.mp hmem with h | h
        · cases h
        · exact h
      simp only [List.foldl_cons]
      exact ih hm _ _
    | tool_end t a2 r d =>
      have hm : AgentEvent.answer_start ∈ rest := by
        rcases List.mem_cons.mp hmem with h | h
        · cases h
        · exact h
      simp only [List.foldl_cons]
      exact ih hm _ _
    | tool_error t er =>
      have hm : AgentEvent.answer_start ∈ rest := by
        rcases List.mem_cons.mp hmem with h | h
        · cases h
        · exact h
      simp only [List.foldl_cons]
      exact ih hm _ _
    | done an tc it =>
      have hm : AgentEvent.answer_start ∈ rest := by
        rcases List.mem_cons.mp hmem with h | h
        · cases h
        · exact h
      simp only [List.foldl_cons]
      exact ih hm _ _

/-- With an answer_start in the suffix, a prefix does not change the chunks
fold. -/
theorem chunksAfter_prefix (pre evs : List AgentEvent)
    (h : AgentEvent.answer_start ∈ evs) :
    chunksAfterLastAnswerStart (pre ++ evs) = chunksAfterLastAnswerStart evs := by
  rw [chunksAfter_eq_foldl, chunksAfter_eq_foldl, List.foldl_append]
  exact foldl_chunkStep_indep evs h _ _

/-- Folding the append step over mapped chunks concatenates them. -/
theorem foldl_chunkStep_chunks :
    ∀ (chunks : List String) (acc : String),
      List.foldl chunkStep acc (chunks.map AgentEvent.answer_chunk) = acc ++ String.join chunks := by
  intro chunks
  induction chunks with
  | nil => intro acc; simp [String.join]
  | cons c rest ih =>
    intro acc
    simp only [List.map_cons, List.foldl_cons, chunkStep]
    rw [ih (acc ++ c)]
    have : String.join (c :: rest) = c ++ String.join rest := by
      show List.foldl (· ++ ·) "" (c :: rest) = c ++ String.join rest
      rw [List.foldl_cons]
      have hgen : ∀ (l : List String) (x y : String),
          List.foldl (· ++ ·) (x ++ y) l = x ++ List.foldl (· ++ ·) y l := by
        intro l
        induction l with
        | nil => intro x y; rfl
        | cons z zs ihz =>
          intro x y
          rw [List.foldl_cons, List.foldl_cons, String.append_assoc]
          exact ihz x (y ++ z)
      have h0 : ("" : String) ++ c = c := by simp
      calc List.foldl (· ++ ·) ("" ++ c) rest = List.foldl (· ++ ·) c rest := by rw [h0]
        _ = List.foldl (· ++ ·) (c ++ "") rest := by simp
        _ = c ++ List.foldl (· ++ ·) "" rest := hgen rest c ""
    rw [this, String.append_assoc]

/-- The chunks fold over a final-answer block is the streamed text. -/
theorem chunksAfter_final_block (env : AgentEnv) (k : Counters) (x : String)
    (y : List ToolCallRecord) (z : Nat) :
    chunksAfterLastAnswerStart (finalAnswerEvents env k ++ [.done x y z]) =
      finalAnswerText env k := by
  rw [chunksAfter_eq_foldl]
  unfold finalAnswerEvents
  rw [List.cons_append, List.foldl_cons]
  show List.foldl chunkStep ""
      ((env.streamChunks k.streams).map AgentEvent.answer_chunk ++ [.done x y z]) = _
  rw [List.foldl_append, foldl_chunkStep_chunks]
  simp [chunkStep, finalAnswerText]

/-- The last element of a list extended by a singleton. -/
theorem getLast?_append_singleton {α : Type} (l : List α) (a : α) :
    (l ++ [a]).getLast? = some a := by
  simp

/-- A run loop always emits an answer_start. -/
theorem runLoop_has_start (env : AgentEnv) (cfg : AgentConfig) :
    ∀ (fuel iteration : Nat) (atc : List ToolCallRecord) (asum : List ToolSummary)
      (k : Counters), AgentEvent.answer_start ∈ runLoop env cfg fuel iteration atc asum k := by
  intro fuel
  induction fuel with
  | zero =>
    intro it atc asum k
    exact List.mem_append_left _ (List.mem_cons_self _ _)
  | succ fuel ih =>
    intro it atc asum k
    unfold runLoop
    dsimp only
    split
    · split
      · simp
      · exact List.mem_append_left _ (List.mem_cons_self _ _)
    · split <;> exact List.mem_append_right _ (ih _ _ _ _)

/-- A run loop emits at least one event. -/
theorem runLoop_ne_nil (env : AgentEnv) (cfg : AgentConfig)
    (fuel iteration : Nat) (atc : List ToolCallRecord) (asum : List ToolSummary)
    (k : Counters) : runLoop env cfg fuel iteration atc asum k ≠ [] := by
  intro hnil
  have := runLoop_has_start env cfg fuel iteration atc asum k
  rw [hnil] at this
  cases this

/-- The done answer produced by the run loop: either the concatenation of
the chunks after the last answer_start, or, when that concatenation is
empty, the max-iterations fallback message. -/
theorem runLoop_done_answer (env : AgentEnv) (cfg : AgentConfig) :
    ∀ (fuel : Nat) (iteration : Nat) (atc : List ToolCallRecord) (asum : List ToolSummary)
      (k : Counters) (a : String) (tc : List ToolCallRecord) (it : Nat),
      (runLoop env cfg fuel iteration atc asum k).getLast? = some (.done a tc it) →
      a = chunksAfterLastAnswerStart (runLoop env cfg fuel iteration atc asum k) ∨
      (chunksAfterLastAnswerStart (runLoop env cfg fuel iteration atc asum k) = "" ∧
       a = maxIterationsAnswer cfg.maxIterations env.storeSummary) := by
  intro fuel
  induction fuel with
  | zero =>
    intro iteration atc asum k a tc it h
    unfold runLoop at h ⊢
    rw [getLast?_append_singleton] at h
    have ha : (if finalAnswerText env k = "" then
        maxIterationsAnswer cfg.maxIterations env.storeSummary
      else finalAnswerText env k) = a := by
      have h2 := Option.some.inj h
      cases h2
      rfl
    rw [chunksAfter_final_block]
    by_cases he : finalAnswerText env k = ""
    · right
      refine ⟨he, ?_⟩
      rw [← ha, if_pos he]
    · left
      rw [← ha, if_neg he]
  | succ fuel ih =>
    intro iteration atc asum k a tc it h
    unfold runLoop at h ⊢
    dsimp only at h ⊢
    by_cases htc : (env.modelResponse k.modelCalls).toolCalls = []
    · rw [if_pos htc] at h ⊢
      by_cases hd : asum = [] ∧ (env.modelResponse k.modelCalls).text ≠ ""
      · rw [if_pos hd] at h ⊢
        have h2 : some (AgentEvent.done (env.modelResponse k.modelCalls).text []
            (iteration + 1)) = some (AgentEvent.done a tc it) := h
        have ha : (env.modelResponse k.modelCalls).text = a := by
          have h3 := Option.some.inj h2
          cases h3
          rfl
        left
        exact ha.symm
      · rw [if_neg hd] at h ⊢
        rw [getLast?_append_singleton] at h
        have ha : finalAnswerText env ⟨k.modelCalls + 1, k.invocations, k.streams⟩ = a := by
          have h3 := Option.some.inj h
          cases h3
          rfl
        rw [chunksAfter_final_block]
        left
        exact ha.symm
    · rw [if_neg htc] at h ⊢
      rw [List.getLast?_append_of_ne_nil _ (runLoop_ne_nil env cfg fuel (iteration + 1) _ _ _)] at h
      rw [ chunksAfter_prefix _ _ (runLoop_has_start env cfg fuel (iteration + 1) _ _ _)]
      exact ih (iteration + 1) _ _ _ a tc it h
/-- C1 counterexample: the zero-tools run terminates with a done event whose
answer is the fixed no-tools message, yet no answer_chunk is emitted at all,
so the concatenation after the last answer_start is empty and differs from
the done answer. -/
theorem dexter_c1_counterexample :
    (run (envWithOutcome (fun _ => .success "r" "s")) ⟨[], 5, "m"⟩).getLast? =
      some (AgentEvent.done noToolsAnswer [] 0) ∧
    chunksAfterLastAnswerStart
      (run (envWithOutcome (fun _ => .success "r" "s")) ⟨[], 5, "m"⟩) = "" ∧
    noToolsAnswer ≠ "" := by
  refine ⟨rfl, rfl, ?_⟩
  decide

/-- C1 amended: whenever a run of Agent.run terminates with a done event,
its answer equals the concatenation, in emission order, of the
answer_chunk texts after the most recent answer_start, except in two
fallback cases where that concatenation is empty and the answer is instead
the fixed no-tools message or the max-iterations message. -/
theorem dexter_c1_amended (env : AgentEnv) (cfg : AgentConfig)
    (a : String) (tc : List ToolCallRecord) (it : Nat)
    (h : (run env cfg).getLast? = some (.done a tc it)) :
    a = chunksAfterLastAnswerStart (run env cfg) ∨
    (chunksAfterLastAnswerStart (run env cfg) = "" ∧
     (a = noToolsAnswer ∨ a = maxIterationsAnswer cfg.maxIterations env.storeSummary)) := by
  unfold run at h ⊢
  by_cases ht : cfg.toolNames = []
  · rw [if_pos ht] at h ⊢
    have ha : noToolsAnswer = a := by
      have h2 : some (AgentEvent.done noToolsAnswer [] 0) =
          some (AgentEvent.done a tc it) := h
      have h3 := Option.some.inj h2
      cases h3
      rfl
    right
    exact ⟨rfl, Or.inl ha.symm⟩
  · rw [if_neg ht] at h ⊢
    rcases runLoop_done_answer env cfg cfg.maxIterations 0 [] [] ⟨0, 0, 0⟩ a tc it h
      with h1 | ⟨h1, h2⟩
    · exact Or.inl h1
    · exact Or.inr ⟨h1, Or.inr h2⟩

/-- C1 witness: the amended statement applied to the concrete zero-tools
run, whose done answer is the no-tools fallback. -/
theorem dexter_c1_witness :
    (run (envWithOutcome (fun _ => .success "r" "s")) ⟨[], 5, "m"⟩).getLast? =
      some (AgentEvent.done noToolsAnswer [] 0) ∧
    (noToolsAnswer = chunksAfterLastAnswerStart
        (run (envWithOutcome (fun _ => .success "r" "s")) ⟨[], 5, "m"⟩) ∨
     (chunksAfterLastAnswerStart
        (run (envWithOutcome (fun _ => .success "r" "s")) ⟨[], 5, "m"⟩) = "" ∧
      (noToolsAnswer = noToolsAnswer ∨
       noToolsAnswer = maxIterationsAnswer 5 "store summary"))) :=
  ⟨rfl, dexter_c1_amended (envWithOutcome (fun _ => .success "r" "s")) ⟨[], 5, "m"⟩
    noToolsAnswer [] 0 rfl⟩


theorem char_toNat_ofNat_small (n : Nat) (h : n < 55296) : (Char.ofNat n).toNat = n := by
  unfold Char.ofNat
  rw [dif_pos (Or.inl (by omega))]
  show (UInt32.ofNatCore n _).toNat = n
  simp [UInt32.ofNatCore, UInt32.toNat]

theorem char_eq_of_toNat {c d : Char} (h : c.toNat = d.toNat) : c = d := by
  apply Char.eq_of_val_eq
  apply UInt32.ext
  exact h

theorem char_ne_of_toNat {c d : Char} (h : c.toNat ≠ d.toNat) : c ≠ d :=
  fun he => h (he ▸ rfl)

theorem digitVal_decDigitChar (n : Nat) (h : n < 10) : digitVal (decDigitChar n) = n := by
  unfold digitVal decDigitChar
  rw [char_toNat_ofNat_small (48 + n) (by omega)]
  omega

theorem isDigitChar_decDigitChar (n : Nat) (h : n < 10) : isDigitChar (decDigitChar n) = true := by
  unfold isDigitChar decDigitChar
  rw [char_toNat_ofNat_small (48 + n) (by omega)]
  simp
  omega

theorem natToDecAux_digits : ∀ (n fuel : Nat) (acc : List Char), n ≤ fuel →
    ∃ l, natToDecAux fuel n acc = l ++ acc ∧ l ≠ [] ∧ (∀ c ∈ l, isDigitChar c = true) ∧
      (∀ a, List.foldl (fun x c => x * 10 + digitVal c) a l = a * 10 ^ l.length + n) := by
  intro n
  induction n using Nat.strong_induction_on with
  | _ n ih =>
    intro fuel acc hle
    by_cases h10 : n < 10
    · have hstep : natToDecAux fuel n acc = decDigitChar n :: acc := by
        cases fuel with
        | zero => rfl
        | succ f => simp [natToDecAux, h10]
      refine ⟨[decDigitChar n], by simpa using hstep, by simp, ?_, ?_⟩
      · intro c hc
        simp only [List.mem_singleton] at hc
        subst hc
        exact isDigitChar_decDigitChar n h10
      · intro a
        show a * 10 + digitVal (decDigitChar n) = a * 10 ^ 1 + n
        rw [digitVal_decDigitChar n h10, pow_one]
    · obtain ⟨f, rfl⟩ : ∃ f, fuel = f + 1 := ⟨fuel - 1, by omega⟩
      have hrec : natToDecAux (f + 1) n acc =
          natToDecAux f (n / 10) (decDigitChar (n % 10) :: acc) := by
        simp [natToDecAux, h10]
      have hlt : n / 10 < n := Nat.div_lt_self (by omega) (by omega)
      have hle2 : n / 10 ≤ f := by
        have h1 : n / 10 * 10 ≤ n := Nat.div_mul_le_self n 10
        have h2 : 1 ≤ n / 10 := (Nat.one_le_div_iff (by omega)).mpr (by omega)
        omega
      obtain ⟨l, hl, hne, hdig, hfold⟩ := ih (n / 10) hlt f (decDigitChar (n % 10) :: acc) hle2
      refine ⟨l ++ [decDigitChar (n % 10)], ?_, by simp, ?_, ?_⟩
      · rw [hrec, hl]
        simp
      · intro c hc
        rcases List.mem_append.mp hc with h | h
        · exact hdig c h
        · simp only [List.mem_singleton] at h
          subst h
          exact isDigitChar_decDigitChar _ (Nat.mod_lt _ (by omega))
      · intro a
        rw [List.foldl_append]
        show (List.foldl _ a l) * 10 + digitVal (decDigitChar (n % 10)) =
          a * 10 ^ (l ++ [decDigitChar (n % 10)]).length + n
        rw [hfold a, digitVal_decDigitChar _ (Nat.mod_lt _ (by omega))]
        simp only [List.length_append, List.length_singleton]
        rw [pow_succ]
        have hnm := Nat.div_add_mod n 10
        ring_nf
        omega

theorem parseDigitsAux_digits : ∀ (l : List Char) (a : Nat) (tail : List Char),
    (∀ c ∈ l, isDigitChar c = true) →
    goodTail tail →
    parseDigitsAux a (l ++ tail) = (List.foldl (fun x c => x * 10 + digitVal c) a l, tail) := by
  intro l
  induction l with
  | nil =>
    intro a tail hdig ht
    cases tail with
    | nil => rfl
    | cons c cs =>
      obtain ⟨hnd, -, -, -⟩ := ht
      simp [parseDigitsAux, hnd]
  | cons d ds ih =>
    intro a tail hdig ht
    have hd : isDigitChar d = true := hdig d (List.mem_cons_self d ds)
    simp only [List.cons_append, parseDigitsAux, hd, if_true, List.foldl_cons]
    exact ih _ tail (fun c hc => hdig c (List.mem_cons_of_mem d hc)) ht

theorem parseDigits_natToDec (n : Nat) (tail : List Char) (ht : goodTail tail) :
    parseDigitsAux 0 (natToDec n ++ tail) = (n, tail) := by
  obtain ⟨l, hl, hne, hdig, hfold⟩ := natToDecAux_digits n n [] le_rfl
  have hnd : natToDec n = l := by
    unfold natToDec
    rw [hl, List.append_nil]
  rw [hnd, parseDigitsAux_digits l 0 tail hdig ht, hfold 0]
  simp

theorem natToDec_head_digit (n : Nat) : ∃ c cs, natToDec n = c :: cs ∧ isDigitChar c = true := by
  obtain ⟨l, hl, hne, hdig, -⟩ := natToDecAux_digits n n [] le_rfl
  have hnd : natToDec n = l := by
    unfold natToDec
    rw [hl, List.append_nil]
  cases l with
  | nil => exact absurd rfl hne
  | cons c cs => exact ⟨c, cs, hnd, hdig c (List.mem_cons_self c cs)⟩

theorem parseNumber_intToDec (n : Int) (tail : List Char) (ht : goodTail tail) :
    parseNumber (intToDec n ++ tail) = some (n, tail) := by
  obtain ⟨c, cs, hl, hcd⟩ := natToDec_head_digit n.natAbs
  have hc48 : 48 ≤ c.toNat ∧ c.toNat ≤ 57 := by
    unfold isDigitChar at hcd
    simp at hcd
    omega
  by_cases hn : n < 0
  · have : intToDec n = Char.ofNat 45 :: natToDec n.natAbs := by
      unfold intToDec
      rw [if_pos hn]
    rw [this, List.cons_append, hl, List.cons_append]
    show parseNumber (Char.ofNat 45 :: (c :: (cs ++ tail))) = _
    unfold parseNumber
    have h45 : (Char.ofNat 45).toNat = 45 := by decide
    simp only [h45, decide_True, if_true, hcd, if_pos rfl]
    rw [show (c :: (cs ++ tail)) = (c :: cs) ++ tail by simp, ← hl,
      parseDigits_natToDec n.natAbs tail ht]
    cases tail with
    | nil => simp [abs_of_neg hn]
    | cons r rs =>
      obtain ⟨-, h46, h101, h69⟩ := ht
      simp [h46, h101, h69, abs_of_neg hn]
  · have : intToDec n = natToDec n.natAbs := by
      unfold intToDec
      rw [if_neg hn]
    rw [this, hl, List.cons_append]
    unfold parseNumber
    have hne45 : (c.toNat = 45) = False := by
      apply eq_false
      omega
    simp only [hne45, decide_False, Bool.false_eq_true, if_false, hcd, if_true]
    rw [show (c :: (cs ++ tail)) = (c :: cs) ++ tail by simp, ← hl,
      parseDigits_natToDec n.natAbs tail ht]
    have hge : (0 : Int) ≤ n := by omega
    cases tail with
    | nil => simp [abs_of_nonneg hge]
    | cons r rs =>
      obtain ⟨-, h46, h101, h69⟩ := ht
      simp [h46, h101, h69, abs_of_nonneg hge]

theorem hexVal_digit (m : Nat) (h : m < 10) : hexVal (Char.ofNat (48 + m)) = some m := by
  unfold hexVal
  rw [char_toNat_ofNat_small _ (by omega)]
  rw [if_pos (by simp; omega)]
  congr 1
  omega

theorem hexVal_letter (m : Nat) (h10 : 10 ≤ m) (h16 : m < 16) :
    hexVal (Char.ofNat (87 + m)) = some m := by
  unfold hexVal
  rw [char_toNat_ofNat_small _ (by omega)]
  rw [if_neg (by simp; omega), if_pos (by simp; omega)]
  congr 1
  omega

theorem parseStringBody_cons (acc : List Char) (c : Char) (cs : List Char) :
    parseStringBody acc (c :: cs) =
      if c = dquote then some (String.mk acc.reverse, cs)
      else if c = bslash then
        (match cs with
        | [] => none
        | e :: cs2 =>
          if e = dquote then parseStringBody (dquote :: acc) cs2
          else if e = bslash then parseStringBody (bslash :: acc) cs2
          else if e.toNat = 47 then parseStringBody (Char.ofNat 47 :: acc) cs2
          else if e.toNat = 98 then parseStringBody (Char.ofNat 8 :: acc) cs2
          else if e.toNat = 102 then parseStringBody (Char.ofNat 12 :: acc) cs2
          else if e.toNat = 110 then parseStringBody (Char.ofNat 10 :: acc) cs2
          else if e.toNat = 114 then parseStringBody (Char.ofNat 13 :: acc) cs2
          else if e.toNat = 116 then parseStringBody (Char.ofNat 9 :: acc) cs2
          else if e.toNat = 117 then
            (match cs2 with
            | h1 :: h2 :: h3 :: h4 :: cs3 =>
              (match hexVal h1, hexVal h2, hexVal h3, hexVal h4 with
              | some a, some b, some c3, some d =>
                  parseStringBody (Char.ofNat (a * 4096 + b * 256 + c3 * 16 + d) :: acc) cs3
              | _, _, _, _ => none)
            | _ => none)
          else none)
      else if c.toNat < 32 then none
      else parseStringBody (c :: acc) cs := by
  rcases cs with - | ⟨e, - | ⟨g1, - | ⟨g2, - | ⟨g3, - | ⟨g4, cs3⟩⟩⟩⟩⟩ <;> rfl

theorem parseStringBody_step (c : Char) (acc rest : List Char) :
    parseStringBody acc (escapeChar c ++ rest) = parseStringBody (c :: acc) rest := by
  by_cases h1 : c = dquote
  · subst h1
    rw [show escapeChar dquote = [bslash, dquote] from rfl]
    rw [show ([bslash, dquote] ++ rest : List Char) = bslash :: dquote :: rest from rfl]
    rw [parseStringBody_cons]
    rw [if_neg (show ¬ (bslash = dquote) by decide), if_pos (show bslash = bslash from rfl)]
    dsimp only
    rw [if_pos (show dquote = dquote from rfl)]
  · by_cases h2 : c = bslash
    · subst h2
      rw [show escapeChar bslash = [bslash, bslash] from rfl]
      rw [show ([bslash, bslash] ++ rest : List Char) = bslash :: bslash :: rest from rfl]
      rw [parseStringBody_cons]
      rw [if_neg (show ¬ (bslash = dquote) by decide), if_pos (show bslash = bslash from rfl)]
      dsimp only
      rw [if_neg (show ¬ (bslash = dquote) by decide), if_pos (show bslash = bslash from rfl)]
    · by_cases h8 : c.toNat = 8
      · have hc : Char.ofNat 8 = c :=
          char_eq_of_toNat (by rw [char_toNat_ofNat_small 8 (by omega)]; omega)
        have he : escapeChar c = [bslash, Char.ofNat 98] := by
          unfold escapeChar
          rw [if_neg h1, if_neg h2, if_pos h8]
        rw [he, show ([bslash, Char.ofNat 98] ++ rest : List Char) =
          bslash :: Char.ofNat 98 :: rest from rfl, parseStringBody_cons]
        rw [if_neg (show ¬ (bslash = dquote) by decide), if_pos (show bslash = bslash from rfl)]
        dsimp only
        rw [if_neg (show ¬ (Char.ofNat 98 = dquote) by decide),
          if_neg (show ¬ (Char.ofNat 98 = bslash) by decide),
          if_neg (show ¬ ((Char.ofNat 98).toNat = 47) by decide),
          if_pos (show (Char.ofNat 98).toNat = 98 by decide), hc]
      · by_cases h9 : c.toNat = 9
        · have hc : Char.ofNat 9 = c :=
            char_eq_of_toNat (by rw [char_toNat_ofNat_small 9 (by omega)]; omega)
          have he : escapeChar c = [bslash, Char.ofNat 116] := by
            unfold escapeChar
            rw [if_neg h1, if_neg h2, if_neg h8, if_pos h9]
          rw [he, show ([bslash, Char.ofNat 116] ++ rest : List Char) =
            bslash :: Char.ofNat 116 :: rest from rfl, parseStringBody_cons]
          rw [if_neg (show ¬ (bslash = dquote) by decide), if_pos (show bslash = bslash from rfl)]
          dsimp only
          rw [if_neg (show ¬ (Char.ofNat 116 = dquote) by decide),
            if_neg (show ¬ (Char.ofNat 116 = bslash) by decide),
            if_neg (show ¬ ((Char.ofNat 116).toNat = 47) by decide),
            if_neg (show ¬ ((Char.ofNat 116).toNat = 98) by decide),
            if_neg (show ¬ ((Char.ofNat 116).toNat = 102) by decide),
            if_neg (show ¬ ((Char.ofNat 116).toNat = 110) by decide),
            if_neg (show ¬ ((Char.ofNat 116).toNat = 114) by decide),
            if_pos (show (Char.ofNat 116).toNat = 116 by decide), hc]
        · by_cases h10 : c.toNat = 10
          · have hc : Char.ofNat 10 = c :=
              char_eq_of_toNat (by rw [char_toNat_ofNat_small 10 (by omega)]; omega)
            have he : escapeChar c = [bslash, Char.ofNat 110] := by
              unfold escapeChar
              rw [if_neg h1, if_neg h2, if_neg h8, if_neg h9, if_pos h10]
            rw [he, show ([bslash, Char.ofNat 110] ++ rest : List Char) =
              bslash :: Char.ofNat 110 :: rest from rfl, parseStringBody_cons]
            rw [if_neg (show ¬ (bslash = dquote) by decide), if_pos (show bslash = bslash from rfl)]
            dsimp only
            rw [if_neg (show ¬ (Char.ofNat 110 = dquote) by decide),
              if_neg (show ¬ (Char.ofNat 110 = bslash) by decide),
              if_neg (show ¬ ((Char.ofNat 110).toNat = 47) by decide),
              if_neg (show ¬ ((Char.ofNat 110).toNat = 98) by decide),
              if_neg (show ¬ ((Char.ofNat 110).toNat = 102) by decide),
              if_pos (show (Char.ofNat 110).toNat = 110 by decide), hc]
          · by_cases h12 : c.toNat = 12
            · have hc : Char.ofNat 12 = c :=
                char_eq_of_toNat (by rw [char_toNat_ofNat_small 12 (by omega)]; omega)
              have he : escapeChar c = [bslash, Char.ofNat 102] := by
                unfold escapeChar
                rw [if_neg h1, if_neg h2, if_neg h8, if_neg h9, if_neg h10, if_pos h12]
              rw [he, show ([bslash, Char.ofNat 102] ++ rest : List Char) =
                bslash :: Char.ofNat 102 :: rest from rfl, parseStringBody_cons]
              rw [if_neg (show ¬ (bslash = dquote) by decide),
                if_pos (show bslash = bslash from rfl)]
              dsimp only
              rw [if_neg (show ¬ (Char.ofNat 102 = dquote) by decide),
                if_neg (show ¬ (Char.ofNat 102 = bslash) by decide),
                if_neg (show ¬ ((Char.ofNat 102).toNat = 47) by decide),
                if_neg (show ¬ ((Char.ofNat 102).toNat = 98) by decide),
                if_pos (show (Char.ofNat 102).toNat = 102 by decide), hc]
            · by_cases h13 : c.toNat = 13
              · have hc : Char.ofNat 13 = c :=
                  char_eq_of_toNat (by rw [char_toNat_ofNat_small 13 (by omega)]; omega)
                have he : escapeChar c = [bslash, Char.ofNat 114] := by
                  unfold escapeChar
                  rw [if_neg h1, if_neg h2, if_neg h8, if_neg h9, if_neg h10, if_neg h12,
                    if_pos h13]
                rw [he, show ([bslash, Char.ofNat 114] ++ rest : List Char) =
                  bslash :: Char.ofNat 114 :: rest from rfl, parseStringBody_cons]
                rw [if_neg (show ¬ (bslash = dquote) by decide),
                  if_pos (show bslash = bslash from rfl)]
                dsimp only
                rw [if_neg (show ¬ (Char.ofNat 114 = dquote) by decide),
                  if_neg (show ¬ (Char.ofNat 114 = bslash) by decide),
                  if_neg (show ¬ ((Char.ofNat 114).toNat = 47) by decide),
                  if_neg (show ¬ ((Char.ofNat 114).toNat = 98) by decide),
                  if_neg (show ¬ ((Char.ofNat 114).toNat = 102) by decide),
                  if_neg (show ¬ ((Char.ofNat 114).toNat = 110) by decide),
                  if_pos (show (Char.ofNat 114).toNat = 114 by decide), hc]
              · by_cases hlt : c.toNat < 32
                · have hh : hexVal (Char.ofNat (48 + c.toNat / 16)) = some (c.toNat / 16) :=
                    hexVal_digit _ (by omega)
                  have hcc : Char.ofNat (c.toNat / 16 * 16 + c.toNat % 16) = c :=
                    char_eq_of_toNat (by rw [char_toNat_ofNat_small _ (by omega)]; omega)
                  have hmain : ∀ (lo : Char), hexVal lo = some (c.toNat % 16) →
                      parseStringBody acc (bslash :: Char.ofNat 117 :: Char.ofNat 48 ::
                        Char.ofNat 48 :: Char.ofNat (48 + c.toNat / 16) :: lo :: rest) =
                        parseStringBody (c :: acc) rest := by
                    intro lo hlo
                    rw [parseStringBody_cons]
                    rw [if_neg (show ¬ (bslash = dquote) by decide),
                      if_pos (show bslash = bslash from rfl)]
                    dsimp only
                    rw [if_neg (show ¬ (Char.ofNat 117 = dquote) by decide),
                      if_neg (show ¬ (Char.ofNat 117 = bslash) by decide),
                      if_neg (show ¬ ((Char.ofNat 117).toNat = 47) by decide),
                      if_neg (show ¬ ((Char.ofNat 117).toNat = 98) by decide),
                      if_neg (show ¬ ((Char.ofNat 117).toNat = 102) by decide),
                      if_neg (show ¬ ((Char.ofNat 117).toNat = 110) by decide),
                      if_neg (show ¬ ((Char.ofNat 117).toNat = 114) by decide),
                      if_neg (show ¬ ((Char.ofNat 117).toNat = 116) by decide),
                      if_pos (show (Char.ofNat 117).toNat = 117 by decide)]
                    rw [show hexVal (Char.ofNat 48) = some 0 from by decide, hh, hlo]
                    dsimp only
                    rw [show (0 * 4096 + 0 * 256 + c.toNat / 16 * 16 + c.toNat % 16 : Nat) =
                      c.toNat / 16 * 16 + c.toNat % 16 from by omega, hcc]
                  by_cases hr : c.toNat % 16 < 10
                  · have he : escapeChar c = [bslash, Char.ofNat 117, Char.ofNat 48,
                        Char.ofNat 48, Char.ofNat (48 + c.toNat / 16),
                        Char.ofNat (48 + c.toNat % 16)] := by
                      unfold escapeChar
                      rw [if_neg h1, if_neg h2, if_neg h8, if_neg h9, if_neg h10, if_neg h12,
                        if_neg h13, if_pos hlt]
                      rw [if_pos (show c.toNat / 16 < 10 by omega), if_pos hr]
                    rw [he]
                    exact hmain _ (hexVal_digit _ hr)
                  · have he : escapeChar c = [bslash, Char.ofNat 117, Char.ofNat 48,
                        Char.ofNat 48, Char.ofNat (48 + c.toNat / 16),
                        Char.ofNat (87 + c.toNat % 16)] := by
                      unfold escapeChar
                      rw [if_neg h1, if_neg h2, if_neg h8, if_neg h9, if_neg h10, if_neg h12,
                        if_neg h13, if_pos hlt]
                      rw [if_pos (show c.toNat / 16 < 10 by omega), if_neg hr]
                    rw [he]
                    exact hmain _ (hexVal_letter _ (by omega) (by omega))
                · have he : escapeChar c = [c] := by
                    unfold escapeChar
                    rw [if_neg h1, if_neg h2, if_neg h8, if_neg h9, if_neg h10, if_neg h12,
                      if_neg h13, if_neg hlt]
                  rw [he, show ([c] ++ rest : List Char) = c :: rest from rfl,
                    parseStringBody_cons]
                  rw [if_neg h1, if_neg h2, if_neg hlt]

theorem parseStringBody_escape : ∀ (l : List Char) (acc tail : List Char),
    parseStringBody acc (escapeString l ++ (dquote :: tail)) =
      some (String.mk (acc.reverse ++ l), tail) := by
  intro l
  induction l with
  | nil =>
    intro acc tail
    rw [show escapeString [] = [] from rfl, List.nil_append, parseStringBody_cons,
      if_pos (show dquote = dquote from rfl)]
    simp
  | cons c ls ih =>
    intro acc tail
    have hes : escapeString (c :: ls) = escapeChar c ++ escapeString ls := rfl
    rw [hes, List.append_assoc, parseStringBody_step, ih]
    simp

theorem skipWs_append (ws cs : List Char) (h : ∀ c ∈ ws, isWsChar c = true) :
    skipWs (ws ++ cs) = skipWs cs := by
  induction ws with
  | nil => rfl
  | cons c t ih =>
    rw [List.cons_append]
    rw [show skipWs (c :: (t ++ cs)) = if isWsChar c then skipWs (t ++ cs) else c :: (t ++ cs)
      from rfl]
    rw [h c (List.mem_cons_self c t)]
    simp only [if_true]
    exact ih (fun d hd => h d (List.mem_cons_of_mem c hd))

theorem skipWs_cons_not (c : Char) (cs : List Char) (h : isWsChar c = false) :
    skipWs (c :: cs) = c :: cs := by
  rw [show skipWs (c :: cs) = if isWsChar c then skipWs cs else c :: cs from rfl, h]
  simp

theorem isWsChar_vals {c : Char} (h : isWsChar c = true) :
    c.toNat = 32 ∨ c.toNat = 9 ∨ c.toNat = 10 ∨ c.toNat = 13 := by
  unfold isWsChar at h
  simp at h
  tauto

theorem isDigitChar_bounds {c : Char} (h : isDigitChar c = true) :
    48 ≤ c.toNat ∧ c.toNat ≤ 57 := by
  unfold isDigitChar at h
  simp at h
  exact h

theorem goodTail_nil : goodTail [] := trivial

theorem goodTail_ws_append (ws rest : List Char) (hws : ∀ c ∈ ws, isWsChar c = true)
    (hrest : goodTail rest) : goodTail (ws ++ rest) := by
  cases ws with
  | nil => simpa using hrest
  | cons c t =>
    have h := isWsChar_vals (hws c (List.mem_cons_self c t))
    rw [List.cons_append]
    refine ⟨?_, ?_, ?_, ?_⟩ <;> first
      | (unfold isDigitChar; simp; omega)
      | omega

theorem goodTail_93 (t : List Char) : goodTail (Char.ofNat 93 :: t) :=
  ⟨by decide, by decide, by decide, by decide⟩

theorem goodTail_125 (t : List Char) : goodTail (Char.ofNat 125 :: t) :=
  ⟨by decide, by decide, by decide, by decide⟩

theorem goodTail_44 (t : List Char) : goodTail (Char.ofNat 44 :: t) :=
  ⟨by decide, by decide, by decide, by decide⟩

theorem allWs_nlpad (k : Nat) : ∀ c ∈ (Char.ofNat 10 :: pad k), isWsChar c = true := by
  intro c hc
  rcases List.mem_cons.mp hc with h | h
  · subst h
    decide
  · unfold pad at h
    rw [List.eq_of_mem_replicate h]
    decide

theorem allWs_if_nlpad (p : Bool) (k : Nat) :
    ∀ c ∈ (if p then Char.ofNat 10 :: pad k else []), isWsChar c = true := by
  cases p
  · simp
  · intro c hc
    exact allWs_nlpad k c (by simpa using hc)

theorem allWs_if_sp (p : Bool) :
    ∀ c ∈ (if p then [Char.ofNat 32] else []), isWsChar c = true := by
  cases p
  · simp
  · intro c hc
    simp at hc
    subst hc
    decide

theorem allWs_nil : ∀ c ∈ ([] : List Char), isWsChar c = true := by simp

theorem render_head (p : Bool) (ind : Nat) (v : JValue) :
    ∃ c cs, render p ind v = c :: cs ∧ isWsChar c = false ∧ c.toNat ≠ 93 := by
  cases v with
  | null => exact ⟨_, _, rfl, by decide, by decide⟩
  | bool b =>
    cases b
    · exact ⟨_, _, rfl, by decide, by decide⟩
    · exact ⟨_, _, rfl, by decide, by decide⟩
  | num n =>
    by_cases hn : n < 0
    · refine ⟨Char.ofNat 45, natToDec n.natAbs, ?_, by decide, by decide⟩
      show intToDec n = _
      unfold intToDec
      rw [if_pos hn]
    · obtain ⟨c, cs, hl, hd⟩ := natToDec_head_digit n.natAbs
      have hb := isDigitChar_bounds hd
      refine ⟨c, cs, ?_, ?_, ?_⟩
      · show intToDec n = _
        unfold intToDec
        rw [if_neg hn, hl]
      · unfold isWsChar
        simp
        omega
      · omega
  | str s => exact ⟨_, _, rfl, by decide, by decide⟩
  | arr items =>
    cases items
    · exact ⟨_, _, rfl, by decide, by decide⟩
    · exact ⟨_, _, rfl, by decide, by decide⟩
  | obj fs =>
    cases fs
    · exact ⟨_, _, rfl, by decide, by decide⟩
    · exact ⟨_, _, rfl, by decide, by decide⟩

theorem render_length_pos (p : Bool) (ind : Nat) (v : JValue) :
    1 ≤ (render p ind v).length := by
  obtain ⟨c, cs, h, -, -⟩ := render_head p ind v
  rw [h]
  simp

theorem expectChars_null (tail : List Char) :
    expectChars [Char.ofNat 117, Char.ofNat 108, Char.ofNat 108]
      (Char.ofNat 117 :: Char.ofNat 108 :: Char.ofNat 108 :: tail) = some tail := rfl

theorem expectChars_true (tail : List Char) :
    expectChars [Char.ofNat 114, Char.ofNat 117, Char.ofNat 101]
      (Char.ofNat 114 :: Char.ofNat 117 :: Char.ofNat 101 :: tail) = some tail := rfl

theorem expectChars_false (tail : List Char) :
    expectChars [Char.ofNat 97, Char.ofNat 108, Char.ofNat 115, Char.ofNat 101]
      (Char.ofNat 97 :: Char.ofNat 108 :: Char.ofNat 115 :: Char.ofNat 101 :: tail) =
      some tail := rfl

mutual

theorem parseVal_render (p : Bool) (v : JValue) :
    ∀ (ind fuel : Nat) (ws tail : List Char),
      (render p ind v).length + 1 ≤ fuel →
      (∀ c ∈ ws, isWsChar c = true) →
      goodTail tail →
      parseVal fuel (ws ++ render p ind v ++ tail) = some (v, tail) := by
  intro ind fuel ws tail hf hws ht
  obtain ⟨f, rfl⟩ : ∃ f, fuel = f + 1 := ⟨fuel - 1, by omega⟩
  rw [parseVal]
  cases v with
  | null =>
    have hskip : skipWs (ws ++ render p ind JValue.null ++ tail) =
        Char.ofNat 110 :: (Char.ofNat 117 :: Char.ofNat 108 :: Char.ofNat 108 :: tail) := by
      rw [show ws ++ render p ind JValue.null ++ tail =
        ws ++ (Char.ofNat 110 :: (Char.ofNat 117 :: Char.ofNat 108 :: Char.ofNat 108 :: tail))
        from by simp [render]]
      rw [skipWs_append _ _ hws]
      exact skipWs_cons_not _ _ (by decide)
    rw [hskip]
    dsimp only
    rw [if_pos (show (Char.ofNat 110).toNat = 110 by decide), expectChars_null]
  | bool b =>
    cases b with
    | true =>
      have hskip : skipWs (ws ++ render p ind (JValue.bool true) ++ tail) =
          Char.ofNat 116 :: (Char.ofNat 114 :: Char.ofNat 117 :: Char.ofNat 101 :: tail) := by
        rw [show ws ++ render p ind (JValue.bool true) ++ tail =
          ws ++ (Char.ofNat 116 :: (Char.ofNat 114 :: Char.ofNat 117 :: Char.ofNat 101 :: tail))
          from by simp [render]]
        rw [skipWs_append _ _ hws]
        exact skipWs_cons_not _ _ (by decide)
      rw [hskip]
      dsimp only
      rw [if_neg (show ¬ ((Char.ofNat 116).toNat = 110) by decide),
        if_pos (show (Char.ofNat 116).toNat = 116 by decide), expectChars_true]
    | false =>
      have hskip : skipWs (ws ++ render p ind (JValue.bool false) ++ tail) =
          Char.ofNat 102 ::
            (Char.ofNat 97 :: Char.ofNat 108 :: Char.ofNat 115 :: Char.ofNat 101 :: tail) := by
        rw [show ws ++ render p ind (JValue.bool false) ++ tail =
          ws ++ (Char.ofNat 102 ::
            (Char.ofNat 97 :: Char.ofNat 108 :: Char.ofNat 115 :: Char.ofNat 101 :: tail))
          from by simp [render]]
        rw [skipWs_append _ _ hws]
        exact skipWs_cons_not _ _ (by decide)
      rw [hskip]
      dsimp only
      rw [if_neg (show ¬ ((Char.ofNat 102).toNat = 110) by decide),
        if_neg (show ¬ ((Char.ofNat 102).toNat = 116) by decide),
        if_pos (show (Char.ofNat 102).toNat = 102 by decide), expectChars_false]
  | num n =>
    by_cases hn : n < 0
    · have hform : render p ind (JValue.num n) = Char.ofNat 45 :: natToDec n.natAbs := by
        show intToDec n = _
        unfold intToDec
        rw [if_pos hn]
      have hskip : skipWs (ws ++ render p ind (JValue.num n) ++ tail) =
          Char.ofNat 45 :: (natToDec n.natAbs ++ tail) := by
        rw [show ws ++ render p ind (JValue.num n) ++ tail =
          ws ++ (render p ind (JValue.num n) ++ tail) from by simp]
        rw [skipWs_append _ _ hws, hform, List.cons_append]
        exact skipWs_cons_not _ _ (by decide)
      rw [hskip]
      dsimp only
      rw [if_neg (show ¬ ((Char.ofNat 45).toNat = 110) by decide),
        if_neg (show ¬ ((Char.ofNat 45).toNat = 116) by decide),
        if_neg (show ¬ ((Char.ofNat 45).toNat = 102) by decide),
        if_neg (show ¬ (Char.ofNat 45 = dquote) by decide),
        if_neg (show ¬ ((Char.ofNat 45).toNat = 91) by decide),
        if_neg (show ¬ ((Char.ofNat 45).toNat = 123) by decide),
        if_pos (show ((Char.ofNat 45).toNat = 45 || isDigitChar (Char.ofNat 45)) = true by decide)]
      rw [show Char.ofNat 45 :: (natToDec n.natAbs ++ tail) = intToDec n ++ tail from by
        unfold intToDec
        rw [if_pos hn, List.cons_append]]
      rw [parseNumber_intToDec n tail ht]
    · obtain ⟨c, cs, hl, hd⟩ := natToDec_head_digit n.natAbs
      have hb := isDigitChar_bounds hd
      have hform : render p ind (JValue.num n) = c :: cs := by
        show intToDec n = _
        unfold intToDec
        rw [if_neg hn, hl]
      have hskip : skipWs (ws ++ render p ind (JValue.num n) ++ tail) =
          c :: (cs ++ tail) := by
        rw [show ws ++ render p ind (JValue.num n) ++ tail =
          ws ++ (render p ind (JValue.num n) ++ tail) from by simp]
        rw [skipWs_append _ _ hws, hform, List.cons_append]
        refine skipWs_cons_not _ _ ?_
        unfold isWsChar
        simp
        omega
      rw [hskip]
      dsimp only
      rw [if_neg (show ¬ (c.toNat = 110) by omega),
        if_neg (show ¬ (c.toNat = 116) by omega),
        if_neg (show ¬ (c.toNat = 102) by omega),
        if_neg (show ¬ (c = dquote) from char_ne_of_toNat
          (by rw [show dquote.toNat = 34 from by decide]; omega)),
        if_neg (show ¬ (c.toNat = 91) by omega),
        if_neg (show ¬ (c.toNat = 123) by omega),
        if_pos (show (c.toNat = 45 || isDigitChar c) = true by simp [hd])]
      rw [show c :: (cs ++ tail) = intToDec n ++ tail from by
        unfold intToDec
        rw [if_neg hn, hl, List.cons_append]]
      rw [parseNumber_intToDec n tail ht]
  | str s =>
    have hform : render p ind (JValue.str s) =
        dquote :: (escapeString s.data ++ [dquote]) := rfl
    have hskip : skipWs (ws ++ render p ind (JValue.str s) ++ tail) =
        dquote :: ((escapeString s.data ++ [dquote]) ++ tail) := by
      rw [show ws ++ render p ind (JValue.str s) ++ tail =
        ws ++ (render p ind (JValue.str s) ++ tail) from by simp]
      rw [skipWs_append _ _ hws, hform, List.cons_append]
      exact skipWs_cons_not _ _ (by decide)
    rw [hskip]
    dsimp only
    rw [if_neg (show ¬ (dquote.toNat = 110) by decide),
      if_neg (show ¬ (dquote.toNat = 116) by decide),
      if_neg (show ¬ (dquote.toNat = 102) by decide),
      if_pos (show dquote = dquote from rfl)]
    rw [show (escapeString s.data ++ [dquote]) ++ tail =
      escapeString s.data ++ (dquote :: tail) from by simp]
    rw [parseStringBody_escape]
    rw [show String.mk (List.reverse [] ++ s.data) = s from by
      rw [List.reverse_nil, List.nil_append]]
  | arr items =>
    cases items with
    | nil =>
      have hskip : skipWs (ws ++ render p ind (JValue.arr JArr.nil) ++ tail) =
          Char.ofNat 91 :: (Char.ofNat 93 :: tail) := by
        rw [show ws ++ render p ind (JValue.arr JArr.nil) ++ tail =
          ws ++ (Char.ofNat 91 :: (Char.ofNat 93 :: tail)) from by simp [render]]
        rw [skipWs_append _ _ hws]
        exact skipWs_cons_not _ _ (by decide)
      rw [hskip]
      dsimp only
      rw [if_neg (show ¬ ((Char.ofNat 91).toNat = 110) by decide),
        if_neg (show ¬ ((Char.ofNat 91).toNat = 116) by decide),
        if_neg (show ¬ ((Char.ofNat 91).toNat = 102) by decide),
        if_neg (show ¬ (Char.ofNat 91 = dquote) by decide),
        if_pos (show (Char.ofNat 91).toNat = 91 by decide)]
      have hnil : parseArrTail f (Char.ofNat 93 :: tail) = some (JArr.nil, tail) := by
        obtain ⟨g, rfl⟩ : ∃ g, f = g + 1 := ⟨f - 1, by
          have := render_length_pos p ind (JValue.arr JArr.nil)
          omega⟩
        rw [parseArrTail]
        rw [skipWs_cons_not _ _ (by decide)]
        dsimp only
        rw [if_pos (show (Char.ofNat 93).toNat = 93 by decide)]
      rw [hnil]
    | cons x xs =>
      have hren : render p ind (JValue.arr (JArr.cons x xs)) =
          Char.ofNat 91 :: ((if p then Char.ofNat 10 :: pad (ind + 2) else []) ++
            renderItems p (ind + 2) (JArr.cons x xs) ++
            (if p then Char.ofNat 10 :: pad ind else []) ++ [Char.ofNat 93]) := rfl
      have hskip : skipWs (ws ++ render p ind (JValue.arr (JArr.cons x xs)) ++ tail) =
          Char.ofNat 91 :: (((if p then Char.ofNat 10 :: pad (ind + 2) else []) ++
            renderItems p (ind + 2) (JArr.cons x xs) ++
            (if p then Char.ofNat 10 :: pad ind else []) ++ [Char.ofNat 93]) ++ tail) := by
        rw [show ws ++ render p ind (JValue.arr (JArr.cons x xs)) ++ tail =
          ws ++ (render p ind (JValue.arr (JArr.cons x xs)) ++ tail) from by simp]
        rw [skipWs_append _ _ hws, hren, List.cons_append]
        exact skipWs_cons_not _ _ (by decide)
      rw [hskip]
      dsimp only
      rw [if_neg (show ¬ ((Char.ofNat 91).toNat = 110) by decide),
        if_neg (show ¬ ((Char.ofNat 91).toNat = 116) by decide),
        if_neg (show ¬ ((Char.ofNat 91).toNat = 102) by decide),
        if_neg (show ¬ (Char.ofNat 91 = dquote) by decide),
        if_pos (show (Char.ofNat 91).toNat = 91 by decide)]
      have hlen : (render p ind (JValue.arr (JArr.cons x xs))).length =
          1 + ((if p then Char.ofNat 10 :: pad (ind + 2) else []).length +
            (renderItems p (ind + 2) (JArr.cons x xs)).length +
            (if p then Char.ofNat 10 :: pad ind else []).length + 1) := by
        rw [hren]
        simp
        omega
      have harr : parseArrTail f (((if p then Char.ofNat 10 :: pad (ind + 2) else []) ++
          renderItems p (ind + 2) (JArr.cons x xs) ++
          (if p then Char.ofNat 10 :: pad ind else []) ++ [Char.ofNat 93]) ++ tail) =
          some (JArr.cons x xs, tail) := by
        rw [show ((if p then Char.ofNat 10 :: pad (ind + 2) else []) ++
          renderItems p (ind + 2) (JArr.cons x xs) ++
          (if p then Char.ofNat 10 :: pad ind else []) ++ [Char.ofNat 93]) ++ tail =
          (if p then Char.ofNat 10 :: pad (ind + 2) else []) ++
          renderItems p (ind + 2) (JArr.cons x xs) ++
          (if p then Char.ofNat 10 :: pad ind else []) ++ (Char.ofNat 93 :: tail) from by simp]
        exact parseArrTail_renderItems p (JArr.cons x xs) (ind + 2) f _ _ tail
          (by omega) (allWs_if_nlpad p (ind + 2)) (allWs_if_nlpad p ind)
      rw [harr]
  | obj fs =>
    cases fs with
    | nil =>
      have hskip : skipWs (ws ++ render p ind (JValue.obj JObj.nil) ++ tail) =
          Char.ofNat 123 :: (Char.ofNat 125 :: tail) := by
        rw [show ws ++ render p ind (JValue.obj JObj.nil) ++ tail =
          ws ++ (Char.ofNat 123 :: (Char.ofNat 125 :: tail)) from by simp [render]]
        rw [skipWs_append _ _ hws]
        exact skipWs_cons_not _ _ (by decide)
      rw [hskip]
      dsimp only
      rw [if_neg (show ¬ ((Char.ofNat 123).toNat = 110) by decide),
        if_neg (show ¬ ((Char.ofNat 123).toNat = 116) by decide),
        if_neg (show ¬ ((Char.ofNat 123).toNat = 102) by decide),
        if_neg (show ¬ (Char.ofNat 123 = dquote) by decide),
        if_neg (show ¬ ((Char.ofNat 123).toNat = 91) by decide),
        if_pos (show (Char.ofNat 123).toNat = 123 by decide)]
      have hnil : parseObjTail f (Char.ofNat 125 :: tail) = some (JObj.nil, tail) := by
        obtain ⟨g, rfl⟩ : ∃ g, f = g + 1 := ⟨f - 1, by
          have := render_length_pos p ind (JValue.obj JObj.nil)
          omega⟩
        rw [parseObjTail]
        rw [skipWs_cons_not _ _ (by decide)]
        dsimp only
        rw [if_pos (show (Char.ofNat 125).toNat = 125 by decide)]
      rw [hnil]
    | cons k v rest =>
      have hren : render p ind (JValue.obj (JObj.cons k v rest)) =
          Char.ofNat 123 :: ((if p then Char.ofNat 10 :: pad (ind + 2) else []) ++
            renderFields p (ind + 2) (JObj.cons k v rest) ++
            (if p then Char.ofNat 10 :: pad ind else []) ++ [Char.ofNat 125]) := rfl
      have hskip : skipWs (ws ++ render p ind (JValue.obj (JObj.cons k v rest)) ++ tail) =
          Char.ofNat 123 :: (((if p then Char.ofNat 10 :: pad (ind + 2) else []) ++
            renderFields p (ind + 2) (JObj.cons k v rest) ++
            (if p then Char.ofNat 10 :: pad ind else []) ++ [Char.ofNat 125]) ++ tail) := by
        rw [show ws ++ render p ind (JValue.obj (JObj.cons k v rest)) ++ tail =
          ws ++ (render p ind (JValue.obj (JObj.cons k v rest)) ++ tail) from by simp]
        rw [skipWs_append _ _ hws, hren, List.cons_append]
        exact skipWs_cons_not _ _ (by decide)
      rw [hskip]
      dsimp only
      rw [if_neg (show ¬ ((Char.ofNat 123).toNat = 110) by decide),
        if_neg (show ¬ ((Char.ofNat 123).toNat = 116) by decide),
        if_neg (show ¬ ((Char.ofNat 123).toNat = 102) by decide),
        if_neg (show ¬ (Char.ofNat 123 = dquote) by decide),
        if_neg (show ¬ ((Char.ofNat 123).toNat = 91) by decide),
        if_pos (show (Char.ofNat 123).toNat = 123 by decide)]
      have hlen : (render p ind (JValue.obj (JObj.cons k v rest))).length =
          1 + ((if p then Char.ofNat 10 :: pad (ind + 2) else []).length +
            (renderFields p (ind + 2) (JObj.cons k v rest)).length +
            (if p then Char.ofNat 10 :: pad ind else []).length + 1) := by
        rw [hren]
        simp
        omega
      have hobj : parseObjTail f (((if p then Char.ofNat 10 :: pad (ind + 2) else []) ++
          renderFields p (ind + 2) (JObj.cons k v rest) ++
          (if p then Char.ofNat 10 :: pad ind else []) ++ [Char.ofNat 125]) ++ tail) =
          some (JObj.cons k v rest, tail) := by
        rw [show ((if p then Char.ofNat 10 :: pad (ind + 2) else []) ++
          renderFields p (ind + 2) (JObj.cons k v rest) ++
          (if p then Char.ofNat 10 :: pad ind else []) ++ [Char.ofNat 125]) ++ tail =
          (if p then Char.ofNat 10 :: pad (ind + 2) else []) ++
          renderFields p (ind + 2) (JObj.cons k v rest) ++
          (if p then Char.ofNat 10 :: pad ind else []) ++ (Char.ofNat 125 :: tail) from by simp]
        exact parseObjTail_renderFields p (JObj.cons k v rest) (ind + 2) f _ _ tail
          (by omega) (allWs_if_nlpad p (ind + 2)) (allWs_if_nlpad p ind)
      rw [hobj]

termination_by sizeOf v

theorem parseArrTail_renderItems (p : Bool) (items : JArr) :
    ∀ (ind fuel : Nat) (ws ws2 tail : List Char),
      (renderItems p ind items).length + 2 ≤ fuel →
      (∀ c ∈ ws, isWsChar c = true) →
      (∀ c ∈ ws2, isWsChar c = true) →
      parseArrTail fuel (ws ++ renderItems p ind items ++ ws2 ++ Char.ofNat 93 :: tail) =
        some (items, tail) := by
  intro ind fuel ws ws2 tail hf hws hws2
  obtain ⟨f, rfl⟩ : ∃ f, fuel = f + 1 := ⟨fuel - 1, by omega⟩
  rw [parseArrTail]
  cases items with
  | nil =>
    have hskip : skipWs (ws ++ renderItems p ind JArr.nil ++ ws2 ++ Char.ofNat 93 :: tail) =
        Char.ofNat 93 :: tail := by
      rw [show ws ++ renderItems p ind JArr.nil ++ ws2 ++ Char.ofNat 93 :: tail =
        (ws ++ ws2) ++ Char.ofNat 93 :: tail from by simp [renderItems]]
      rw [skipWs_append _ _ (by
        intro c hc
        rcases List.mem_append.mp hc with h | h
        · exact hws c h
        · exact hws2 c h)]
      exact skipWs_cons_not _ _ (by decide)
    rw [hskip]
    dsimp only
    rw [if_pos (show (Char.ofNat 93).toNat = 93 by decide)]
  | cons x xs =>
    obtain ⟨c0, cs0, hx, hnws, hn93⟩ := render_head p ind x
    cases xs with
    | nil =>
      have hri : renderItems p ind (JArr.cons x JArr.nil) = render p ind x := rfl
      have hskip : skipWs (ws ++ renderItems p ind (JArr.cons x JArr.nil) ++ ws2 ++
          Char.ofNat 93 :: tail) = c0 :: (cs0 ++ (ws2 ++ Char.ofNat 93 :: tail)) := by
        rw [hri]
        rw [show ws ++ render p ind x ++ ws2 ++ Char.ofNat 93 :: tail =
          ws ++ (render p ind x ++ (ws2 ++ Char.ofNat 93 :: tail)) from by simp]
        rw [skipWs_append _ _ hws, hx, List.cons_append]
        exact skipWs_cons_not _ _ hnws
      rw [hskip]
      dsimp only
      rw [if_neg hn93]
      have hpv : parseVal f (ws ++ renderItems p ind (JArr.cons x JArr.nil) ++ ws2 ++
          Char.ofNat 93 :: tail) = some (x, ws2 ++ Char.ofNat 93 :: tail) := by
        rw [hri]
        rw [show ws ++ render p ind x ++ ws2 ++ Char.ofNat 93 :: tail =
          ws ++ render p ind x ++ (ws2 ++ Char.ofNat 93 :: tail) from by simp]
        refine parseVal_render p x ind f ws _ ?_ hws ?_
        · have hlen : (renderItems p ind (JArr.cons x JArr.nil)).length =
            (render p ind x).length := by rw [hri]
          omega
        · exact goodTail_ws_append _ _ hws2 (goodTail_93 tail)
      rw [hpv]
      dsimp only
      rw [show skipWs (ws2 ++ Char.ofNat 93 :: tail) = Char.ofNat 93 :: tail from by
        rw [skipWs_append _ _ hws2]
        exact skipWs_cons_not _ _ (by decide)]
      dsimp only
      rw [if_neg (show ¬ ((Char.ofNat 93).toNat = 44) by decide),
        if_pos (show (Char.ofNat 93).toNat = 93 by decide)]
    | cons y r =>
      have hri : renderItems p ind (JArr.cons x (JArr.cons y r)) =
          render p ind x ++ Char.ofNat 44 :: ((if p then Char.ofNat 10 :: pad ind else []) ++
            renderItems p ind (JArr.cons y r)) := rfl
      have hinput : ws ++ renderItems p ind (JArr.cons x (JArr.cons y r)) ++ ws2 ++
          Char.ofNat 93 :: tail =
          ws ++ render p ind x ++ (Char.ofNat 44 ::
            ((if p then Char.ofNat 10 :: pad ind else []) ++
              (renderItems p ind (JArr.cons y r) ++ (ws2 ++ Char.ofNat 93 :: tail)))) := by
        rw [hri]
        simp
      rw [hinput]
      have hskip : skipWs (ws ++ render p ind x ++ (Char.ofNat 44 ::
          ((if p then Char.ofNat 10 :: pad ind else []) ++
            (renderItems p ind (JArr.cons y r) ++ (ws2 ++ Char.ofNat 93 :: tail))))) =
          c0 :: (cs0 ++ (Char.ofNat 44 ::
            ((if p then Char.ofNat 10 :: pad ind else []) ++
              (renderItems p ind (JArr.cons y r) ++ (ws2 ++ Char.ofNat 93 :: tail))))) := by
        rw [show ws ++ render p ind x ++ (Char.ofNat 44 ::
          ((if p then Char.ofNat 10 :: pad ind else []) ++
            (renderItems p ind (JArr.cons y r) ++ (ws2 ++ Char.ofNat 93 :: tail)))) =
          ws ++ (render p ind x ++ (Char.ofNat 44 ::
            ((if p then Char.ofNat 10 :: pad ind else []) ++
              (renderItems p ind (JArr.cons y r) ++ (ws2 ++ Char.ofNat 93 :: tail)))))
          from by simp]
        rw [skipWs_append _ _ hws, hx, List.cons_append]
        exact skipWs_cons_not _ _ hnws
      rw [hskip]
      dsimp only
      rw [if_neg hn93]
      have hlen : (renderItems p ind (JArr.cons x (JArr.cons y r))).length =
          (render p ind x).length + 1 + (if p then Char.ofNat 10 :: pad ind else []).length +
            (renderItems p ind (JArr.cons y r)).length := by
        rw [hri]
        simp
        omega
      have hxpos := render_length_pos p ind x
      have hpv : parseVal f (ws ++ render p ind x ++ (Char.ofNat 44 ::
          ((if p then Char.ofNat 10 :: pad ind else []) ++
            (renderItems p ind (JArr.cons y r) ++ (ws2 ++ Char.ofNat 93 :: tail))))) =
          some (x, Char.ofNat 44 ::
            ((if p then Char.ofNat 10 :: pad ind else []) ++
              (renderItems p ind (JArr.cons y r) ++ (ws2 ++ Char.ofNat 93 :: tail)))) := by
        refine parseVal_render p x ind f ws _ (by omega) hws (goodTail_44 _)
      rw [hpv]
      dsimp only
      rw [skipWs_cons_not _ _ (by decide)]
      dsimp only
      rw [if_pos (show (Char.ofNat 44).toNat = 44 by decide)]
      have hrec : parseArrTail f ((if p then Char.ofNat 10 :: pad ind else []) ++
          (renderItems p ind (JArr.cons y r) ++ (ws2 ++ Char.ofNat 93 :: tail))) =
          some (JArr.cons y r, tail) := by
        rw [show (if p then Char.ofNat 10 :: pad ind else []) ++
          (renderItems p ind (JArr.cons y r) ++ (ws2 ++ Char.ofNat 93 :: tail)) =
          (if p then Char.ofNat 10 :: pad ind else []) ++
          renderItems p ind (JArr.cons y r) ++ ws2 ++ Char.ofNat 93 :: tail from by simp]
        exact parseArrTail_renderItems p (JArr.cons y r) ind f _ ws2 tail
          (by omega) (allWs_if_nlpad p ind) hws2
      rw [hrec]

termination_by sizeOf items

theorem parseObjTail_renderFields (p : Bool) (fields : JObj) :
    ∀ (ind fuel : Nat) (ws ws2 tail : List Char),
      (renderFields p ind fields).length + 2 ≤ fuel →
      (∀ c ∈ ws, isWsChar c = true) →
      (∀ c ∈ ws2, isWsChar c = true) →
      parseObjTail fuel (ws ++ renderFields p ind fields ++ ws2 ++ Char.ofNat 125 :: tail) =
        some (fields, tail) := by
  intro ind fuel ws ws2 tail hf hws hws2
  obtain ⟨f, rfl⟩ : ∃ f, fuel = f + 1 := ⟨fuel - 1, by omega⟩
  rw [parseObjTail]
  cases fields with
  | nil =>
    have hskip : skipWs (ws ++ renderFields p ind JObj.nil ++ ws2 ++ Char.ofNat 125 :: tail) =
        Char.ofNat 125 :: tail := by
      rw [show ws ++ renderFields p ind JObj.nil ++ ws2 ++ Char.ofNat 125 :: tail =
        (ws ++ ws2) ++ Char.ofNat 125 :: tail from by simp [renderFields]]
      rw [skipWs_append _ _ (by
        intro c hc
        rcases List.mem_append.mp hc with h | h
        · exact hws c h
        · exact hws2 c h)]
      exact skipWs_cons_not _ _ (by decide)
    rw [hskip]
    dsimp only
    rw [if_pos (show (Char.ofNat 125).toNat = 125 by decide)]
  | cons k v rest =>
    have hq : (quoteChars k).length = (escapeString k.data).length + 2 := by
      unfold quoteChars
      simp
    cases rest with
    | nil =>
      have hrf : renderFields p ind (JObj.cons k v JObj.nil) =
          quoteChars k ++ Char.ofNat 58 :: ((if p then [Char.ofNat 32] else []) ++
            render p ind v) := rfl
      have hinput : ws ++ renderFields p ind (JObj.cons k v JObj.nil) ++ ws2 ++
          Char.ofNat 125 :: tail =
          ws ++ (dquote :: (escapeString k.data ++ (dquote ::
            (Char.ofNat 58 :: ((if p then [Char.ofNat 32] else []) ++
              (render p ind v ++ (ws2 ++ Char.ofNat 125 :: tail))))))) := by
        rw [hrf]
        unfold quoteChars
        simp
      rw [hinput]
      have hskip : skipWs (ws ++ (dquote :: (escapeString k.data ++ (dquote ::
          (Char.ofNat 58 :: ((if p then [Char.ofNat 32] else []) ++
            (render p ind v ++ (ws2 ++ Char.ofNat 125 :: tail)))))))) =
          dquote :: (escapeString k.data ++ (dquote ::
            (Char.ofNat 58 :: ((if p then [Char.ofNat 32] else []) ++
              (render p ind v ++ (ws2 ++ Char.ofNat 125 :: tail)))))) := by
        rw [skipWs_append _ _ hws]
        exact skipWs_cons_not _ _ (by decide)
      rw [hskip]
      dsimp only
      rw [if_neg (show ¬ (dquote.toNat = 125) by decide),
        if_pos (show dquote = dquote from rfl)]
      rw [parseStringBody_escape]
      dsimp only
      rw [skipWs_cons_not _ _ (by decide)]
      dsimp only
      rw [if_pos (show (Char.ofNat 58).toNat = 58 by decide)]
      have hpv : parseVal f ((if p then [Char.ofNat 32] else []) ++
          (render p ind v ++ (ws2 ++ Char.ofNat 125 :: tail))) =
          some (v, ws2 ++ Char.ofNat 125 :: tail) := by
        rw [show (if p then [Char.ofNat 32] else []) ++
          (render p ind v ++ (ws2 ++ Char.ofNat 125 :: tail)) =
          (if p then [Char.ofNat 32] else []) ++ render p ind v ++
            (ws2 ++ Char.ofNat 125 :: tail) from by simp]
        refine parseVal_render p v ind f _ _ ?_ (allWs_if_sp p) ?_
        · have hlen : (renderFields p ind (JObj.cons k v JObj.nil)).length =
              (quoteChars k).length + 1 + (if p then [Char.ofNat 32] else []).length +
                (render p ind v).length := by
            rw [hrf]
            simp
            omega
          omega
        · exact goodTail_ws_append _ _ hws2 (goodTail_125 tail)
      rw [hpv]
      dsimp only
      rw [show skipWs (ws2 ++ Char.ofNat 125 :: tail) = Char.ofNat 125 :: tail from by
        rw [skipWs_append _ _ hws2]
        exact skipWs_cons_not _ _ (by decide)]
      dsimp only
      rw [if_neg (show ¬ ((Char.ofNat 125).toNat = 44) by decide),
        if_pos (show (Char.ofNat 125).toNat = 125 by decide)]
      rw [show String.mk (List.reverse [] ++ k.data) = k from by
        rw [List.reverse_nil, List.nil_append]]
    | cons k2 v2 r2 =>
      have hrf : renderFields p ind (JObj.cons k v (JObj.cons k2 v2 r2)) =
          quoteChars k ++ Char.ofNat 58 :: ((if p then [Char.ofNat 32] else []) ++
            render p ind v) ++ Char.ofNat 44 :: ((if p then Char.ofNat 10 :: pad ind else []) ++
              renderFields p ind (JObj.cons k2 v2 r2)) := rfl
      have hinput : ws ++ renderFields p ind (JObj.cons k v (JObj.cons k2 v2 r2)) ++ ws2 ++
          Char.ofNat 125 :: tail =
          ws ++ (dquote :: (escapeString k.data ++ (dquote ::
            (Char.ofNat 58 :: ((if p then [Char.ofNat 32] else []) ++
              (render p ind v ++ (Char.ofNat 44 ::
                ((if p then Char.ofNat 10 :: pad ind else []) ++
                  (renderFields p ind (JObj.cons k2 v2 r2) ++
                    (ws2 ++ Char.ofNat 125 :: tail)))))))))) := by
        rw [hrf]
        unfold quoteChars
        simp
      rw [hinput]
      have hskip : skipWs (ws ++ (dquote :: (escapeString k.data ++ (dquote ::
          (Char.ofNat 58 :: ((if p then [Char.ofNat 32] else []) ++
            (render p ind v ++ (Char.ofNat 44 ::
              ((if p then Char.ofNat 10 :: pad ind else []) ++
                (renderFields p ind (JObj.cons k2 v2 r2) ++
                  (ws2 ++ Char.ofNat 125 :: tail))))))))))) =
          dquote :: (escapeString k.data ++ (dquote ::
            (Char.ofNat 58 :: ((if p then [Char.ofNat 32] else []) ++
              (render p ind v ++ (Char.ofNat 44 ::
                ((if p then Char.ofNat 10 :: pad ind else []) ++
                  (renderFields p ind (JObj.cons k2 v2 r2) ++
                    (ws2 ++ Char.ofNat 125 :: tail))))))))) := by
        rw [skipWs_append _ _ hws]
        exact skipWs_cons_not _ _ (by decide)
      rw [hskip]
      dsimp only
      rw [if_neg (show ¬ (dquote.toNat = 125) by decide),
        if_pos (show dquote = dquote from rfl)]
      rw [parseStringBody_escape]
      dsimp only
      rw [skipWs_cons_not _ _ (by decide)]
      dsimp only
      rw [if_pos (show (Char.ofNat 58).toNat = 58 by decide)]
      have hlen : (renderFields p ind (JObj.cons k v (JObj.cons k2 v2 r2))).length =
          (quoteChars k).length + 1 + (if p then [Char.ofNat 32] else []).length +
            (render p ind v).length + 1 +
            (if p then Char.ofNat 10 :: pad ind else []).length +
            (renderFields p ind (JObj.cons k2 v2 r2)).length := by
        rw [hrf]
        simp
        omega
      have hvpos := render_length_pos p ind v
      have hpv : parseVal f ((if p then [Char.ofNat 32] else []) ++
          (render p ind v ++ (Char.ofNat 44 ::
            ((if p then Char.ofNat 10 :: pad ind else []) ++
              (renderFields p ind (JObj.cons k2 v2 r2) ++
                (ws2 ++ Char.ofNat 125 :: tail)))))) =
          some (v, Char.ofNat 44 ::
            ((if p then Char.ofNat 10 :: pad ind else []) ++
              (renderFields p ind (JObj.cons k2 v2 r2) ++
                (ws2 ++ Char.ofNat 125 :: tail)))) := by
        rw [show (if p then [Char.ofNat 32] else []) ++
          (render p ind v ++ (Char.ofNat 44 ::
            ((if p then Char.ofNat 10 :: pad ind else []) ++
              (renderFields p ind (JObj.cons k2 v2 r2) ++
                (ws2 ++ Char.ofNat 125 :: tail))))) =
          (if p then [Char.ofNat 32] else []) ++ render p ind v ++
            (Char.ofNat 44 :: ((if p then Char.ofNat 10 :: pad ind else []) ++
              (renderFields p ind (JObj.cons k2 v2 r2) ++
                (ws2 ++ Char.ofNat 125 :: tail)))) from by simp]
        refine parseVal_render p v ind f _ _ (by omega) (allWs_if_sp p) (goodTail_44 _)
      rw [hpv]
      dsimp only
      rw [skipWs_cons_not _ _ (by decide)]
      dsimp only
      rw [if_pos (show (Char.ofNat 44).toNat = 44 by decide)]
      have hrec : parseObjTail f ((if p then Char.ofNat 10 :: pad ind else []) ++
          (renderFields p ind (JObj.cons k2 v2 r2) ++ (ws2 ++ Char.ofNat 125 :: tail))) =
          some (JObj.cons k2 v2 r2, tail) := by
        rw [show (if p then Char.ofNat 10 :: pad ind else []) ++
          (renderFields p ind (JObj.cons k2 v2 r2) ++ (ws2 ++ Char.ofNat 125 :: tail)) =
          (if p then Char.ofNat 10 :: pad ind else []) ++
          renderFields p ind (JObj.cons k2 v2 r2) ++ ws2 ++ Char.ofNat 125 :: tail
          from by simp]
        exact parseObjTail_renderFields p (JObj.cons k2 v2 r2) ind f _ ws2 tail
          (by omega) (allWs_if_nlpad p ind) hws2
      rw [hrec]
      rw [show String.mk (List.reverse [] ++ k.data) = k from by
        rw [List.reverse_nil, List.nil_append]]
termination_by sizeOf fields

end

theorem parseJson_render (p : Bool) (v : JValue) :
    parseJson (String.mk (render p 0 v)) = some v := by
  unfold parseJson
  rw [show (String.mk (render p 0 v)).length = (render p 0 v).length from rfl]
  rw [show (String.mk (render p 0 v)).data = render p 0 v from rfl]
  have hpv : parseVal (2 * (render p 0 v).length + 2) (render p 0 v) = some (v, []) := by
    have h := parseVal_render p v 0 (2 * (render p 0 v).length + 2) [] []
      (by have := render_length_pos p 0 v; omega) allWs_nil goodTail_nil
    rw [show ([] : List Char) ++ render p 0 v ++ [] = render p 0 v from by simp] at h
    exact h
  rw [hpv]
  dsimp only
  rw [if_pos (show skipWs ([] : List Char) = [] from rfl)]

theorem parseJson_serialize (m : Bool) (v : JValue) :
    parseJson (serializeJson m v) = some v := by
  cases m with
  | false =>
    show parseJson (stringifyPretty v) = some v
    exact parseJson_render true v
  | true =>
    show parseJson (stringifyMin v) = some v
    exact parseJson_render false v

theorem removeFieldsList_length (rm : List String) (xs : JArr) :
    (removeFieldsList rm xs).length = xs.length := by
  cases xs with
  | nil => rfl
  | cons x t =>
    show (removeFieldsList rm t).length + 1 = t.length + 1
    rw [removeFieldsList_length rm t]
termination_by sizeOf xs

theorem truncateArraysList_length (L : Nat) (xs : JArr) :
    (truncateArraysList L xs).length = xs.length := by
  cases xs with
  | nil => rfl
  | cons x t =>
    show (truncateArraysList L t).length + 1 = t.length + 1
    rw [truncateArraysList_length L t]
termination_by sizeOf xs

theorem truncTakeRec_length (L : Nat) (xs : JArr) : ∀ (n : Nat),
    (truncTakeRec L n xs).length = min n xs.length := by
  intro n
  cases xs with
  | nil =>
    cases n <;> simp [truncTakeRec, JArr.length]
  | cons x t =>
    cases n with
    | zero => simp [truncTakeRec, JArr.length]
    | succ m =>
      show (truncTakeRec L m t).length + 1 = min (m + 1) (t.length + 1)
      rw [truncTakeRec_length L t m]
      omega
termination_by sizeOf xs

theorem truncDropRec_length (L : Nat) (xs : JArr) : ∀ (n : Nat),
    (truncDropRec L n xs).length = xs.length - n := by
  intro n
  cases xs with
  | nil =>
    cases n <;> simp [truncDropRec, JArr.length]
  | cons x t =>
    cases n with
    | zero =>
      show (truncDropRec L 0 t).length + 1 = t.length + 1 - 0
      rw [truncDropRec_length L t 0]
      omega
    | succ m =>
      show (truncDropRec L m t).length = t.length + 1 - (m + 1)
      rw [truncDropRec_length L t m]
      omega
termination_by sizeOf xs

theorem lookup_removeFieldsObj (rm : List String) (name : String) (hn : name ∉ rm) (fs : JObj) :
    JObj.lookup name (removeFieldsObj rm fs) =
      Option.map (removeFields rm) (JObj.lookup name fs) := by
  cases fs with
  | nil => rfl
  | cons k v t =>
    have ih := lookup_removeFieldsObj rm name hn t
    by_cases hk : k ∈ rm
    · have hkn : ¬ (k = name) := fun he => hn (he ▸ hk)
      simp [removeFieldsObj, JObj.lookup, hk, hkn, ih]
    · by_cases hkn : k = name
      · subst hkn
        simp [removeFieldsObj, JObj.lookup, hk]
      · simp [removeFieldsObj, JObj.lookup, hk, hkn, ih]
termination_by sizeOf fs

theorem lookup_truncateArraysObj (L : Nat) (name : String) (fs : JObj) :
    JObj.lookup name (truncateArraysObj L fs) =
      Option.map (truncateArrays L) (JObj.lookup name fs) := by
  cases fs with
  | nil => rfl
  | cons k v t =>
    have ih := lookup_truncateArraysObj L name t
    by_cases hkn : k = name <;> simp [truncateArraysObj, JObj.lookup, hkn, ih]
termination_by sizeOf fs

theorem objFieldsOf_removeFields (rm : List String) (a : JValue) :
    objFieldsOf (removeFields rm a) = Option.map (removeFieldsObj rm) (objFieldsOf a) := by
  cases a <;> rfl

theorem objFieldsOf_truncateArrays (L : Nat) (a : JValue) :
    objFieldsOf (truncateArrays L a) = Option.map (truncateArraysObj L) (objFieldsOf a) := by
  cases a with
  | arr items =>
    show objFieldsOf (truncateArrays L (JValue.arr items)) = some JObj.nil
    unfold truncateArrays
    split
    · rfl
    · split
      · rfl
      · split <;> rfl
      · rfl
  | null => rfl
  | bool b => rfl
  | num n => rfl
  | str s => rfl
  | obj fs => rfl

theorem detectGo_removeFields (rm : List String) (fa fb : JObj) :
    ∀ names : List String, (∀ nm ∈ names, nm ∉ rm) →
      detectGo (removeFieldsObj rm fa) (removeFieldsObj rm fb) names = detectGo fa fb names := by
  intro names
  induction names with
  | nil => intro h; rfl
  | cons nm rest ih =>
    intro h
    have hn : nm ∉ rm := h nm (List.mem_cons_self nm rest)
    have hrest : ∀ x ∈ rest, x ∉ rm := fun x hx => h x (List.mem_cons_of_mem nm hx)
    have hunf : ∀ (ga gb : JObj), detectGo ga gb (nm :: rest) =
        match JObj.lookup nm ga, JObj.lookup nm gb with
        | some (.str s1), some (.str s2) =>
          (match parseIsoDate s1, parseIsoDate s2 with
          | some d1, some d2 =>
              if dateKey d1 > dateKey d2 then DateOrdering.newestFirst
              else DateOrdering.oldestFirst
          | _, _ => detectGo ga gb rest)
        | _, _ => detectGo ga gb rest := fun ga gb => rfl
    rw [hunf, hunf, lookup_removeFieldsObj rm nm hn fa, lookup_removeFieldsObj rm nm hn fb]
    rcases hfa : JObj.lookup nm fa with - | va
    · dsimp only [Option.map]
      exact ih hrest
    · rcases hfb : JObj.lookup nm fb with - | vb
      · dsimp only [Option.map]
        cases va <;> exact ih hrest
      · dsimp only [Option.map]
        cases va <;> cases vb <;> dsimp only [removeFields] <;> try exact ih hrest
        rcases parseIsoDate _ with - | d1 <;> rcases parseIsoDate _ with - | d2 <;>
          dsimp only <;> first | rfl | exact ih hrest

theorem truncateArrays_arr_shape (L : Nat) (items : JArr) :
    ∃ ys, truncateArrays L (JValue.arr items) = JValue.arr ys := by
  unfold truncateArrays
  split
  · exact ⟨_, rfl⟩
  · split
    · exact ⟨_, rfl⟩
    · split <;> exact ⟨_, rfl⟩
    · exact ⟨_, rfl⟩

theorem detectGo_truncateArrays (L : Nat) (fa fb : JObj) :
    ∀ names : List String,
      detectGo (truncateArraysObj L fa) (truncateArraysObj L fb) names = detectGo fa fb names := by
  intro names
  induction names with
  | nil => rfl
  | cons nm rest ih =>
    have hunf : ∀ (ga gb : JObj), detectGo ga gb (nm :: rest) =
        match JObj.lookup nm ga, JObj.lookup nm gb with
        | some (.str s1), some (.str s2) =>
          (match parseIsoDate s1, parseIsoDate s2 with
          | some d1, some d2 =>
              if dateKey d1 > dateKey d2 then DateOrdering.newestFirst
              else DateOrdering.oldestFirst
          | _, _ => detectGo ga gb rest)
        | _, _ => detectGo ga gb rest := fun ga gb => rfl
    rw [hunf, hunf, lookup_truncateArraysObj L nm fa, lookup_truncateArraysObj L nm fb]
    rcases hfa : JObj.lookup nm fa with - | va
    · dsimp only [Option.map]
      exact ih
    · rcases hfb : JObj.lookup nm fb with - | vb
      · dsimp only [Option.map]
        cases va with
        | arr items =>
          obtain ⟨ys, hys⟩ := truncateArrays_arr_shape L items
          rw [hys]
          dsimp only
          exact ih
        | null => dsimp only [truncateArrays]; exact ih
        | bool b => dsimp only [truncateArrays]; exact ih
        | num n => dsimp only [truncateArrays]; exact ih
        | str s => dsimp only [truncateArrays]; exact ih
        | obj gs => dsimp only [truncateArrays]; exact ih
      · dsimp only [Option.map]
        cases va with
        | str s1 =>
          cases vb with
          | str s2 =>
            dsimp only [truncateArrays]
            rcases parseIsoDate s1 with - | d1 <;> rcases parseIsoDate s2 with - | d2 <;>
              dsimp only <;> first | rfl | exact ih
          | arr items =>
            obtain ⟨ys, hys⟩ := truncateArrays_arr_shape L items
            rw [hys]
            dsimp only [truncateArrays]
            exact ih
          | null => dsimp only [truncateArrays]; exact ih
          | bool b => dsimp only [truncateArrays]; exact ih
          | num n => dsimp only [truncateArrays]; exact ih
          | obj gs => dsimp only [truncateArrays]; exact ih
        | arr items =>
          obtain ⟨ys, hys⟩ := truncateArrays_arr_shape L items
          rw [hys]
          dsimp only
          exact ih
        | null => dsimp only [truncateArrays]; exact ih
        | bool b => dsimp only [truncateArrays]; exact ih
        | num n => dsimp only [truncateArrays]; exact ih
        | obj gs => dsimp only [truncateArrays]; exact ih

theorem detect_removeFieldsList (rm : List String)
    (hdisj : ∀ nm ∈ detectDateFieldNames, nm ∉ rm) (items : JArr) :
    detectDateOrdering (removeFieldsList rm items) = detectDateOrdering items := by
  cases items with
  | nil => rfl
  | cons a t =>
    cases t with
    | nil => rfl
    | cons b t2 =>
      show detectDateOrdering (JArr.cons (removeFields rm a) (JArr.cons (removeFields rm b)
        (removeFieldsList rm t2))) = _
      unfold detectDateOrdering
      dsimp only
      rw [objFieldsOf_removeFields, objFieldsOf_removeFields]
      rcases ha : objFieldsOf a with - | fa <;> rcases hb : objFieldsOf b with - | fb <;>
        dsimp only [Option.map]
      exact detectGo_removeFields rm fa fb detectDateFieldNames hdisj

theorem detect_truncateArraysList (L : Nat) (items : JArr) :
    detectDateOrdering (truncateArraysList L items) = detectDateOrdering items := by
  cases items with
  | nil => rfl
  | cons a t =>
    cases t with
    | nil => rfl
    | cons b t2 =>
      show detectDateOrdering (JArr.cons (truncateArrays L a) (JArr.cons (truncateArrays L b)
        (truncateArraysList L t2))) = _
      unfold detectDateOrdering
      dsimp only
      rw [objFieldsOf_truncateArrays, objFieldsOf_truncateArrays]
      rcases ha : objFieldsOf a with - | fa <;> rcases hb : objFieldsOf b with - | fb <;>
        dsimp only [Option.map]
      exact detectGo_truncateArrays L fa fb detectDateFieldNames

theorem verbose_detect_disjoint : ∀ nm ∈ detectDateFieldNames, nm ∉ VERBOSE_FIELDS := by
  decide

theorem removeFieldsObj_cons (rm : List String) (k : String) (v : JValue) (t : JObj) :
    removeFieldsObj rm (JObj.cons k v t) =
      if k ∈ rm then removeFieldsObj rm t
      else JObj.cons k (removeFields rm v) (removeFieldsObj rm t) := rfl

mutual

theorem removeFields_idem (rm : List String) (v : JValue) :
    removeFields rm (removeFields rm v) = removeFields rm v := by
  cases v with
  | null => rfl
  | bool b => rfl
  | num n => rfl
  | str s => rfl
  | arr items =>
    show JValue.arr (removeFieldsList rm (removeFieldsList rm items)) =
      JValue.arr (removeFieldsList rm items)
    rw [removeFieldsList_idem rm items]
  | obj fs =>
    show JValue.obj (removeFieldsObj rm (removeFieldsObj rm fs)) =
      JValue.obj (removeFieldsObj rm fs)
    rw [removeFieldsObj_idem rm fs]
termination_by sizeOf v

theorem removeFieldsList_idem (rm : List String) (xs : JArr) :
    removeFieldsList rm (removeFieldsList rm xs) = removeFieldsList rm xs := by
  cases xs with
  | nil => rfl
  | cons x t =>
    show JArr.cons (removeFields rm (removeFields rm x))
      (removeFieldsList rm (removeFieldsList rm t)) =
      JArr.cons (removeFields rm x) (removeFieldsList rm t)
    rw [removeFields_idem rm x, removeFieldsList_idem rm t]
termination_by sizeOf xs

theorem removeFieldsObj_idem (rm : List String) (fs : JObj) :
    removeFieldsObj rm (removeFieldsObj rm fs) = removeFieldsObj rm fs := by
  cases fs with
  | nil => rfl
  | cons k v t =>
    by_cases hk : k ∈ rm
    · rw [show removeFieldsObj rm (JObj.cons k v t) = removeFieldsObj rm t from by
        rw [removeFieldsObj_cons, if_pos hk]]
      exact removeFieldsObj_idem rm t
    · rw [show removeFieldsObj rm (JObj.cons k v t) =
        JObj.cons k (removeFields rm v) (removeFieldsObj rm t) from by
        rw [removeFieldsObj_cons, if_neg hk]]
      rw [show removeFieldsObj rm (JObj.cons k (removeFields rm v) (removeFieldsObj rm t)) =
        JObj.cons k (removeFields rm (removeFields rm v))
          (removeFieldsObj rm (removeFieldsObj rm t)) from by
        rw [removeFieldsObj_cons, if_neg hk]]
      rw [removeFields_idem rm v, removeFieldsObj_idem rm t]
termination_by sizeOf fs

end

mutual

theorem truncRemove_comm (L : Nat) (rm : List String)
    (hdisj : ∀ nm ∈ detectDateFieldNames, nm ∉ rm) (v : JValue) :
    truncateArrays L (removeFields rm v) = removeFields rm (truncateArrays L v) := by
  cases v with
  | null => rfl
  | bool b => rfl
  | num n => rfl
  | str s => rfl
  | obj fs =>
    show JValue.obj (truncateArraysObj L (removeFieldsObj rm fs)) =
      JValue.obj (removeFieldsObj rm (truncateArraysObj L fs))
    rw [truncRemoveObj_comm L rm hdisj fs]
  | arr items =>
    show truncateArrays L (JValue.arr (removeFieldsList rm items)) =
      removeFields rm (truncateArrays L (JValue.arr items))
    have hlen := removeFieldsList_length rm items
    have hdet := detect_removeFieldsList rm hdisj items
    by_cases hle : items.length ≤ L
    · rw [show truncateArrays L (JValue.arr (removeFieldsList rm items)) =
        JValue.arr (truncateArraysList L (removeFieldsList rm items)) from by
          unfold truncateArrays
          rw [hlen, if_pos hle]]
      rw [show truncateArrays L (JValue.arr items) = JValue.arr (truncateArraysList L items)
        from by unfold truncateArrays; rw [if_pos hle]]
      show JValue.arr (truncateArraysList L (removeFieldsList rm items)) =
        JValue.arr (removeFieldsList rm (truncateArraysList L items))
      rw [truncRemoveList_comm L rm hdisj items]
    · cases hdd : detectDateOrdering items with
      | newestFirst =>
        rw [show truncateArrays L (JValue.arr (removeFieldsList rm items)) =
          JValue.arr (truncTakeRec L L (removeFieldsList rm items)) from by
            unfold truncateArrays
            rw [hlen, if_neg hle, hdet, hdd]]
        rw [show truncateArrays L (JValue.arr items) =
          JValue.arr (truncTakeRec L L items) from by
            unfold truncateArrays
            rw [if_neg hle, hdd]]
        show JValue.arr (truncTakeRec L L (removeFieldsList rm items)) =
          JValue.arr (removeFieldsList rm (truncTakeRec L L items))
        rw [truncRemoveTake_comm L rm hdisj items L]
      | oldestFirst =>
        by_cases hL : L = 0
        · subst hL
          rw [show truncateArrays 0 (JValue.arr (removeFieldsList rm items)) =
            JValue.arr (truncateArraysList 0 (removeFieldsList rm items)) from by
              unfold truncateArrays
              rw [hlen, if_neg hle, hdet, hdd]
              dsimp only
              rw [if_pos rfl]]
          rw [show truncateArrays 0 (JValue.arr items) =
            JValue.arr (truncateArraysList 0 items) from by
              unfold truncateArrays
              rw [if_neg hle, hdd]
              dsimp only
              rw [if_pos rfl]]
          show JValue.arr (truncateArraysList 0 (removeFieldsList rm items)) =
            JValue.arr (removeFieldsList rm (truncateArraysList 0 items))
          rw [truncRemoveList_comm 0 rm hdisj items]
        · rw [show truncateArrays L (JValue.arr (removeFieldsList rm items)) =
            JValue.arr (truncDropRec L (items.length - L) (removeFieldsList rm items)) from by
              unfold truncateArrays
              rw [hlen, if_neg hle, hdet, hdd]
              dsimp only
              rw [if_neg hL]]
          rw [show truncateArrays L (JValue.arr items) =
            JValue.arr (truncDropRec L (items.length - L) items) from by
              unfold truncateArrays
              rw [if_neg hle, hdd]
              dsimp only
              rw [if_neg hL]]
          show JValue.arr (truncDropRec L (items.length - L) (removeFieldsList rm items)) =
            JValue.arr (removeFieldsList rm (truncDropRec L (items.length - L) items))
          rw [truncRemoveDrop_comm L rm hdisj items (items.length - L)]
      | unknown =>
        rw [show truncateArrays L (JValue.arr (removeFieldsList rm items)) =
          JValue.arr (truncTakeRec L L (removeFieldsList rm items)) from by
            unfold truncateArrays
            rw [hlen, if_neg hle, hdet, hdd]]
        rw [show truncateArrays L (JValue.arr items) =
          JValue.arr (truncTakeRec L L items) from by
            unfold truncateArrays
            rw [if_neg hle, hdd]]
        show JValue.arr (truncTakeRec L L (removeFieldsList rm items)) =
          JValue.arr (removeFieldsList rm (truncTakeRec L L items))
        rw [truncRemoveTake_comm L rm hdisj items L]
termination_by sizeOf v

theorem truncRemoveList_comm (L : Nat) (rm : List String)
    (hdisj : ∀ nm ∈ detectDateFieldNames, nm ∉ rm) (xs : JArr) :
    truncateArraysList L (removeFieldsList rm xs) =
      removeFieldsList rm (truncateArraysList L xs) := by
  cases xs with
  | nil => rfl
  | cons x t =>
    show JArr.cons (truncateArrays L (removeFields rm x))
      (truncateArraysList L (removeFieldsList rm t)) =
      JArr.cons (removeFields rm (truncateArrays L x))
        (removeFieldsList rm (truncateArraysList L t))
    rw [truncRemove_comm L rm hdisj x, truncRemoveList_comm L rm hdisj t]
termination_by sizeOf xs

theorem truncRemoveTake_comm (L : Nat) (rm : List String)
    (hdisj : ∀ nm ∈ detectDateFieldNames, nm ∉ rm) (xs : JArr) : ∀ (n : Nat),
    truncTakeRec L n (removeFieldsList rm xs) = removeFieldsList rm (truncTakeRec L n xs) := by
  intro n
  cases xs with
  | nil => cases n <;> simp [truncTakeRec, removeFieldsList]
  | cons x t =>
    cases n with
    | zero => rfl
    | succ m =>
      show JArr.cons (truncateArrays L (removeFields rm x))
        (truncTakeRec L m (removeFieldsList rm t)) =
        JArr.cons (removeFields rm (truncateArrays L x))
          (removeFieldsList rm (truncTakeRec L m t))
      rw [truncRemove_comm L rm hdisj x, truncRemoveTake_comm L rm hdisj t m]
termination_by sizeOf xs

theorem truncRemoveDrop_comm (L : Nat) (rm : List String)
    (hdisj : ∀ nm ∈ detectDateFieldNames, nm ∉ rm) (xs : JArr) : ∀ (n : Nat),
    truncDropRec L n (removeFieldsList rm xs) = removeFieldsList rm (truncDropRec L n xs) := by
  intro n
  cases xs with
  | nil => cases n <;> simp [truncDropRec, removeFieldsList]
  | cons x t =>
    cases n with
    | zero =>
      show JArr.cons (truncateArrays L (removeFields rm x))
        (truncDropRec L 0 (removeFieldsList rm t)) =
        JArr.cons (removeFields rm (truncateArrays L x))
          (removeFieldsList rm (truncDropRec L 0 t))
      rw [truncRemove_comm L rm hdisj x, truncRemoveDrop_comm L rm hdisj t 0]
    | succ m =>
      show truncDropRec L m (removeFieldsList rm t) = removeFieldsList rm (truncDropRec L m t)
      exact truncRemoveDrop_comm L rm hdisj t m
termination_by sizeOf xs

theorem truncRemoveObj_comm (L : Nat) (rm : List String)
    (hdisj : ∀ nm ∈ detectDateFieldNames, nm ∉ rm) (fs : JObj) :
    truncateArraysObj L (removeFieldsObj rm fs) =
      removeFieldsObj rm (truncateArraysObj L fs) := by
  cases fs with
  | nil => rfl
  | cons k v t =>
    by_cases hk : k ∈ rm
    · rw [show removeFieldsObj rm (JObj.cons k v t) = removeFieldsObj rm t from by
        rw [removeFieldsObj_cons, if_pos hk]]
      rw [show truncateArraysObj L (JObj.cons k v t) =
        JObj.cons k (truncateArrays L v) (truncateArraysObj L t) from rfl]
      rw [show removeFieldsObj rm (JObj.cons k (truncateArrays L v) (truncateArraysObj L t)) =
        removeFieldsObj rm (truncateArraysObj L t) from by
        rw [removeFieldsObj_cons, if_pos hk]]
      exact truncRemoveObj_comm L rm hdisj t
    · rw [show removeFieldsObj rm (JObj.cons k v t) =
        JObj.cons k (removeFields rm v) (removeFieldsObj rm t) from by
        rw [removeFieldsObj_cons, if_neg hk]]
      rw [show truncateArraysObj L (JObj.cons k v t) =
        JObj.cons k (truncateArrays L v) (truncateArraysObj L t) from rfl]
      rw [show removeFieldsObj rm (JObj.cons k (truncateArrays L v) (truncateArraysObj L t)) =
        JObj.cons k (removeFields rm (truncateArrays L v))
          (removeFieldsObj rm (truncateArraysObj L t)) from by
        rw [removeFieldsObj_cons, if_neg hk]]
      show JObj.cons k (truncateArrays L (removeFields rm v))
        (truncateArraysObj L (removeFieldsObj rm t)) = _
      rw [truncRemove_comm L rm hdisj v, truncRemoveObj_comm L rm hdisj t]
termination_by sizeOf fs

end

mutual

theorem truncateArrays_idem (L : Nat) (v : JValue) :
    truncateArrays L (truncateArrays L v) = truncateArrays L v := by
  cases v with
  | null => rfl
  | bool b => rfl
  | num n => rfl
  | str s => rfl
  | obj fs =>
    show JValue.obj (truncateArraysObj L (truncateArraysObj L fs)) =
      JValue.obj (truncateArraysObj L fs)
    rw [truncateArraysObj_idem L fs]
  | arr items =>
    by_cases hle : items.length ≤ L
    · rw [show truncateArrays L (JValue.arr items) = JValue.arr (truncateArraysList L items)
        from by unfold truncateArrays; rw [if_pos hle]]
      rw [show truncateArrays L (JValue.arr (truncateArraysList L items)) =
        JValue.arr (truncateArraysList L (truncateArraysList L items)) from by
          unfold truncateArrays
          rw [truncateArraysList_length, if_pos hle]]
      rw [truncateArraysList_idem L items]
    · cases hdd : detectDateOrdering items with
      | newestFirst =>
        rw [show truncateArrays L (JValue.arr items) = JValue.arr (truncTakeRec L L items)
          from by unfold truncateArrays; rw [if_neg hle, hdd]]
        have hlen2 : (truncTakeRec L L items).length ≤ L := by
          rw [truncTakeRec_length]
          omega
        rw [show truncateArrays L (JValue.arr (truncTakeRec L L items)) =
          JValue.arr (truncateArraysList L (truncTakeRec L L items)) from by
            unfold truncateArrays
            rw [if_pos hlen2]]
        rw [truncTakeRec_fix L items L]
      | oldestFirst =>
        by_cases hL : L = 0
        · subst hL
          rw [show truncateArrays 0 (JValue.arr items) = JValue.arr (truncateArraysList 0 items)
            from by
              unfold truncateArrays
              rw [if_neg hle, hdd]
              dsimp only
              rw [if_pos rfl]]
          have hlen2 : ¬ ((truncateArraysList 0 items).length ≤ 0) := by
            rw [truncateArraysList_length]
            omega
          have hdet2 : detectDateOrdering (truncateArraysList 0 items) =
              DateOrdering.oldestFirst := by
            rw [detect_truncateArraysList]
            exact hdd
          rw [show truncateArrays 0 (JValue.arr (truncateArraysList 0 items)) =
            JValue.arr (truncateArraysList 0 (truncateArraysList 0 items)) from by
              unfold truncateArrays
              rw [if_neg hlen2, hdet2]
              dsimp only
              rw [if_pos rfl]]
          rw [truncateArraysList_idem 0 items]
        · rw [show truncateArrays L (JValue.arr items) =
            JValue.arr (truncDropRec L (items.length - L) items) from by
              unfold truncateArrays
              rw [if_neg hle, hdd]
              dsimp only
              rw [if_neg hL]]
          have hlen2 : (truncDropRec L (items.length - L) items).length ≤ L := by
            rw [truncDropRec_length]
            omega
          rw [show truncateArrays L (JValue.arr (truncDropRec L (items.length - L) items)) =
            JValue.arr (truncateArraysList L (truncDropRec L (items.length - L) items)) from by
              unfold truncateArrays
              rw [if_pos hlen2]]
          rw [truncDropRec_fix L items (items.length - L)]
      | unknown =>
        rw [show truncateArrays L (JValue.arr items) = JValue.arr (truncTakeRec L L items)
          from by unfold truncateArrays; rw [if_neg hle, hdd]]
        have hlen2 : (truncTakeRec L L items).length ≤ L := by
          rw [truncTakeRec_length]
          omega
        rw [show truncateArrays L (JValue.arr (truncTakeRec L L items)) =
          JValue.arr (truncateArraysList L (truncTakeRec L L items)) from by
            unfold truncateArrays
            rw [if_pos hlen2]]
        rw [truncTakeRec_fix L items L]
termination_by sizeOf v

theorem truncateArraysList_idem (L : Nat) (xs : JArr) :
    truncateArraysList L (truncateArraysList L xs) = truncateArraysList L xs := by
  cases xs with
  | nil => rfl
  | cons x t =>
    show JArr.cons (truncateArrays L (truncateArrays L x))
      (truncateArraysList L (truncateArraysList L t)) =
      JArr.cons (truncateArrays L x) (truncateArraysList L t)
    rw [truncateArrays_idem L x, truncateArraysList_idem L t]
termination_by sizeOf xs

theorem truncTakeRec_fix (L : Nat) (xs : JArr) : ∀ (n : Nat),
    truncateArraysList L (truncTakeRec L n xs) = truncTakeRec L n xs := by
  intro n
  cases xs with
  | nil => cases n <;> rfl
  | cons x t =>
    cases n with
    | zero => rfl
    | succ m =>
      show JArr.cons (truncateArrays L (truncateArrays L x))
        (truncateArraysList L (truncTakeRec L m t)) =
        JArr.cons (truncateArrays L x) (truncTakeRec L m t)
      rw [truncateArrays_idem L x, truncTakeRec_fix L t m]
termination_by sizeOf xs

theorem truncDropRec_fix (L : Nat) (xs : JArr) : ∀ (n : Nat),
    truncateArraysList L (truncDropRec L n xs) = truncDropRec L n xs := by
  intro n
  cases xs with
  | nil => cases n <;> simp [truncDropRec, truncateArraysList]
  | cons x t =>
    cases n with
    | zero =>
      show JArr.cons (truncateArrays L (truncateArrays L x))
        (truncateArraysList L (truncDropRec L 0 t)) =
        JArr.cons (truncateArrays L x) (truncDropRec L 0 t)
      rw [truncateArrays_idem L x, truncDropRec_fix L t 0]
    | succ m =>
      show truncateArraysList L (truncDropRec L m t) = truncDropRec L m t
      exact truncDropRec_fix L t m
termination_by sizeOf xs

theorem truncateArraysObj_idem (L : Nat) (fs : JObj) :
    truncateArraysObj L (truncateArraysObj L fs) = truncateArraysObj L fs := by
  cases fs with
  | nil => rfl
  | cons k v t =>
    show JObj.cons k (truncateArrays L (truncateArrays L v))
      (truncateArraysObj L (truncateArraysObj L t)) =
      JObj.cons k (truncateArrays L v) (truncateArraysObj L t)
    rw [truncateArrays_idem L v, truncateArraysObj_idem L t]
termination_by sizeOf fs

end

theorem compactPasses_none (now : JDate) (opts : CompactOptions) (parsed : JValue) (L : Nat)
    (h1 : opts.truncateUrls = false) :
    compactPasses now opts none parsed L =
      (if opts.removeVerboseFields then removeFields VERBOSE_FIELDS (truncateArrays L parsed)
       else truncateArrays L parsed) := by
  unfold compactPasses
  dsimp only
  rw [h1]
  simp only [Bool.false_eq_true, if_false]

theorem compactPasses_idem (now : JDate) (opts : CompactOptions) (parsed : JValue) (L : Nat)
    (h1 : opts.truncateUrls = false) :
    compactPasses now opts none (compactPasses now opts none parsed L) L =
      compactPasses now opts none parsed L := by
  rw [compactPasses_none now opts parsed L h1,
    compactPasses_none now opts _ L h1]
  cases hrv : opts.removeVerboseFields with
  | false =>
    simp only [Bool.false_eq_true, if_false]
    exact truncateArrays_idem L parsed
  | true =>
    simp only [if_true]
    rw [truncRemove_comm L VERBOSE_FIELDS verbose_detect_disjoint (truncateArrays L parsed)]
    rw [truncateArrays_idem L parsed]
    rw [removeFields_idem]

theorem compactCore_fits (now : JDate) (opts : CompactOptions) (qctx : Option QueryContext)
    (parsed : JValue)
    (hfit : estimateJsonTokens (serializeJson opts.minify
      (compactPasses now opts qctx parsed opts.maxArrayLength)) ≤ opts.maxTokens) :
    compactCore now opts qctx parsed =
      serializeJson opts.minify (compactPasses now opts qctx parsed opts.maxArrayLength) := by
  unfold compactCore shrinkLoop
  dsimp only
  rw [show shrinkLoopF now opts qctx parsed (opts.maxArrayLength + 1) opts.maxArrayLength
      (serializeJson opts.minify (compactPasses now opts qctx parsed opts.maxArrayLength)) =
      serializeJson opts.minify (compactPasses now opts qctx parsed opts.maxArrayLength) from by
    rw [shrinkLoopF]
    rw [if_neg (by
      intro hcon
      omega)]]
  rw [if_neg (by omega)]

theorem compactJson_core (now : JDate) (opts : CompactOptions) (x : CompactInput)
    (parsed : JValue)
    (h2 : opts.query = none) (h3 : opts.queryContext = none)
    (hx : inputValue x = some parsed) :
    compactJson now x opts = compactCore now opts none parsed := by
  unfold compactJson
  rw [h3]
  dsimp only
  rw [h2]
  dsimp only
  cases x with
  | jval v =>
    have hv : v = parsed := by
      have : some v = some parsed := hx
      exact Option.some.inj this
    rw [hv]
  | raw s =>
    dsimp only
    have hp : parseJson s = some parsed := hx
    rw [hp]


/-- C6 amended: with URL truncation off and no query, an input whose first
compaction pass already fits the token budget is a fixed point: compacting
the compacted output again returns it unchanged. -/
theorem dexter_c6_amended (now : JDate) (opts : CompactOptions) (x : CompactInput)
    (parsed : JValue)
    (h1 : opts.truncateUrls = false) (h2 : opts.query = none) (h3 : opts.queryContext = none)
    (hx : inputValue x = some parsed)
    (hfit : estimateJsonTokens (serializeJson opts.minify
      (compactPasses now opts none parsed opts.maxArrayLength)) ≤ opts.maxTokens) :
    compactJson now (.raw (compactJson now x opts)) opts = compactJson now x opts := by
  have hfirst : compactJson now x opts =
      serializeJson opts.minify (compactPasses now opts none parsed opts.maxArrayLength) := by
    rw [compactJson_core now opts x parsed h2 h3 hx, compactCore_fits now opts none parsed hfit]
  have hparse : inputValue (CompactInput.raw (compactJson now x opts)) =
      some (compactPasses now opts none parsed opts.maxArrayLength) := by
    show parseJson (compactJson now x opts) = _
    rw [hfirst]
    exact parseJson_serialize opts.minify _
  have hfit2 : estimateJsonTokens (serializeJson opts.minify
      (compactPasses now opts none (compactPasses now opts none parsed opts.maxArrayLength)
        opts.maxArrayLength)) ≤ opts.maxTokens := by
    rw [compactPasses_idem now opts parsed opts.maxArrayLength h1]
    exact hfit
  rw [compactJson_core now opts (CompactInput.raw (compactJson now x opts))
    (compactPasses now opts none parsed opts.maxArrayLength) h2 h3 hparse]
  rw [compactCore_fits now opts none (compactPasses now opts none parsed opts.maxArrayLength)
    hfit2]
  rw [compactPasses_idem now opts parsed opts.maxArrayLength h1]
  exact hfirst.symm

/-- C6 counterexample: a sixty-character non-URL string in the truncatable
image field fits the budget after the first pass, yet the pass appends an
ellipsis on every application, so compacting twice differs from compacting
once. -/
theorem dexter_c6_counterexample :
    estimateJsonTokens (serializeJson true
      (compactPasses witnessNow (defaultOptions 1000) none imgObj 50)) ≤ 1000 ∧
    compactJson witnessNow (.raw (compactJson witnessNow (.jval imgObj) (defaultOptions 1000)))
        (defaultOptions 1000) ≠
      compactJson witnessNow (.jval imgObj) (defaultOptions 1000) := by
  constructor
  · decide
  · decide

/-- C6 witness: the amended idempotence applied at a concrete object and
options with URL truncation disabled. -/
theorem dexter_c6_witness :
    (defaultOptions 1000).truncateUrls = true ∧
    inputValue (CompactInput.jval imgObj) = some imgObj ∧
    estimateJsonTokens (serializeJson true (compactPasses witnessNow
      ⟨1000, 3, true, false, true, none, none⟩ none imgObj 3)) ≤ 1000 ∧
    compactJson witnessNow (.raw (compactJson witnessNow (.jval imgObj)
        ⟨1000, 3, true, false, true, none, none⟩)) ⟨1000, 3, true, false, true, none, none⟩ =
      compactJson witnessNow (.jval imgObj) ⟨1000, 3, true, false, true, none, none⟩ :=
  ⟨rfl, rfl, by decide,
    dexter_c6_amended witnessNow ⟨1000, 3, true, false, true, none, none⟩
      (CompactInput.jval imgObj) imgObj rfl rfl rfl rfl (by decide)⟩
